import Mathlib

/-!
# StrandStorm: discrete elastic rod (`src/physics/ElasticRod.cpp`)

A shallow embedding of the rod simulator and theorems about it.

Number model.  The C++ code computes in `float`.  The embedding is generic in
a linearly ordered field `K` (instantiated with `ℚ` for evaluation and with `ℝ`
where an exact square root is needed); every arithmetic operation is the exact
field operation.  The square root is a parameter `sqrt : K → K`; theorems that
need it to be exact say so by a hypothesis `ExactSqrt sqrt`.  Rounding and
overflow are not modelled.  Division by zero follows the field convention
`a / 0 = 0`, where IEEE arithmetic gives Inf or NaN, and NaN is not
represented: the model agrees with the code on the states in which no divisor
is zero.  A theorem that evaluates a quotient, rather than restating the
code's expression for it, assumes that the divisor is non-zero
(`ElasticRod.kappaBDenom`, `ElasticRod.Regular`).

Containers.  `std::vector` is a `List`; `a[i]` is `List.getD a i 0` and
`a[i] = w` is `List.set`.  Reads and writes outside the vector are undefined
behaviour in C++ (so is a rod with fewer than two vertices, for which
`x.size() - 2` wraps); the model agrees with the code on states whose vectors
have the sizes `init` gives them, and every concrete state used below is one.
`int` indices are `Int`, `size_t` indices are `Nat`.
-/

set_option autoImplicit false

namespace StrandStorm

/-! ## Vectors and matrices (Eigen) -/

/-- Eigen `Vector3f` with exact components. -/
@[ext]
structure Vec3 (K : Type) where
  x : K
  y : K
  z : K
deriving DecidableEq

/-- Eigen `Vector2f` with exact components. -/
@[ext]
structure Vec2 (K : Type) where
  x : K
  y : K
deriving DecidableEq

/-- Eigen `Matrix3f`, stored by rows. -/
@[ext]
structure Mat3 (K : Type) where
  r0 : Vec3 K
  r1 : Vec3 K
  r2 : Vec3 K
deriving DecidableEq

/-- Eigen `Matrix2f`, stored by rows. -/
@[ext]
structure Mat2 (K : Type) where
  r0 : Vec2 K
  r1 : Vec2 K
deriving DecidableEq

/-- Eigen `Matrix<float, 2, 3>`, stored by rows. -/
@[ext]
structure Mat23 (K : Type) where
  r0 : Vec3 K
  r1 : Vec3 K
deriving DecidableEq

/-- Eigen `Matrix<float, 3, 2>` (the type of a transposed `Mat23`), by rows. -/
@[ext]
structure Mat32 (K : Type) where
  r0 : Vec2 K
  r1 : Vec2 K
  r2 : Vec2 K
deriving DecidableEq

/-- Eigen `Quaternionf` with coefficients `(w, x, y, z)`. -/
@[ext]
structure Quaternion (K : Type) where
  w : K
  x : K
  y : K
  z : K
deriving DecidableEq

section Algebra

variable {K : Type} [LinearOrderedField K]

instance : Zero (Vec3 K) := ⟨⟨0, 0, 0⟩⟩
instance : Add (Vec3 K) := ⟨fun a b => ⟨a.x + b.x, a.y + b.y, a.z + b.z⟩⟩
instance : Sub (Vec3 K) := ⟨fun a b => ⟨a.x - b.x, a.y - b.y, a.z - b.z⟩⟩
instance : Neg (Vec3 K) := ⟨fun a => ⟨-a.x, -a.y, -a.z⟩⟩
instance : SMul K (Vec3 K) := ⟨fun s a => ⟨s * a.x, s * a.y, s * a.z⟩⟩
instance : Inhabited (Vec3 K) := ⟨0⟩

instance : Zero (Vec2 K) := ⟨⟨0, 0⟩⟩
instance : Add (Vec2 K) := ⟨fun a b => ⟨a.x + b.x, a.y + b.y⟩⟩
instance : Sub (Vec2 K) := ⟨fun a b => ⟨a.x - b.x, a.y - b.y⟩⟩
instance : Neg (Vec2 K) := ⟨fun a => ⟨-a.x, -a.y⟩⟩
instance : SMul K (Vec2 K) := ⟨fun s a => ⟨s * a.x, s * a.y⟩⟩
instance : Inhabited (Vec2 K) := ⟨0⟩

instance : Zero (Mat3 K) := ⟨⟨0, 0, 0⟩⟩
instance : Add (Mat3 K) := ⟨fun a b => ⟨a.r0 + b.r0, a.r1 + b.r1, a.r2 + b.r2⟩⟩
instance : Sub (Mat3 K) := ⟨fun a b => ⟨a.r0 - b.r0, a.r1 - b.r1, a.r2 - b.r2⟩⟩
instance : Neg (Mat3 K) := ⟨fun a => ⟨-a.r0, -a.r1, -a.r2⟩⟩
instance : SMul K (Mat3 K) := ⟨fun s a => ⟨s • a.r0, s • a.r1, s • a.r2⟩⟩

instance : Zero (Mat23 K) := ⟨⟨0, 0⟩⟩
instance : Sub (Mat23 K) := ⟨fun a b => ⟨a.r0 - b.r0, a.r1 - b.r1⟩⟩

/-- Vector divided by a scalar (`v / s`), componentwise.  For `s = 0` the
field quotient is `0` where the code has NaN or Inf: the definition is the
code's for `s ≠ 0`. -/
def Vec3.divS (a : Vec3 K) (s : K) : Vec3 K := ⟨a.x / s, a.y / s, a.z / s⟩

/-- Eigen `a.dot(b)`. -/
def Vec3.dot (a b : Vec3 K) : K := a.x * b.x + a.y * b.y + a.z * b.z

/-- Eigen `a.cross(b)`. -/
def Vec3.cross (a b : Vec3 K) : Vec3 K :=
  ⟨a.y * b.z - a.z * b.y, a.z * b.x - a.x * b.z, a.x * b.y - a.y * b.x⟩

/-- Eigen `a.squaredNorm()`. -/
def Vec3.squaredNorm (a : Vec3 K) : K := a.x * a.x + a.y * a.y + a.z * a.z

/-- Eigen `a.norm()`: the square root of the squared norm. -/
def Vec3.norm (sqrt : K → K) (a : Vec3 K) : K := sqrt a.squaredNorm

/-- Eigen `a.normalized()`: `a / sqrt(a.squaredNorm())` when the squared norm is
positive, and `a` itself otherwise (Eigen returns a copy of a zero vector). -/
def Vec3.normalized (sqrt : K → K) (a : Vec3 K) : Vec3 K :=
  if 0 < a.squaredNorm then a.divS (sqrt a.squaredNorm) else a

/-- Eigen `a.prod()`: the product of the coefficients. -/
def Vec3.prod (a : Vec3 K) : K := a.x * a.y * a.z

/-- Eigen `a.array().abs()`: coefficientwise absolute value. -/
def Vec3.abs (a : Vec3 K) : Vec3 K := ⟨|a.x|, |a.y|, |a.z|⟩

/-- Coefficient access `a(d)` / `a[d]` for `d = 0, 1, 2`. -/
def Vec3.coeff (a : Vec3 K) (d : Nat) : K :=
  match d with
  | 0 => a.x
  | 1 => a.y
  | _ => a.z

/-- The column-vector times row-vector product `a * b.transpose()` (3×3). -/
def Vec3.outer (a b : Vec3 K) : Mat3 K :=
  ⟨⟨a.x * b.x, a.x * b.y, a.x * b.z⟩,
   ⟨a.y * b.x, a.y * b.y, a.y * b.z⟩,
   ⟨a.z * b.x, a.z * b.y, a.z * b.z⟩⟩

/-- The column 2-vector times row 3-vector product `w * g.transpose()` (2×3). -/
def Vec2.outer (w : Vec2 K) (g : Vec3 K) : Mat23 K :=
  ⟨⟨w.x * g.x, w.x * g.y, w.x * g.z⟩, ⟨w.y * g.x, w.y * g.y, w.y * g.z⟩⟩

/-- Matrix divided by a scalar, componentwise. -/
def Mat3.divS (m : Mat3 K) (s : K) : Mat3 K := ⟨m.r0.divS s, m.r1.divS s, m.r2.divS s⟩

/-- Matrix times column vector. -/
def Mat3.mulVec (m : Mat3 K) (a : Vec3 K) : Vec3 K := ⟨m.r0.dot a, m.r1.dot a, m.r2.dot a⟩

/-- Row vector times 3×3 matrix. -/
def Vec3.mulMat (a : Vec3 K) (m : Mat3 K) : Vec3 K :=
  ⟨a.x * m.r0.x + a.y * m.r1.x + a.z * m.r2.x,
   a.x * m.r0.y + a.y * m.r1.y + a.z * m.r2.y,
   a.x * m.r0.z + a.y * m.r1.z + a.z * m.r2.z⟩

/-- The product of a 2×3 matrix with a 3×3 matrix (`m *= g`). -/
def Mat23.mulMat3 (m : Mat23 K) (g : Mat3 K) : Mat23 K := ⟨m.r0.mulMat g, m.r1.mulMat g⟩

/-- Eigen `m.transpose()` of a 2×3 matrix. -/
def Mat23.transpose (m : Mat23 K) : Mat32 K :=
  ⟨⟨m.r0.x, m.r1.x⟩, ⟨m.r0.y, m.r1.y⟩, ⟨m.r0.z, m.r1.z⟩⟩

/-- Eigen `a.dot(b)` for 2-vectors. -/
def Vec2.dot (a b : Vec2 K) : K := a.x * b.x + a.y * b.y

/-- Row 2-vector times 2×2 matrix. -/
def Vec2.mulMat (a : Vec2 K) (m : Mat2 K) : Vec2 K :=
  ⟨a.x * m.r0.x + a.y * m.r1.x, a.x * m.r0.y + a.y * m.r1.y⟩

/-- The product of a 3×2 matrix with a 2×2 matrix. -/
def Mat32.mulMat2 (m : Mat32 K) (b : Mat2 K) : Mat32 K :=
  ⟨m.r0.mulMat b, m.r1.mulMat b, m.r2.mulMat b⟩

/-- The product of a 3×2 matrix with a column 2-vector. -/
def Mat32.mulVec (m : Mat32 K) (w : Vec2 K) : Vec3 K := ⟨m.r0.dot w, m.r1.dot w, m.r2.dot w⟩

/-- The product of a 2×2 matrix with a column 2-vector. -/
def Mat2.mulVec (m : Mat2 K) (w : Vec2 K) : Vec2 K := ⟨m.r0.dot w, m.r1.dot w⟩

/-- The matrix `Matrix2f::Identity() * s`. -/
def Mat2.scaledIdentity (s : K) : Mat2 K := ⟨⟨1 * s, 0 * s⟩, ⟨0 * s, 1 * s⟩⟩

/-- Modelled from the spec: `skew` of `Util.hpp`, which is not among the sources; the
cross-product matrix, `skew(a) * b = a × b`. -/
def skew (a : Vec3 K) : Mat3 K :=
  ⟨⟨0, -a.z, a.y⟩, ⟨a.z, 0, -a.x⟩, ⟨-a.y, a.x, 0⟩⟩

/-- Eigen quaternion product `p * q` (Hamilton product). -/
def Quaternion.mul (p q : Quaternion K) : Quaternion K :=
  ⟨p.w * q.w - p.x * q.x - p.y * q.y - p.z * q.z,
   p.w * q.x + p.x * q.w + p.y * q.z - p.z * q.y,
   p.w * q.y + p.y * q.w + p.z * q.x - p.x * q.z,
   p.w * q.z + p.z * q.w + p.x * q.y - p.y * q.x⟩

/-- Eigen `q.conjugate()`. -/
def Quaternion.conjugate (q : Quaternion K) : Quaternion K := ⟨q.w, -q.x, -q.y, -q.z⟩

/-- The square root is exact: on non-negative numbers it is the non-negative root. -/
def ExactSqrt (sqrt : K → K) : Prop := ∀ a : K, 0 ≤ a → 0 ≤ sqrt a ∧ sqrt a * sqrt a = a

/-- `std::clamp(v, lo, hi)` on `int`. -/
def clampInt (v lo hi : Int) : Int := if v < lo then lo else if hi < v then hi else v

/-- The counted loop `for (i = lo; i < lo + cnt; i++) s = body(i, s)`. -/
def forLoop {σ : Type} (body : Nat → σ → σ) : Nat → Nat → σ → σ
  | _, 0, s => s
  | lo, cnt + 1, s => forLoop body (lo + 1) cnt (body lo s)

/-- `std::vector::resize(n, d)`: keep the first `n` elements, pad with `d`. -/
def resize {α : Type} (l : List α) (n : Nat) (d : α) : List α :=
  l.take n ++ List.replicate (n - l.length) d

end Algebra

/-! ## Rod state -/

/-- The nested `ElasticRod::BishopFrame`. -/
@[ext]
structure BishopFrame (K : Type) where
  u : Vec3 K
  v : Vec3 K
deriving DecidableEq

/-- The nested `ElasticRod::MaterialFrame`. -/
@[ext]
structure MaterialFrame (K : Type) where
  m1 : Vec3 K
  m2 : Vec3 K
deriving DecidableEq

/-- The static simulation constants of `ElasticRod` (shared by all rods,
mutable by configuration). -/
structure Params (K : Type) where
  drag : K
  bendingStiffness : K
  friction : K
  sampledVelocityScale : K
  maxForce : K
  gravity : Vec3 K

/-- The data members of `class ElasticRod`. -/
structure ElasticRod (K : Type) where
  bishopFrames : List (BishopFrame K)
  M : List (MaterialFrame K)
  u0 : Vec3 K
  omega0 : List (Vec2 K × Vec2 K)
  theta : List K
  e : List (Vec3 K)
  px : List (Vec3 K)
  xRest : List (Vec3 K)
  x : List (Vec3 K)
  v : List (Vec3 K)

section Rod

variable {K : Type} [LinearOrderedField K]

instance : Inhabited (BishopFrame K) := ⟨⟨0, 0⟩⟩
instance : Inhabited (MaterialFrame K) := ⟨⟨0, 0⟩⟩

/-- The initial values in `ElasticRod.cpp` lines 6-11. -/
def Params.initial : Params K :=
  { drag := 10, bendingStiffness := 3 / 1000, friction := 0,
    sampledVelocityScale := 1 / 10000, maxForce := 100,
    gravity := ⟨0, -(1 / 4), 0⟩ }

/-- The state `ElasticRod() = default` constructs. -/
def ElasticRod.empty : ElasticRod K :=
  { bishopFrames := [], M := [], u0 := 0, omega0 := [], theta := [], e := [],
    px := [], xRest := [], x := [], v := [] }

/-- Element `idx` of a `std::array<Vector2f, 2>`. -/
def arrayGet (p : Vec2 K × Vec2 K) (idx : Int) : Vec2 K := if idx = 0 then p.1 else p.2

/-- Assignment to element `idx` of a `std::array<Vector2f, 2>`. -/
def arraySet (p : Vec2 K × Vec2 K) (idx : Int) (w : Vec2 K) : Vec2 K × Vec2 K :=
  if idx = 0 then (w, p.2) else (p.1, w)

namespace ElasticRod

variable (sqrt : K → K) (P : Params K)

/-- `ElasticRod::edge`, lines 193-197. -/
def edge (r : ElasticRod K) (i : Int) : Vec3 K :=
  r.e.getD (clampInt i 0 ((r.x.length : Int) - 2)).toNat 0

/-- `ElasticRod::initEdge`, lines 199-203. -/
def initEdge (r : ElasticRod K) (i : Int) : Vec3 K :=
  let c := clampInt i 0 ((r.x.length : Int) - 2)
  r.xRest.getD (c + 1).toNat 0 - r.xRest.getD c.toNat 0

/-- `ElasticRod::kappaB`, lines 13-19.  The value is the code's where the
denominator is non-zero (at a zero denominator the code returns NaN or Inf). -/
def kappaB (r : ElasticRod K) (i : Int) : Vec3 K :=
  if i = 0 then 0
  else ((2 : K) • (r.edge (i - 1)).cross (r.edge i)).divS
    ((r.initEdge i).norm sqrt * (r.initEdge (i - 1)).norm sqrt + (r.edge (i - 1)).dot (r.edge i))

/-- `ElasticRod::initEdgeLen`, lines 21-24. -/
def initEdgeLen (r : ElasticRod K) (i : Int) : K :=
  (r.edge (i - 1)).norm sqrt + (r.edge i).norm sqrt

/-- `ElasticRod::psiGrad`, lines 26-41. -/
def psiGrad (r : ElasticRod K) (i j : Int) : Vec3 K :=
  if j < i - 1 ∨ j > i + 1 then 0
  else
    let kb := r.kappaB sqrt i
    if j = i - 1 then kb.divS (2 * (r.edge (i - 1)).norm sqrt)
    else if j = i + 1 then (-kb).divS (2 * (r.edge i).norm sqrt)
    else (-kb).divS (2 * (r.edge (i - 1)).norm sqrt) - kb.divS (2 * (r.edge i).norm sqrt)

/-- `ElasticRod::kappaBGrad`, lines 43-59.  The three non-zero branches are
the code's where `denom` is non-zero. -/
def kappaBGrad (r : ElasticRod K) (i j : Int) : Mat3 K :=
  if j < i - 1 ∨ j > i + 1 ∨ j < 0 ∨ j ≥ (r.x.length : Int) then 0
  else
    let kb := r.kappaB sqrt i
    let denom := (r.initEdge (i - 1)).norm sqrt * (r.initEdge i).norm sqrt
      + (r.edge (i - 1)).dot (r.edge i)
    if j = i - 1 then
      ((2 : K) • skew (r.edge i) + kb.outer (r.edge i)).divS denom
    else if j = i + 1 then
      ((2 : K) • skew (r.edge (i - 1)) - kb.outer (r.edge (i - 1))).divS denom
    else
      (-(((2 : K) • skew (r.edge i) + kb.outer (r.edge i))
        + ((2 : K) • skew (r.edge (i - 1)) - kb.outer (r.edge (i - 1))))).divS denom

/-- `ElasticRod::omega`, lines 61-66.  The `assert` is a debug check and is
not part of the computed value. -/
def omega (r : ElasticRod K) (kb : Vec3 K) (_i j : Int) : Vec2 K :=
  let c := (clampInt j 0 ((r.x.length : Int) - 1)).toNat
  ⟨kb.dot (r.M.getD c default).m2, -(kb.dot (r.M.getD c default).m1)⟩

/-- The constant `J = Rotation2Df(pi / 2).matrix()`, line 68: the rotation by a
quarter turn, with exact cosine `0` and sine `1`. -/
def J : Mat2 K := ⟨⟨0, -1⟩, ⟨1, 0⟩⟩

/-- `ElasticRod::gradHolonomy`, lines 83-98.  The three non-zero branches
are the code's where `kappaB(j)` is defined and the rest lengths they divide
by are non-zero. -/
def gradHolonomy (r : ElasticRod K) (i j : Int) : Vec3 K :=
  if |j - i| > 1 then 0
  else
    let kb := r.kappaB sqrt j
    if j = i + 1 then kb.divS (2 * (r.initEdge i).norm sqrt)
    else if j = i - 1 then (-kb).divS (2 * (r.initEdge j).norm sqrt)
    else -(kb.divS (2 * (r.initEdge i).norm sqrt)) + kb.divS (2 * (r.initEdge j).norm sqrt)

/-- `ElasticRod::omegaGrad`, lines 70-81. -/
def omegaGrad (r : ElasticRod K) (i j k : Int) : Mat23 K :=
  let m : Mat23 K :=
    if k ≥ i - 1 ∧ k ≤ i + 1 then
      (Mat23.mk (r.M.getD j.toNat default).m2 (-(r.M.getD j.toNat default).m1)).mulMat3
        (r.kappaBGrad sqrt i k)
    else 0
  let kb := r.kappaB sqrt k
  m - ((J : Mat2 K).mulVec (r.omega kb k j)).outer (r.gradHolonomy sqrt i j)

/-- One term of the inner loop of `dEdX` (line 111) for the frame index `j`. -/
def dEdXTerm (r : ElasticRod K) (i k j : Int) : Vec3 K :=
  (((r.omegaGrad sqrt i j k).transpose).mulMat2 (Mat2.scaledIdentity P.bendingStiffness)).mulVec
    (r.omega (r.kappaB sqrt k) k j - arrayGet (r.omega0.getD k.toNat default) (j - k + 1))

/-- The vector `f` accumulated by the loops of `dEdX` (lines 103-114), before the clamp. -/
def dEdXSum (r : ElasticRod K) (i : Int) : Vec3 K :=
  let lo := (max (i - 1) 1).toNat
  forLoop (fun k f =>
      let pf : Vec3 K := (0 + r.dEdXTerm sqrt P i k ((k : Int) - 1)) + r.dEdXTerm sqrt P i k k
      f + pf.divS (r.initEdgeLen sqrt k))
    lo (r.x.length - 1 - lo) 0

/-- `ElasticRod::dEdX`, lines 100-118. -/
def dEdX (r : ElasticRod K) (i : Int) : Vec3 K :=
  let f := r.dEdXSum sqrt P i
  let f := if f.squaredNorm > P.maxForce * P.maxForce then P.maxForce • f.normalized sqrt else f
  (-f)

/-- `ElasticRod::force`, lines 205-211.  The `assert`s (`i >= 1`, and the
result is finite) are debug checks: in exact arithmetic every value is
finite, and the value is the code's in the states where no divisor of `dEdX`
is zero (elsewhere the code computes NaN and the second `assert` fails). -/
def force (r : ElasticRod K) (i : Int) : Vec3 K := r.dEdX sqrt P i

/-- `ElasticRod::computeCosAndSin`, lines 120-124: the pair `(cosPhi, sinPhi)`. -/
def computeCosAndSin (sqMag : K) : K × K :=
  (sqrt (4 / (sqMag + 4)), sqrt (sqMag / (sqMag + 4)))

/-- The quaternion sandwich of lines 149-153 and 186-190: rotate `u` by the
quaternion `(cosPhi, sinPhi * kb.normalized())` and normalise the result. -/
def rotateByQuat (kb u : Vec3 K) : Vec3 K :=
  let kbNorm := kb.normalized sqrt
  let cs := computeCosAndSin sqrt kb.squaredNorm
  let rotationQuat : Quaternion K := ⟨cs.1, cs.2 * kbNorm.x, cs.2 * kbNorm.y, cs.2 * kbNorm.z⟩
  let uQuat : Quaternion K := ⟨0, u.x, u.y, u.z⟩
  let rotatedVec := (rotationQuat.mul uQuat).mul rotationQuat.conjugate
  (Vec3.mk rotatedVec.x rotatedVec.y rotatedVec.z).normalized sqrt

/-- The body of the loop of `compBishopFrames` (lines 131-154) for index `i`,
acting on the vector `bishopFrames`. -/
def bishopStep (r : ElasticRod K) (i : Nat) (bf : List (BishopFrame K)) : List (BishopFrame K) :=
  let kb := r.kappaB sqrt i
  let cs := computeCosAndSin sqrt kb.squaredNorm
  if 1 - cs.1 < 1 / 1000000 then
    bf.set i ⟨(bf.getD (i - 1) default).u, (bf.getD (i - 1) default).v⟩
  else
    let u := rotateByQuat sqrt kb (bf.getD (i - 1) default).u
    bf.set i ⟨u, ((r.edge i).cross u).normalized sqrt⟩

/-- `ElasticRod::compBishopFrames`, lines 126-157. -/
def compBishopFrames (r : ElasticRod K) : ElasticRod K :=
  let bf0 := r.bishopFrames.set 0 ⟨r.u0, ((r.edge 0).cross r.u0).normalized sqrt⟩
  { r with bishopFrames := forLoop (r.bishopStep sqrt) 1 (r.x.length - 1 - 1) bf0 }

/-- `ElasticRod::compMatFrames`, lines 159-172. -/
def compMatFrames (r : ElasticRod K) : ElasticRod K :=
  let body := fun (i : Nat) (m : List (MaterialFrame K)) =>
    m.set i ⟨(r.bishopFrames.getD i default).u, (r.bishopFrames.getD i default).v⟩
  { r with M := forLoop body 0 (r.x.length - 1) r.M }

/-- `ElasticRod::parallelTransportFrameInTime`, lines 174-191. -/
def parallelTransportFrameInTime (r : ElasticRod K) (prevEdge : Vec3 K) : ElasticRod K :=
  let kb := ((2 : K) • prevEdge.cross (r.edge 0)).divS
    (prevEdge.norm sqrt * (r.edge 0).norm sqrt + prevEdge.dot (r.edge 0))
  let cs := computeCosAndSin sqrt kb.squaredNorm
  if 1 - cs.1 < 1 / 1000000 then
    let u1 := (r.edge 0).cross r.u0
    { r with u0 := (u1.cross (r.edge 0)).normalized sqrt }
  else
    { r with u0 := rotateByQuat sqrt kb r.u0 }

/-- The loop `for (i = 0; i < e.size(); i++) e[i] = x[i+1] - x[i]` of lines
240-242 and 355-357. -/
def refreshEdges (r : ElasticRod K) : ElasticRod K :=
  let body := fun (i : Nat) (e : List (Vec3 K)) => e.set i (r.x.getD (i + 1) 0 - r.x.getD i 0)
  { r with e := forLoop body 0 r.e.length r.e }

/-- The body of the integration loop (lines 251-253) for vertex `i`. -/
def integrateStep (dt : K) (i : Nat) (r : ElasticRod K) : ElasticRod K :=
  let v1 := r.v.getD i 0 + dt • (r.force sqrt P i + P.gravity)
  let v2 := v1 - dt • ((1 / 2 * P.drag * v1.squaredNorm) • v1.normalized sqrt)
  { r with v := r.v.set i v2, x := r.x.set i (r.x.getD i 0 + dt • v2) }

/-- Lines 239-248 of `integrateFwEuler`: the edges, `u0` and the frames are
recomputed from the current positions and `px = x` is taken. -/
def integratePrepare (r : ElasticRod K) : ElasticRod K :=
  let prevEdge := r.edge 0
  let r1 := r.refreshEdges
  let r2 := r1.parallelTransportFrameInTime sqrt prevEdge
  let r3 := r2.compBishopFrames sqrt
  let r4 := r3.compMatFrames
  { r4 with px := r4.x }

/-- `ElasticRod::integrateFwEuler`, lines 237-255. -/
def integrateFwEuler (r : ElasticRod K) (dt : K) : ElasticRod K :=
  let r5 := r.integratePrepare sqrt
  forLoop (integrateStep sqrt P dt) 1 (r5.x.length - 1) r5

end ElasticRod

/-! ## Collisions and constraints -/

/-- The part of `CollisionInfo` (declared outside the sources) the rod reads. -/
structure CollisionInfo (K : Type) where
  normal : Vec3 K

/-- The collider interface the rod consumes (`Scene.hpp` is outside the
sources): `center`, `IsCollidingWith(probe, col)` for a spherical probe given
by its centre and radius, returning the flag and the updated `col`, and
`GetBoundaryAt(point)`. -/
structure Collider (K : Type) where
  center : Vec3 K
  isCollidingWith : Vec3 K → K → CollisionInfo K → Bool × CollisionInfo K
  getBoundaryAt : Vec3 K → K

namespace ElasticRod

variable (sqrt : K → K) (P : Params K)

/-- The body of the inner loop of `handleCollisions` (lines 263-266) for vertex
`i` and collider `c`, acting on the positions and on `col`. -/
def collideStep (i : Nat) (s : List (Vec3 K) × CollisionInfo K) (c : Collider K) :
    List (Vec3 K) × CollisionInfo K :=
  let res := c.isCollidingWith (s.1.getD i 0) (1 / 10000) s.2
  if res.1 then
    (s.1.set i (c.center - (c.getBoundaryAt (s.1.getD i 0)) • res.2.normal), res.2)
  else (s.1, res.2)

/-- `ElasticRod::handleCollisions`, lines 257-269. -/
def handleCollisions (r : ElasticRod K) (colliders : List (Collider K)) : ElasticRod K :=
  let body := fun (i : Nat) (s : List (Vec3 K) × CollisionInfo K) =>
    colliders.foldl (collideStep i) s
  { r with x := (forLoop body 1 (r.x.length - 1) (r.x, (⟨0⟩ : CollisionInfo K))).1 }

/-- The body of the inextensibility loop (lines 279-280) for vertex `i`, acting
on the positions `x` and the corrections `dx`. -/
def sweepStep (r : ElasticRod K) (i : Nat) (s : List (Vec3 K) × List (Vec3 K)) :
    List (Vec3 K) × List (Vec3 K) :=
  let d := s.1.getD (i - 1) 0
    + (r.initEdge ((i : Int) - 1)).norm sqrt • (s.1.getD i 0 - s.1.getD (i - 1) 0).normalized sqrt
    - s.1.getD i 0
  (s.1.set i (s.1.getD i 0 + d), s.2.set i d)

/-- Lines 273-282 of `enforceConstraints`: collisions, root pin and the
inextensibility sweep; the result is the pair of the positions `x` and the
corrections `dx`. -/
def enforceSweep (r : ElasticRod K) (colliders : List (Collider K)) :
    List (Vec3 K) × List (Vec3 K) :=
  let r1 := r.handleCollisions colliders
  let x0 := r1.x.set 0 (r1.xRest.getD 0 0)
  let dx := (List.replicate x0.length (0 : Vec3 K)).set 0 0
  forLoop (r1.sweepStep sqrt) 1 (x0.length - 1) (x0, dx)

/-- `ElasticRod::enforceConstraints`, lines 271-287. -/
def enforceConstraints (r : ElasticRod K) (dt : K) (colliders : List (Collider K)) :
    ElasticRod K :=
  let s := r.enforceSweep sqrt colliders
  let body := fun (i : Nat) (v : List (Vec3 K)) =>
    v.set i ((s.1.getD i 0 - r.px.getD i 0).divS dt - (1 / 4 : K) • (s.2.getD (i + 1) 0).divS dt)
  { r with x := s.1, v := forLoop body 1 (s.1.length - 1 - 1) r.v }

/-- The body of the rest-curvature loop of `reset` (lines 367-371) for vertex `i`. -/
def omega0Step (r : ElasticRod K) (i : Nat) (o : List (Vec2 K × Vec2 K)) :
    List (Vec2 K × Vec2 K) :=
  let kb := r.kappaB sqrt i
  let o1 := o.set i (arraySet (o.getD i default) 0 (r.omega kb i ((i : Int) + 0 - 1)))
  o1.set i (arraySet (o1.getD i default) 1 (r.omega kb i ((i : Int) + 1 - 1)))

/-- `ElasticRod::reset`, lines 350-373. -/
def reset (r : ElasticRod K) : ElasticRod K :=
  let r1 := { r with x := r.xRest, v := List.replicate r.v.length (0 : Vec3 K) }
  let r2 := r1.refreshEdges
  let u := (((r2.edge 0).cross ⟨1, 0, 0⟩).cross (r2.edge 0)).normalized sqrt
  let r3 := { r2 with u0 := u }
  let r4 := r3.compBishopFrames sqrt
  let r5 := r4.compMatFrames
  let o0 := r5.omega0.set 0 ((0 : Vec2 K), (0 : Vec2 K))
  { r5 with omega0 := forLoop (r5.omega0Step sqrt) 1 (r5.x.length - 1 - 1) o0 }

/-- `ElasticRod::init`, lines 213-229; `verts` holds the input vertices.  The
definition is the code's for at least two vertices: for an empty `verts` the
code throws (`e.resize(size() - 1)` wraps), and with one vertex `edge` clamps
to an empty range. -/
def init (r : ElasticRod K) (verts : List (Vec3 K)) : ElasticRod K :=
  let n := verts.length
  let x := forLoop (fun i x => x.set i (verts.getD i 0)) 0 n (resize r.x n (0 : Vec3 K))
  reset sqrt
    { r with
      x := x,
      e := resize r.e (n - 1) (0 : Vec3 K),
      v := resize r.v n (0 : Vec3 K),
      theta := resize r.theta n (0 : K),
      omega0 := resize r.omega0 n default,
      bishopFrames := resize r.bishopFrames n default,
      M := resize r.M n default,
      xRest := x }

/-- The constructor `ElasticRod(verts)`, lines 231-234. -/
def ofVerts (verts : List (Vec3 K)) : ElasticRod K := init sqrt empty verts

end ElasticRod

/-! ## Voxel coupling -/

/-- The `VoxelGrid` interface the rod consumes (`VoxelGrid.hpp` is outside the
sources): the scalars `voxelSize` and `voxelGridExtent`, the methods
`getVoxelCoordinates` (returning `firstVoxelCoord` and `localPosition`),
`getSpatialHash` and `sampleVoxelVelocity` (which reads the containers), and
the per-node containers `voxelMasses` and `voxelVelocities`. -/
structure VoxelGrid (K : Type) where
  voxelSize : K
  voxelGridExtent : K
  getVoxelCoordinates : Vec3 K → Vec3 K × Vec3 K
  getSpatialHash : Vec3 K → Nat
  sampleVoxelVelocity : (Nat → K) → (Nat → Vec3 K) → Vec3 K → Vec3 K
  voxelMasses : Nat → K
  voxelVelocities : Nat → Vec3 K

/-- The conversion `(int)q` of a `float`: truncation towards zero. -/
def truncToInt [FloorRing K] (q : K) : Int := if 0 ≤ q then ⌊q⌋ else ⌈q⌉

/-- The vector `Eigen::Vector3f(i, j, k)` built from three `size_t`. -/
def cornerOffset (i j k : Nat) : Vec3 K := ⟨(i : K), (j : K), (k : K)⟩

/-- The value of `corner.prod()` at lines 309-310 for the corner offset
`(i, j, k)`, given `firstVoxelCoord` and `localPosition`. -/
def scatterWeight (firstVoxelCoord localPosition : Vec3 K) (i j k : Nat) : K :=
  let corner := firstVoxelCoord + cornerOffset i j k
  let corner := corner - localPosition
  let corner := (⟨1, 1, 1⟩ : Vec3 K) - corner.abs
  corner.prod

namespace ElasticRod

/-- The body of the innermost loop of `setVoxelContributions` (lines 301-311)
for the vertex `ind` and the corner offset `(i, j, k)`. -/
def scatterCorner [FloorRing K] (r : ElasticRod K) (ind i j k : Nat) (g : VoxelGrid K) :
    VoxelGrid K :=
  let cl := g.getVoxelCoordinates (r.x.getD ind 0)
  let numSteps := truncToInt (g.voxelGridExtent / g.voxelSize)
  let corner := cl.1 + cornerOffset i j k
  if corner.coeff 0 ≥ (numSteps : K) ∨ corner.coeff 1 ≥ (numSteps : K)
      ∨ corner.coeff 2 ≥ (numSteps : K) then g
  else
    let hash := g.getSpatialHash corner
    let w := scatterWeight cl.1 cl.2 i j k
    { g with
      voxelMasses := Function.update g.voxelMasses hash (g.voxelMasses hash + w),
      voxelVelocities := Function.update g.voxelVelocities hash
        (g.voxelVelocities hash + w • r.v.getD i 0) }

/-- The three nested corner loops (lines 297-312) for the vertex `ind`. -/
def scatterVertex [FloorRing K] (r : ElasticRod K) (ind : Nat) (g : VoxelGrid K) : VoxelGrid K :=
  forLoop (fun i g1 => forLoop (fun j g2 => forLoop (fun k g3 => r.scatterCorner ind i j k g3)
    0 2 g2) 0 2 g1) 0 2 g

/-- `ElasticRod::setVoxelContributions`, lines 290-314: the grid after the
scatter (the rod is not modified). -/
def setVoxelContributions [FloorRing K] (r : ElasticRod K) (g : VoxelGrid K) : VoxelGrid K :=
  forLoop (r.scatterVertex) 1 (r.x.length - 1) g

/-- The value of `velocity` at line 344: the nested interpolation of the eight
sampled corner velocities `c000 … c111` with the offsets `lp`. -/
def gatherInterp (lp c000 c001 c100 c101 c010 c011 c110 c111 : Vec3 K) : Vec3 K :=
  let lp_interp1 := (1 - lp.coeff 2) • c000 + lp.coeff 2 • c001
  let lp_interp2 := (1 - lp.coeff 2) • c100 + lp.coeff 2 • c101
  let lpv := (1 - lp.coeff 0) • lp_interp1 + lp.coeff 0 • lp_interp2
  let up_interp1 := (1 - lp.coeff 2) • c010 + lp.coeff 2 • c011
  let up_interp2 := (1 - lp.coeff 2) • c110 + lp.coeff 2 • c111
  let up := (1 - lp.coeff 0) • up_interp1 + lp.coeff 0 • up_interp2
  (1 - lp.coeff 1) • lpv + lp.coeff 1 • up

/-- The value of `velocity` at line 344 for a vertex at position `pos`. -/
def sampledVelocity (g : VoxelGrid K) (pos : Vec3 K) : Vec3 K :=
  let cl := g.getVoxelCoordinates pos
  let smp := fun (o : Vec3 K) => g.sampleVoxelVelocity g.voxelMasses g.voxelVelocities (cl.1 + o)
  gatherInterp cl.2 (g.sampleVoxelVelocity g.voxelMasses g.voxelVelocities cl.1)
    (smp ⟨0, 0, 1⟩) (smp ⟨1, 0, 0⟩) (smp ⟨1, 0, 1⟩) (smp ⟨0, 1, 0⟩) (smp ⟨0, 1, 1⟩)
    (smp ⟨1, 1, 0⟩) (smp ⟨1, 1, 1⟩)

/-- The body of the loop of `updateAllVelocitiesFromVoxels` (lines 322-346)
for the vertex `i`. -/
def gatherStep (P : Params K) (g : VoxelGrid K) (i : Nat) (r : ElasticRod K) : ElasticRod K :=
  let velocity := P.sampledVelocityScale • sampledVelocity g (r.x.getD i 0)
  { r with v := r.v.set i ((1 - P.friction) • r.v.getD i 0 + P.friction • velocity) }

/-- `ElasticRod::updateAllVelocitiesFromVoxels`, lines 317-348. -/
def updateAllVelocitiesFromVoxels (P : Params K) (r : ElasticRod K) (g : VoxelGrid K) :
    ElasticRod K :=
  forLoop (gatherStep P g) 1 (r.x.length - 1) r

end ElasticRod

end Rod

/-! ## Concrete inputs and specification-side definitions -/

section Inputs

variable {K : Type} [LinearOrderedField K]

/-- A two-vertex rod with rest positions `(0,0,0), (1,0,0)` whose free vertex
has moved onto the root. -/
def collapsedRod : ElasticRod K :=
  { bishopFrames := [default, default], M := [default, default], u0 := 0,
    omega0 := [default, default], theta := [0, 0], e := [⟨1, 0, 0⟩],
    px := [0, ⟨1, 0, 0⟩], xRest := [0, ⟨1, 0, 0⟩], x := [0, 0], v := [0, 0] }

/-- A three-vertex rod with rest positions on the x axis, bent and stretched. -/
def bentRod : ElasticRod K :=
  { bishopFrames := [default, default, default], M := [default, default, default], u0 := 0,
    omega0 := [default, default, default], theta := [0, 0, 0], e := [⟨1, 0, 0⟩, ⟨1, 0, 0⟩],
    px := [0, ⟨1, 0, 0⟩, ⟨2, 0, 0⟩], xRest := [0, ⟨1, 0, 0⟩, ⟨2, 0, 0⟩],
    x := [0, ⟨1, 0, 0⟩, ⟨1, 2, 0⟩], v := [0, 0, 0] }

/-- A grid of unit cells on `[0,4)³` with no contribution yet: the cell of a
point is its componentwise floor, the local position its fractional part, the
hash enumerates the nodes, and a node's sampled velocity is its momentum over
its mass (zero for an empty node). -/
def unitGrid [FloorRing K] : VoxelGrid K :=
  { voxelSize := 1
    voxelGridExtent := 4
    getVoxelCoordinates := fun p =>
      (⟨(⌊p.x⌋ : K), (⌊p.y⌋ : K), (⌊p.z⌋ : K)⟩,
        p - ⟨(⌊p.x⌋ : K), (⌊p.y⌋ : K), (⌊p.z⌋ : K)⟩)
    getSpatialHash := fun c => ⌊c.x⌋.toNat + 4 * ⌊c.y⌋.toNat + 16 * ⌊c.z⌋.toNat
    sampleVoxelVelocity := fun m w c =>
      let h := ⌊c.x⌋.toNat + 4 * ⌊c.y⌋.toNat + 16 * ⌊c.z⌋.toNat
      if m h = 0 then 0 else (w h).divS (m h)
    voxelMasses := fun _ => 0
    voxelVelocities := fun _ => 0 }

/-- Three vertices on the x axis, one unit apart. -/
def xAxisVerts : List (Vec3 K) := [⟨0, 0, 0⟩, ⟨1, 0, 0⟩, ⟨2, 0, 0⟩]

/-- A straight three-vertex rod at rest along the direction `(1, 2, 2)`, with
the frame vectors allocated. -/
def straightRod : ElasticRod K :=
  { bishopFrames := [default, default, default], M := [default, default, default],
    u0 := ⟨0, 1, -1⟩, omega0 := [default, default, default], theta := [0, 0, 0],
    e := [⟨1, 2, 2⟩, ⟨1, 2, 2⟩], px := [0, ⟨1, 2, 2⟩, ⟨2, 4, 4⟩],
    xRest := [0, ⟨1, 2, 2⟩, ⟨2, 4, 4⟩], x := [0, ⟨1, 2, 2⟩, ⟨2, 4, 4⟩], v := [0, 0, 0] }

/-- A two-vertex rod whose free vertex sits on the grid node `(0, 0, 0)` and
moves with velocity `(1, 0, 0)`; the root is at rest. -/
def nodeRod : ElasticRod K :=
  { bishopFrames := [default, default], M := [default, default], u0 := ⟨1, 0, 0⟩,
    omega0 := [default, default], theta := [0, 0], e := [⟨0, -1, 0⟩],
    px := [⟨0, 1, 0⟩, 0], xRest := [⟨0, 1, 0⟩, 0], x := [⟨0, 1, 0⟩, 0], v := [0, ⟨1, 0, 0⟩] }

/-- A two-vertex rod whose free vertex sits at the centre `(5/2, 1/2, 1/2)` of
the unit cell `(2, 0, 0)`. -/
def midRod : ElasticRod K :=
  { bishopFrames := [default, default], M := [default, default], u0 := ⟨0, 1, 0⟩,
    omega0 := [default, default], theta := [0, 0], e := [⟨2, 0, 0⟩],
    px := [⟨1 / 2, 1 / 2, 1 / 2⟩, ⟨5 / 2, 1 / 2, 1 / 2⟩],
    xRest := [⟨1 / 2, 1 / 2, 1 / 2⟩, ⟨5 / 2, 1 / 2, 1 / 2⟩],
    x := [⟨1 / 2, 1 / 2, 1 / 2⟩, ⟨5 / 2, 1 / 2, 1 / 2⟩], v := [0, ⟨1, 0, 0⟩] }

/-- The trilinear weight in the words of the spec, `∏ (1 - |offset - corner|)`,
for the local fractional offset `frac` and the corner offset `(i, j, k)`. -/
def trilinearWeight (frac : Vec3 K) (i j k : Nat) : K :=
  (1 - |frac.x - (i : K)|) * (1 - |frac.y - (j : K)|) * (1 - |frac.z - (k : K)|)

/-- The trilinear interpolation in the words of the claim: the sum over the
corner offsets `c ∈ {0,1}³` of `trilinearWeight frac c` times the value
`vel c` at the corner. -/
def trilinearSum (frac : Vec3 K) (vel : Nat → Nat → Nat → Vec3 K) : Vec3 K :=
  trilinearWeight frac 0 0 0 • vel 0 0 0 + trilinearWeight frac 0 0 1 • vel 0 0 1
    + trilinearWeight frac 0 1 0 • vel 0 1 0 + trilinearWeight frac 0 1 1 • vel 0 1 1
    + trilinearWeight frac 1 0 0 • vel 1 0 0 + trilinearWeight frac 1 0 1 • vel 1 0 1
    + trilinearWeight frac 1 1 0 • vel 1 1 0 + trilinearWeight frac 1 1 1 • vel 1 1 1

/-- Three vertices with a right-angle bend at the middle one. -/
def hookVerts : List (Vec3 K) := [⟨0, 0, 0⟩, ⟨0, 1, 0⟩, ⟨1, 1, 0⟩]

/-- The rod the constructor builds from `hookVerts`. -/
def hookRod (sqrt : K → K) : ElasticRod K := ElasticRod.ofVerts sqrt hookVerts

/-- The accumulated vector of `dEdX` with the sum over `k` started at `k = 1`
instead of `max(i-1, 1)` (the untruncated sum the comment at line 104 refers
to). -/
def ElasticRod.dEdXSumFull (sqrt : K → K) (P : Params K) (r : ElasticRod K) (i : Int) : Vec3 K :=
  forLoop (fun k f =>
      let pf : Vec3 K := (0 + r.dEdXTerm sqrt P i k ((k : Int) - 1)) + r.dEdXTerm sqrt P i k k
      f + pf.divS (r.initEdgeLen sqrt k))
    1 (r.x.length - 1 - 1) 0

/-- The bending force computed from the untruncated sum, clamped and negated
as in `dEdX`. -/
def ElasticRod.dEdXFull (sqrt : K → K) (P : Params K) (r : ElasticRod K) (i : Int) : Vec3 K :=
  let f := r.dEdXSumFull sqrt P i
  let f := if f.squaredNorm > P.maxForce * P.maxForce then P.maxForce • f.normalized sqrt else f
  (-f)

/-- The rod with vertex `j` moved by `d` and the edges recomputed from the
positions, `e[k] = x[k+1] - x[k]` (the loop of lines 240-242); the rest
configuration is kept. -/
def ElasticRod.displaced (r : ElasticRod K) (j : Nat) (d : Vec3 K) : ElasticRod K :=
  ElasticRod.refreshEdges { r with x := r.x.set j (r.x.getD j 0 + d) }

/-- Four vertices joined by three unit edges along `y`, `z` and `x`: a right
angle at each interior vertex. -/
def cornerVerts : List (Vec3 K) := [⟨0, 0, 0⟩, ⟨0, 1, 0⟩, ⟨0, 1, 1⟩, ⟨1, 1, 1⟩]

/-- The rod the constructor builds from `cornerVerts`. -/
def cornerRod (sqrt : K → K) : ElasticRod K := ElasticRod.ofVerts sqrt cornerVerts

/-- The gradient of the material curvature in the words of the claim: the
chain-rule term is the matrix with rows `m2[j]`, `-m1[j]` times the gradient
of the curvature binormal `kappaB(k)` with respect to vertex `i`, which in
the argument convention of the header ("binormal i wrt x j") is
`kappaBGrad(k, i)`, when `|k-i| ≤ 1`, and zero otherwise; from it the
holonomy term `J*omega(kappaB(k),k,j)*gradHolonomy(i,j)ᵀ` is subtracted. -/
def ElasticRod.omegaGradSpec (sqrt : K → K) (r : ElasticRod K) (i j k : Int) : Mat23 K :=
  let m : Mat23 K :=
    if |k - i| ≤ 1 then
      (Mat23.mk (r.M.getD j.toNat default).m2 (-(r.M.getD j.toNat default).m1)).mulMat3
        (r.kappaBGrad sqrt k i)
    else 0
  m - ((ElasticRod.J : Mat2 K).mulVec (r.omega (r.kappaB sqrt k) k j)).outer
    (r.gradHolonomy sqrt i j)

/-- The denominator of `kappaB(i)`, lines 17-18:
`initEdge(i).norm() * initEdge(i-1).norm() + edge(i-1).dot(edge(i))`. -/
def ElasticRod.kappaBDenom (sqrt : K → K) (r : ElasticRod K) (i : Int) : K :=
  (r.initEdge i).norm sqrt * (r.initEdge (i - 1)).norm sqrt + (r.edge (i - 1)).dot (r.edge i)

/-- No divisor of the curvature routines is zero in this state: every rest
edge and every current edge has non-zero length (the divisors of
`gradHolonomy` and `initEdgeLen`) and every denominator of `kappaB` and
`kappaBGrad` is non-zero.  These are the states in which the float code
computes no NaN or Inf from a division. -/
def ElasticRod.Regular (sqrt : K → K) (r : ElasticRod K) : Prop :=
  ∀ i : Int, (r.initEdge i).norm sqrt ≠ 0 ∧ (r.edge i).norm sqrt ≠ 0
    ∧ r.kappaBDenom sqrt i ≠ 0

/-- A three-vertex rod with rest positions one unit apart on the x axis, whose
middle vertex has moved onto the root and whose tip is at `(0, 3, 0)`. -/
def halfCollapsedRod : ElasticRod K :=
  { bishopFrames := [default, default, default], M := [default, default, default], u0 := 0,
    omega0 := [default, default, default], theta := [0, 0, 0], e := [0, ⟨0, 3, 0⟩],
    px := [0, 0, ⟨0, 3, 0⟩], xRest := [0, ⟨1, 0, 0⟩, ⟨2, 0, 0⟩],
    x := [0, 0, ⟨0, 3, 0⟩], v := [0, 0, 0] }

/-- A three-vertex rod that is straight at rest (unit edges along `y`, zero
rest curvature) and bent to a right angle at the middle vertex, with the
frames of the bent state. -/
def kinkedRod : ElasticRod K :=
  { bishopFrames := [⟨⟨1, 0, 0⟩, ⟨0, 0, -1⟩⟩, ⟨⟨0, -1, 0⟩, ⟨0, 0, -1⟩⟩, default],
    M := [⟨⟨1, 0, 0⟩, ⟨0, 0, -1⟩⟩, ⟨⟨0, -1, 0⟩, ⟨0, 0, -1⟩⟩, default],
    u0 := ⟨1, 0, 0⟩, omega0 := [default, default, default], theta := [0, 0, 0],
    e := [⟨0, 1, 0⟩, ⟨1, 0, 0⟩], px := [0, ⟨0, 1, 0⟩, ⟨1, 1, 0⟩],
    xRest := [0, ⟨0, 1, 0⟩, ⟨0, 2, 0⟩], x := [0, ⟨0, 1, 0⟩, ⟨1, 1, 0⟩], v := [0, 0, 0] }

/-- The initial constants with the force limit lowered to `1/100`. -/
def lowLimitParams : Params K := { (Params.initial : Params K) with maxForce := 1 / 100 }

end Inputs

/-! ## Auxiliary lemmas -/

section Lemmas

variable {K : Type} [LinearOrderedField K]

theorem getD_set_self {α : Type} (l : List α) (i : Nat) (a d : α) (h : i < l.length) :
    (l.set i a).getD i d = a := by
  simp [h]

theorem getD_set_ne {α : Type} (l : List α) (i j : Nat) (a d : α) (h : i ≠ j) :
    (l.set i a).getD j d = l.getD j d := by
  simp [List.getElem?_set_ne h]

theorem forLoop_succ_right {σ : Type} (body : Nat → σ → σ) (cnt lo : Nat) (s : σ) :
    forLoop body lo (cnt + 1) s = body (lo + cnt) (forLoop body lo cnt s) := by
  induction cnt generalizing lo s with
  | zero => simp [forLoop]
  | succ n ih =>
    have e1 : forLoop body lo (n + 1 + 1) s = forLoop body (lo + 1) (n + 1) (body lo s) := rfl
    have e2 : forLoop body lo (n + 1) s = forLoop body (lo + 1) n (body lo s) := rfl
    have e3 : lo + 1 + n = lo + (n + 1) := by omega
    rw [e1, ih (lo + 1) (body lo s), e2, e3]

/-- A property kept by every iteration holds after the loop. -/
theorem forLoop_invariant {σ : Type} (body : Nat → σ → σ) (Q : σ → Prop)
    (hstep : ∀ i s, Q s → Q (body i s)) (lo cnt : Nat) (s : σ) (h : Q s) :
    Q (forLoop body lo cnt s) := by
  induction cnt generalizing lo s with
  | zero => simpa [forLoop] using h
  | succ n ih => exact ih (lo + 1) (body lo s) (hstep lo s h)

/-- A loop writing `val i` at index `i` of a vector leaves the length unchanged. -/
theorem forLoop_set_length {α : Type} (val : Nat → List α → α) (lo cnt : Nat) (l : List α) :
    (forLoop (fun i m => m.set i (val i m)) lo cnt l).length = l.length := by
  induction cnt generalizing lo l with
  | zero => simp [forLoop]
  | succ n ih => rw [forLoop, ih]; simp

/-- A loop writing at the indices `lo, lo+1, …` leaves every other index unchanged. -/
theorem forLoop_set_getD_outside {α : Type} (val : Nat → List α → α) (lo cnt : Nat) (l : List α)
    (j : Nat) (d : α) (h : j < lo ∨ lo + cnt ≤ j) :
    (forLoop (fun i m => m.set i (val i m)) lo cnt l).getD j d = l.getD j d := by
  induction cnt generalizing lo l with
  | zero => simp [forLoop]
  | succ n ih =>
    rw [forLoop, ih (lo + 1) _ (by omega), getD_set_ne _ _ _ _ _ (by omega)]

@[simp] theorem vec3_add_def (a b : Vec3 K) : a + b = ⟨a.x + b.x, a.y + b.y, a.z + b.z⟩ := rfl
@[simp] theorem vec3_sub_def (a b : Vec3 K) : a - b = ⟨a.x - b.x, a.y - b.y, a.z - b.z⟩ := rfl
@[simp] theorem vec3_neg_def (a : Vec3 K) : -a = ⟨-a.x, -a.y, -a.z⟩ := rfl
@[simp] theorem vec3_smul_def (s : K) (a : Vec3 K) : s • a = ⟨s * a.x, s * a.y, s * a.z⟩ := rfl
@[simp] theorem vec3_zero_x : (0 : Vec3 K).x = 0 := rfl
@[simp] theorem vec3_zero_y : (0 : Vec3 K).y = 0 := rfl
@[simp] theorem vec3_zero_z : (0 : Vec3 K).z = 0 := rfl
@[simp] theorem vec2_add_def (a b : Vec2 K) : a + b = ⟨a.x + b.x, a.y + b.y⟩ := rfl
@[simp] theorem vec2_sub_def (a b : Vec2 K) : a - b = ⟨a.x - b.x, a.y - b.y⟩ := rfl
@[simp] theorem vec2_zero_x : (0 : Vec2 K).x = 0 := rfl
@[simp] theorem vec2_zero_y : (0 : Vec2 K).y = 0 := rfl

theorem vec3_zero_eq : (0 : Vec3 K) = ⟨0, 0, 0⟩ := rfl

theorem vec3_squaredNorm_nonneg (a : Vec3 K) : 0 ≤ a.squaredNorm := by
  unfold Vec3.squaredNorm
  nlinarith [mul_self_nonneg a.x, mul_self_nonneg a.y, mul_self_nonneg a.z]

theorem vec3_squaredNorm_eq_zero {a : Vec3 K} (h : a.squaredNorm = 0) : a = 0 := by
  unfold Vec3.squaredNorm at h
  have hx := mul_self_nonneg a.x
  have hy := mul_self_nonneg a.y
  have hz := mul_self_nonneg a.z
  have h1 : a.x * a.x = 0 := by linarith
  have h2 : a.y * a.y = 0 := by linarith
  have h3 : a.z * a.z = 0 := by linarith
  ext
  · simpa using mul_self_eq_zero.mp h1
  · simpa using mul_self_eq_zero.mp h2
  · simpa using mul_self_eq_zero.mp h3

theorem vec3_squaredNorm_pos {a : Vec3 K} (h : a ≠ 0) : 0 < a.squaredNorm :=
  lt_of_le_of_ne (vec3_squaredNorm_nonneg a) (fun h0 => h (vec3_squaredNorm_eq_zero h0.symm))

theorem vec3_squaredNorm_smul (s : K) (a : Vec3 K) :
    (s • a).squaredNorm = s * s * a.squaredNorm := by
  simp [Vec3.squaredNorm]; ring

theorem vec3_squaredNorm_neg (a : Vec3 K) : (-a).squaredNorm = a.squaredNorm := by
  simp [Vec3.squaredNorm]

theorem vec3_squaredNorm_divS (a : Vec3 K) (s : K) :
    (a.divS s).squaredNorm = a.squaredNorm / (s * s) := by
  simp [Vec3.squaredNorm, Vec3.divS]
  by_cases hs : s = 0
  · simp [hs]
  · field_simp

/-- An exact square root inverts squaring on the non-negative numbers. -/
theorem ExactSqrt.sqrt_mul_self {sqrt : K → K} (hs : ExactSqrt sqrt) {a : K} (ha : 0 ≤ a) :
    sqrt (a * a) = a := by
  obtain ⟨h0, h1⟩ := hs (a * a) (mul_self_nonneg a)
  have : (sqrt (a * a) - a) * (sqrt (a * a) + a) = 0 := by ring_nf; ring_nf at h1; linarith
  rcases mul_eq_zero.mp this with h | h
  · linarith
  · have : sqrt (a * a) = 0 := by linarith
    have : a = 0 := by linarith
    simp_all

theorem ExactSqrt.sqrt_pos {sqrt : K → K} (hs : ExactSqrt sqrt) {a : K} (ha : 0 < a) :
    0 < sqrt a := by
  obtain ⟨h0, h1⟩ := hs a ha.le
  rcases h0.lt_or_eq with h | h
  · exact h
  · rw [← h] at h1; simp at h1; linarith

/-- With an exact square root a normalised non-zero vector has squared norm `1`. -/
theorem vec3_squaredNorm_normalized {sqrt : K → K} (hs : ExactSqrt sqrt) {a : Vec3 K}
    (h : a ≠ 0) : (a.normalized sqrt).squaredNorm = 1 := by
  have hp := vec3_squaredNorm_pos h
  obtain ⟨_, h1⟩ := hs a.squaredNorm hp.le
  rw [Vec3.normalized, if_pos hp, vec3_squaredNorm_divS, h1]
  exact div_self hp.ne.symm

theorem forLoop_zero {σ : Type} (body : Nat → σ → σ) (lo : Nat) (s : σ) :
    forLoop body lo 0 s = s := rfl

theorem forLoop_one {σ : Type} (body : Nat → σ → σ) (lo : Nat) (s : σ) :
    forLoop body lo 1 s = body lo s := rfl

theorem forLoop_two {σ : Type} (body : Nat → σ → σ) (lo : Nat) (s : σ) :
    forLoop body lo 2 s = body (lo + 1) (body lo s) := rfl

/-- The real square root is exact. -/
theorem exactSqrt_real : ExactSqrt Real.sqrt :=
  fun a ha => ⟨Real.sqrt_nonneg a, Real.mul_self_sqrt ha⟩

namespace ElasticRod

theorem collideStep_length (i : Nat) (s : List (Vec3 K) × CollisionInfo K) (c : Collider K) :
    (collideStep i s c).1.length = s.1.length := by
  simp only [collideStep]
  split <;> simp

theorem collideStep_getD_ne (i j : Nat) (s : List (Vec3 K) × CollisionInfo K) (c : Collider K)
    (h : i ≠ j) : (collideStep i s c).1.getD j 0 = s.1.getD j 0 := by
  simp only [collideStep]
  split
  · exact getD_set_ne _ _ _ _ _ h
  · rfl

theorem foldl_collideStep_length (i : Nat) (cs : List (Collider K))
    (s : List (Vec3 K) × CollisionInfo K) :
    (cs.foldl (collideStep i) s).1.length = s.1.length := by
  induction cs generalizing s with
  | nil => rfl
  | cons c cs ih => rw [List.foldl_cons, ih, collideStep_length]

theorem foldl_collideStep_getD_ne (i j : Nat) (cs : List (Collider K))
    (s : List (Vec3 K) × CollisionInfo K) (h : i ≠ j) :
    (cs.foldl (collideStep i) s).1.getD j 0 = s.1.getD j 0 := by
  induction cs generalizing s with
  | nil => rfl
  | cons c cs ih => rw [List.foldl_cons, ih, collideStep_getD_ne i j s c h]

/-- `handleCollisions` keeps the number of vertices. -/
theorem handleCollisions_length (r : ElasticRod K) (cs : List (Collider K)) :
    (r.handleCollisions cs).x.length = r.x.length := by
  unfold handleCollisions
  exact forLoop_invariant _ (fun (s : List (Vec3 K) × CollisionInfo K) => s.1.length = r.x.length)
    (fun i s hs => by simp only [foldl_collideStep_length]; exact hs) _ _ _ rfl

/-- `handleCollisions` starts at vertex 1: position 0 is not written. -/
theorem handleCollisions_root (r : ElasticRod K) (cs : List (Collider K)) :
    (r.handleCollisions cs).x.getD 0 0 = r.x.getD 0 0 := by
  unfold handleCollisions
  suffices h : ∀ (lo cnt : Nat) (s : List (Vec3 K) × CollisionInfo K), 1 ≤ lo →
      (forLoop (fun i s => cs.foldl (collideStep i) s) lo cnt s).1.getD 0 0 = s.1.getD 0 0 from
    h 1 _ _ le_rfl
  intro lo cnt
  induction cnt generalizing lo with
  | zero => intro s _; rfl
  | succ n ih =>
    intro s hlo
    rw [forLoop, ih (lo + 1) _ (by omega), foldl_collideStep_getD_ne lo 0 cs s (by omega)]


/-- The positions computed by the inextensibility sweep do not depend on `dx`. -/
theorem sweep_fst (sqrt : K → K) (r : ElasticRod K) (lo cnt : Nat)
    (s : List (Vec3 K) × List (Vec3 K)) :
    (forLoop (r.sweepStep sqrt) lo cnt s).1 = forLoop (fun i x => x.set i (x.getD i 0
      + (x.getD (i - 1) 0 + (r.initEdge ((i : Int) - 1)).norm sqrt
          • (x.getD i 0 - x.getD (i - 1) 0).normalized sqrt - x.getD i 0))) lo cnt s.1 := by
  induction cnt generalizing lo s with
  | zero => rfl
  | succ n ih => rw [forLoop, ih, forLoop]; rfl

theorem vec3_add_sub_cancel_mid (a b : Vec3 K) : a + (b - a) = b := by
  ext <;> simp

/-- State of the sweep after `c` iterations: vertices `1..c` sit at rest
distance from their predecessor in the direction of their position at entry,
vertex 0 and the vertices after `c` are as at entry. -/
theorem sweep_spec (sqrt : K → K) (r : ElasticRod K) (x0 : List (Vec3 K)) (c : Nat)
    (hc : c < x0.length) :
    let F := fun (i : Nat) (x : List (Vec3 K)) => x.set i (x.getD i 0
      + (x.getD (i - 1) 0 + (r.initEdge ((i : Int) - 1)).norm sqrt
          • (x.getD i 0 - x.getD (i - 1) 0).normalized sqrt - x.getD i 0))
    (forLoop F 1 c x0).length = x0.length ∧
    (forLoop F 1 c x0).getD 0 0 = x0.getD 0 0 ∧
    (∀ j, c < j → (forLoop F 1 c x0).getD j 0 = x0.getD j 0) ∧
    (∀ i, 1 ≤ i → i ≤ c → (forLoop F 1 c x0).getD i 0 = (forLoop F 1 c x0).getD (i - 1) 0
      + (r.initEdge ((i : Int) - 1)).norm sqrt
          • (x0.getD i 0 - (forLoop F 1 c x0).getD (i - 1) 0).normalized sqrt) := by
  intro F
  induction c with
  | zero =>
    refine ⟨rfl, rfl, fun j _ => rfl, fun i h1 h2 => ?_⟩
    omega
  | succ n ih =>
    obtain ⟨hl, h0, hout, hin⟩ := ih (by omega)
    have hstep : forLoop F 1 (n + 1) x0 = F (1 + n) (forLoop F 1 n x0) :=
      forLoop_succ_right F n 1 x0
    have hne : ∀ j, j ≠ 1 + n →
        (forLoop F 1 (n + 1) x0).getD j 0 = (forLoop F 1 n x0).getD j 0 := by
      intro j hj
      rw [hstep]
      exact getD_set_ne _ _ _ _ _ (fun h => hj h.symm)
    refine ⟨?_, ?_, ?_, ?_⟩
    · rw [hstep]; simp only [F, List.length_set]; exact hl
    · rw [hne 0 (by omega)]; exact h0
    · intro j hj
      rw [hne j (by omega)]
      exact hout j (by omega)
    · intro i h1 h2
      rcases Nat.lt_or_ge i (n + 1) with hlt | hge
      · rw [hne i (by omega), hne (i - 1) (by omega)]
        exact hin i h1 (by omega)
      · have hi : i = 1 + n := by omega
        subst hi
        rw [hne (1 + n - 1) (by omega), hstep]
        simp only [F]
        rw [getD_set_self _ _ _ _ (by rw [hl]; omega), vec3_add_sub_cancel_mid,
          hout (1 + n) (by omega)]


/-- For a segment index inside the rod the clamp of `initEdge` is the identity. -/
theorem initEdge_pred (r : ElasticRod K) (i : Nat) (h1 : 1 ≤ i) (h2 : i < r.x.length) :
    r.initEdge ((i : Int) - 1) = r.xRest.getD i 0 - r.xRest.getD (i - 1) 0 := by
  have hc : clampInt ((i : Int) - 1) 0 ((r.x.length : Int) - 2) = (i : Int) - 1 := by
    unfold clampInt
    rw [if_neg (by omega), if_neg (by omega)]
  have e1 : ((i : Int) - 1 + 1).toNat = i := by omega
  have e2 : ((i : Int) - 1).toNat = i - 1 := by omega
  simp only [initEdge, hc, e1, e2]

theorem vec3_add_sub_cancel_left (a b : Vec3 K) : a + b - a = b := by
  ext <;> simp

/-- With an exact square root, `len • d.normalized()` has norm `len` when `d ≠ 0` and
`len ≥ 0`. -/
theorem vec3_norm_smul_normalized {sqrt : K → K} (hs : ExactSqrt sqrt) {d : Vec3 K} (hd : d ≠ 0)
    {len : K} (hl : 0 ≤ len) : (len • d.normalized sqrt).norm sqrt = len := by
  rw [Vec3.norm, vec3_squaredNorm_smul, vec3_squaredNorm_normalized hs hd, mul_one]
  exact hs.sqrt_mul_self hl

theorem enforceConstraints_x (sqrt : K → K) (r : ElasticRod K) (dt : K) (cs : List (Collider K)) :
    (r.enforceConstraints sqrt dt cs).x = forLoop (fun i x => x.set i (x.getD i 0
      + (x.getD (i - 1) 0 + ((r.handleCollisions cs).initEdge ((i : Int) - 1)).norm sqrt
          • (x.getD i 0 - x.getD (i - 1) 0).normalized sqrt - x.getD i 0))) 1 (r.x.length - 1)
      ((r.handleCollisions cs).x.set 0 (r.xRest.getD 0 0)) := by
  simp only [enforceConstraints, enforceSweep, sweep_fst, List.length_set,
    handleCollisions_length]
  rfl

end ElasticRod

/-- A property kept by every iteration with index at least `lo0` holds after a
loop that starts at or after `lo0`. -/
theorem forLoop_invariant_from {σ : Type} (body : Nat → σ → σ) (Q : σ → Prop) (lo0 : Nat)
    (hstep : ∀ i s, lo0 ≤ i → Q s → Q (body i s)) (lo cnt : Nat) (s : σ) (hlo : lo0 ≤ lo)
    (h : Q s) : Q (forLoop body lo cnt s) := by
  induction cnt generalizing lo s with
  | zero => simpa [forLoop] using h
  | succ n ih => exact ih (lo + 1) (body lo s) (by omega) (hstep lo s hlo h)

namespace ElasticRod

theorem reset_x (sqrt : K → K) (r : ElasticRod K) : (r.reset sqrt).x = r.xRest := rfl

theorem reset_xRest (sqrt : K → K) (r : ElasticRod K) : (r.reset sqrt).xRest = r.xRest := rfl

theorem init_x_eq_xRest (sqrt : K → K) (r : ElasticRod K) (verts : List (Vec3 K)) :
    (r.init sqrt verts).x = (r.init sqrt verts).xRest := rfl

theorem parallelTransportFrameInTime_frame (sqrt : K → K) (r : ElasticRod K) (pe : Vec3 K) :
    (r.parallelTransportFrameInTime sqrt pe).xRest = r.xRest
    ∧ (r.parallelTransportFrameInTime sqrt pe).x = r.x
    ∧ (r.parallelTransportFrameInTime sqrt pe).v = r.v
    ∧ (r.parallelTransportFrameInTime sqrt pe).e = r.e
    ∧ (r.parallelTransportFrameInTime sqrt pe).omega0 = r.omega0 := by
  simp only [parallelTransportFrameInTime]
  split <;> exact ⟨rfl, rfl, rfl, rfl, rfl⟩

/-- The preparation phase of `integrateFwEuler` keeps positions, rest
positions, velocities and rest curvature, and snapshots the positions. -/
theorem integratePrepare_frame (sqrt : K → K) (r : ElasticRod K) :
    (r.integratePrepare sqrt).xRest = r.xRest
    ∧ (r.integratePrepare sqrt).x = r.x
    ∧ (r.integratePrepare sqrt).v = r.v
    ∧ (r.integratePrepare sqrt).px = r.x
    ∧ (r.integratePrepare sqrt).omega0 = r.omega0 := by
  obtain ⟨h1, h2, h3, _, h5⟩ := parallelTransportFrameInTime_frame sqrt r.refreshEdges (r.edge 0)
  exact ⟨h1, h2, h3, h2, h5⟩

/-- The integration loop writes positions and velocities only at indices `≥ 1`
and never writes `xRest`. -/
theorem integrateFwEuler_frame (sqrt : K → K) (P : Params K) (r : ElasticRod K) (dt : K) :
    (r.integrateFwEuler sqrt P dt).xRest = r.xRest
    ∧ (r.integrateFwEuler sqrt P dt).x.getD 0 0 = r.x.getD 0 0
    ∧ (r.integrateFwEuler sqrt P dt).v.getD 0 0 = r.v.getD 0 0 := by
  obtain ⟨p1, p2, p3, _, _⟩ := integratePrepare_frame sqrt r
  unfold integrateFwEuler
  refine forLoop_invariant_from (integrateStep sqrt P dt)
    (fun s => s.xRest = r.xRest ∧ s.x.getD 0 0 = r.x.getD 0 0 ∧ s.v.getD 0 0 = r.v.getD 0 0) 1
    ?_ 1 _ _ le_rfl ⟨p1, by rw [p2], by rw [p3]⟩
  intro i s hi ⟨h1, h2, h3⟩
  refine ⟨h1, ?_, ?_⟩
  · simp only [integrateStep]
    rw [getD_set_ne _ _ _ _ _ (by omega)]; exact h2
  · simp only [integrateStep]
    rw [getD_set_ne _ _ _ _ _ (by omega)]; exact h3

/-- The gather loop writes velocities only, at indices `≥ 1`. -/
theorem updateAllVelocitiesFromVoxels_frame (P : Params K) (r : ElasticRod K) (g : VoxelGrid K) :
    (updateAllVelocitiesFromVoxels P r g).xRest = r.xRest
    ∧ (updateAllVelocitiesFromVoxels P r g).x = r.x
    ∧ (updateAllVelocitiesFromVoxels P r g).v.getD 0 0 = r.v.getD 0 0 := by
  unfold updateAllVelocitiesFromVoxels
  refine forLoop_invariant_from (gatherStep P g)
    (fun s => s.xRest = r.xRest ∧ s.x = r.x ∧ s.v.getD 0 0 = r.v.getD 0 0) 1
    ?_ 1 _ _ le_rfl ⟨rfl, rfl, rfl⟩
  intro i s hi ⟨h1, h2, h3⟩
  refine ⟨h1, h2, ?_⟩
  simp only [gatherStep]
  rw [getD_set_ne _ _ _ _ _ (by omega)]; exact h3

/-- After `enforceConstraints` the root is at its rest position. -/
theorem enforceConstraints_root (sqrt : K → K) (r : ElasticRod K) (dt : K)
    (cs : List (Collider K)) (hn : 0 < r.x.length) :
    (r.enforceConstraints sqrt dt cs).x.getD 0 0 = r.xRest.getD 0 0 := by
  have hlen : ((r.handleCollisions cs).x.set 0 (r.xRest.getD 0 0)).length = r.x.length := by
    rw [List.length_set, handleCollisions_length]
  obtain ⟨_, h0, _, _⟩ := sweep_spec sqrt (r.handleCollisions cs)
    ((r.handleCollisions cs).x.set 0 (r.xRest.getD 0 0)) (r.x.length - 1) (by rw [hlen]; omega)
  rw [enforceConstraints_x, h0]
  exact getD_set_self _ _ _ _ (by rw [handleCollisions_length]; omega)

end ElasticRod

/-- A property kept by every iteration whose index is in the range of the loop
holds after the loop. -/
theorem forLoop_invariant_range {σ : Type} (body : Nat → σ → σ) (Q : σ → Prop) (lo cnt : Nat)
    (hstep : ∀ i s, lo ≤ i → i < lo + cnt → Q s → Q (body i s)) (s : σ) (h : Q s) :
    Q (forLoop body lo cnt s) := by
  induction cnt generalizing lo s with
  | zero => simpa [forLoop] using h
  | succ n ih =>
    exact ih (lo + 1) (fun i s h1 h2 => hstep i s (by omega) (by omega)) (body lo s)
      (hstep lo s le_rfl (by omega) h)

/-- A loop writing the value `val i` at every index `i` of its range leaves
`val j` at each index `j` of the range that lies inside the vector. -/
theorem forLoop_set_getD_inside {α : Type} (val : Nat → α) (lo cnt : Nat) (l : List α)
    (j : Nat) (d : α) (h1 : lo ≤ j) (h2 : j < lo + cnt) (h3 : j < l.length) :
    (forLoop (fun i m => m.set i (val i)) lo cnt l).getD j d = val j := by
  induction cnt generalizing lo l with
  | zero => omega
  | succ n ih =>
    rw [forLoop]
    rcases Nat.eq_or_lt_of_le h1 with h | h
    · subst h
      rw [forLoop_set_getD_outside (fun i _ => val i) (lo + 1) n _ lo d (by omega)]
      exact getD_set_self _ _ _ _ h3
    · exact ih (lo + 1) _ (by omega) (by omega) (by simpa using h3)

namespace ElasticRod

/-- One iteration of the rest-curvature loop stores the pair of material
curvatures of vertex `i` against the frames `i-1` and `i`. -/
theorem omega0Step_eq (sqrt : K → K) (r : ElasticRod K) (i : Nat) (o : List (Vec2 K × Vec2 K)) :
    r.omega0Step sqrt i o = o.set i (r.omega (r.kappaB sqrt i) i ((i : Int) + 0 - 1),
      r.omega (r.kappaB sqrt i) i ((i : Int) + 1 - 1)) := by
  simp only [omega0Step, List.set_set]
  rcases Nat.lt_or_ge i o.length with h | h
  · rw [getD_set_self _ _ _ _ h]
    simp [arraySet]
  · rw [List.set_eq_of_length_le h, List.set_eq_of_length_le h]

/-- The rest curvature stored by `reset`. -/
theorem reset_omega0 (sqrt : K → K) (r : ElasticRod K) (k : Nat) (h1 : 1 ≤ k)
    (h2 : k + 2 ≤ r.xRest.length) (h3 : k < r.omega0.length) :
    (r.reset sqrt).omega0.getD k default
      = ((r.reset sqrt).omega ((r.reset sqrt).kappaB sqrt k) k ((k : Int) - 1),
        (r.reset sqrt).omega ((r.reset sqrt).kappaB sqrt k) k k) := by
  simp only [reset]
  have hfun : ∀ r5 : ElasticRod K, (r5.omega0Step sqrt) = fun i o => o.set i
      (r5.omega (r5.kappaB sqrt i) i ((i : Int) + 0 - 1),
       r5.omega (r5.kappaB sqrt i) i ((i : Int) + 1 - 1)) := by
    intro r5; funext i o; exact omega0Step_eq sqrt r5 i o
  rw [hfun]
  rw [forLoop_set_getD_inside _ 1 _ _ k default h1
    (by simp [compMatFrames, compBishopFrames, refreshEdges]; omega) (by simpa using h3)]
  simp [omega, kappaB, edge, initEdge]


theorem mat32_mulVec_zero (m : Mat32 K) : m.mulVec 0 = 0 := by
  simp [Mat32.mulVec, Vec2.dot, vec3_zero_eq]

theorem vec2_sub_self (a : Vec2 K) : a - a = 0 := by
  ext <;> simp

/-- When the two curvature differences of every vertex `k` in the range of the
sum vanish, the accumulated bending gradient is zero. -/
theorem dEdXSum_eq_zero (sqrt : K → K) (P : Params K) (r : ElasticRod K) (i : Int)
    (h : ∀ k : Nat, 1 ≤ k → k + 2 ≤ r.x.length →
      r.omega (r.kappaB sqrt k) k ((k : Int) - 1)
          - arrayGet (r.omega0.getD (k : Int).toNat default) ((k : Int) - 1 - k + 1) = 0
      ∧ r.omega (r.kappaB sqrt k) k k
          - arrayGet (r.omega0.getD (k : Int).toNat default) ((k : Int) - k + 1) = 0) :
    r.dEdXSum sqrt P i = 0 := by
  unfold dEdXSum
  apply forLoop_invariant_range _ (fun f => f = 0)
  · intro k f hk1 hk2 hf
    have hk : 1 ≤ k := by omega
    obtain ⟨ha, hb⟩ := h k hk (by omega)
    simp only [dEdXTerm, ha, hb, mat32_mulVec_zero, hf]
    ext <;> simp [Vec3.divS]
  · rfl

end ElasticRod

/-- With an exact square root, the norm is non-negative and squares to the
squared norm. -/
theorem vec3_norm_spec {sqrt : K → K} (hs : ExactSqrt sqrt) (a : Vec3 K) :
    0 ≤ a.norm sqrt ∧ a.norm sqrt * a.norm sqrt = a.squaredNorm :=
  hs _ (vec3_squaredNorm_nonneg a)

theorem vec3_norm_neg (sqrt : K → K) (a : Vec3 K) : (-a).norm sqrt = a.norm sqrt := by
  rw [Vec3.norm, vec3_squaredNorm_neg, Vec3.norm]

/-- The clamp of `dEdX` on an arbitrary accumulated vector `f`. -/
theorem clamp_spec {sqrt : K → K} (hs : ExactSqrt sqrt) {m : K} (hm : 0 ≤ m) (f : Vec3 K) :
    ((-(if f.squaredNorm > m * m then m • f.normalized sqrt else f)).norm sqrt ≤ m)
    ∧ (m < f.norm sqrt →
      (-(if f.squaredNorm > m * m then m • f.normalized sqrt else f)).norm sqrt = m
      ∧ -(if f.squaredNorm > m * m then m • f.normalized sqrt else f)
          = -(m • f.divS (f.norm sqrt))
      ∧ ∃ c : K, 0 ≤ c
        ∧ -(if f.squaredNorm > m * m then m • f.normalized sqrt else f) = c • (-f)) := by
  obtain ⟨hN0, hN⟩ := vec3_norm_spec hs f
  have big : f.squaredNorm > m * m →
      (-(if f.squaredNorm > m * m then m • f.normalized sqrt else f)).norm sqrt = m
      ∧ -(if f.squaredNorm > m * m then m • f.normalized sqrt else f)
          = -(m • f.divS (f.norm sqrt))
      ∧ ∃ c : K, 0 ≤ c
        ∧ -(if f.squaredNorm > m * m then m • f.normalized sqrt else f) = c • (-f) := by
    intro hb
    have hpos : 0 < f.squaredNorm := lt_of_le_of_lt (mul_self_nonneg m) hb
    have hf : f ≠ 0 := by
      intro h0; rw [h0] at hpos; simp [Vec3.squaredNorm, vec3_zero_eq] at hpos
    rw [if_pos hb]
    refine ⟨?_, ?_, ?_⟩
    · rw [vec3_norm_neg]; exact ElasticRod.vec3_norm_smul_normalized hs hf hm
    · rw [Vec3.normalized, if_pos hpos]; rfl
    · refine ⟨m / f.norm sqrt, div_nonneg hm hN0, ?_⟩
      rw [Vec3.normalized, if_pos hpos]
      ext <;> simp [Vec3.divS, Vec3.norm] <;> ring
  refine ⟨?_, ?_⟩
  · by_cases hb : f.squaredNorm > m * m
    · exact (big hb).1.le
    · rw [if_neg hb, vec3_norm_neg]
      have hle : f.norm sqrt * f.norm sqrt ≤ m * m := by rw [hN]; exact not_lt.mp hb
      exact abs_le_of_sq_le_sq' (by nlinarith) hm |>.2
  · intro hlt
    apply big
    have : m * m < f.norm sqrt * f.norm sqrt := by nlinarith
    rw [hN] at this
    exact this

theorem vec3_cross_smul_smul (a b : K) (d : Vec3 K) : (a • d).cross (b • d) = 0 := by
  ext <;> simp [Vec3.cross] <;> ring

theorem vec3_divS_zero (s : K) : (0 : Vec3 K).divS s = 0 := by
  ext <;> simp [Vec3.divS]

theorem vec3_smul_zero (s : K) : s • (0 : Vec3 K) = 0 := by
  ext <;> simp

namespace ElasticRod

/-- When the two edges at a vertex are multiples of one direction the
curvature binormal has a zero numerator. -/
theorem kappaB_of_colinear (sqrt : K → K) (r : ElasticRod K) (d : Vec3 K)
    (hcur : ∀ i : Int, ∃ a : K, r.edge i = a • d) (i : Int) : r.kappaB sqrt i = 0 := by
  unfold kappaB
  split
  · rfl
  · obtain ⟨a, ha⟩ := hcur (i - 1)
    obtain ⟨b, hb⟩ := hcur i
    rw [ha, hb, vec3_cross_smul_smul, vec3_smul_zero, vec3_divS_zero]

/-- With zero curvature binormal and `sqrt 1 = 1` the small-angle test of
`compBishopFrames` succeeds. -/
theorem small_angle_of_zero (sqrt : K → K) (h1 : sqrt 1 = 1) :
    1 - (computeCosAndSin sqrt (0 : Vec3 K).squaredNorm).1 < 1 / 1000000 := by
  have h4 : (4 : K) / (0 + 4) = 1 := by norm_num
  simp only [computeCosAndSin, Vec3.squaredNorm, vec3_zero_x, vec3_zero_y, vec3_zero_z, mul_zero,
    add_zero, h4, h1, sub_self]
  norm_num

/-- A loop copying entry `i-1` to entry `i` for `i = 1..c` makes the entries
`0..c` equal to entry 0. -/
theorem copy_loop_spec {α : Type} (d : α) (l : List α) (c : Nat) (hc : c < l.length) :
    (forLoop (fun i (m : List α) => m.set i (m.getD (i - 1) d)) 1 c l).length = l.length
    ∧ ∀ i, i ≤ c → (forLoop (fun i (m : List α) => m.set i (m.getD (i - 1) d)) 1 c l).getD i d
        = l.getD 0 d := by
  induction c with
  | zero =>
    refine ⟨rfl, fun i hi => ?_⟩
    have : i = 0 := by omega
    subst this; rfl
  | succ n ih =>
    obtain ⟨hl, hin⟩ := ih (by omega)
    rw [forLoop_succ_right]
    refine ⟨by simp only [List.length_set]; exact hl, fun i hi => ?_⟩
    rcases Nat.lt_or_ge i (n + 1) with hlt | hge
    · rw [getD_set_ne _ _ _ _ _ (by omega)]
      exact hin i (by omega)
    · have : i = 1 + n := by omega
      subst this
      rw [getD_set_self _ _ _ _ (by rw [hl]; omega)]
      exact hin (1 + n - 1) (by omega)

end ElasticRod

/-- A loop replacing every entry `i` of its range by `F i` of that entry
leaves `F j (l[j])` at each index `j` of the range inside the vector. -/
theorem forLoop_set_getD_own {α : Type} (F : Nat → α → α) (lo cnt : Nat) (l : List α)
    (j : Nat) (d : α) (h1 : lo ≤ j) (h2 : j < lo + cnt) (h3 : j < l.length) :
    (forLoop (fun i m => m.set i (F i (m.getD i d))) lo cnt l).getD j d = F j (l.getD j d) := by
  induction cnt generalizing lo l with
  | zero => omega
  | succ n ih =>
    rw [forLoop]
    rcases Nat.eq_or_lt_of_le h1 with h | h
    · subst h
      rw [forLoop_set_getD_outside (fun i m => F i (m.getD i d)) (lo + 1) n _ lo d (by omega)]
      exact getD_set_self _ _ _ _ h3
    · rw [ih (lo + 1) _ (by omega) (by omega) (by simpa using h3),
        getD_set_ne _ _ _ _ _ (by omega)]

theorem list_set_getD_self {α : Type} (l : List α) (i : Nat) (d : α) :
    l.set i (l.getD i d) = l := by
  rcases Nat.lt_or_ge i l.length with h | h
  · apply List.ext_getElem (by simp)
    intro j h1 h2
    by_cases hij : i = j
    · subst hij; simp [List.getElem?_eq_getElem h]
    · simp [List.getElem_set_ne hij]
  · exact List.set_eq_of_length_le h

/-- On offsets in `[0,1]³` the nested interpolation of the gather is the
trilinear sum. -/
theorem gatherInterp_eq_trilinearSum (lp : Vec3 K) (vel : Nat → Nat → Nat → Vec3 K)
    (hx : 0 ≤ lp.x ∧ lp.x ≤ 1) (hy : 0 ≤ lp.y ∧ lp.y ≤ 1) (hz : 0 ≤ lp.z ∧ lp.z ≤ 1) :
    ElasticRod.gatherInterp lp (vel 0 0 0) (vel 0 0 1) (vel 1 0 0) (vel 1 0 1) (vel 0 1 0)
      (vel 0 1 1) (vel 1 1 0) (vel 1 1 1) = trilinearSum lp vel := by
  have a0 : ∀ t : K, 0 ≤ t → |t - ((0 : Nat) : K)| = t := by
    intro t ht; rw [Nat.cast_zero, sub_zero, abs_of_nonneg ht]
  have a1 : ∀ t : K, t ≤ 1 → |t - ((1 : Nat) : K)| = 1 - t := by
    intro t ht; rw [Nat.cast_one, abs_of_nonpos (by linarith)]; ring
  simp only [ElasticRod.gatherInterp, trilinearSum, trilinearWeight, Vec3.coeff,
    a0 _ hx.1, a0 _ hy.1, a0 _ hz.1, a1 _ hx.2, a1 _ hy.2, a1 _ hz.2]
  ext <;> simp <;> ring

namespace ElasticRod

/-- The gather loop keeps the positions and acts on the velocities entry by
entry. -/
theorem gather_loop (P : Params K) (g : VoxelGrid K) (lo cnt : Nat) (r : ElasticRod K) :
    (forLoop (gatherStep P g) lo cnt r).x = r.x
    ∧ (forLoop (gatherStep P g) lo cnt r).v
      = forLoop (fun i v => v.set i ((fun i w => (1 - P.friction) • w
          + P.friction • (P.sampledVelocityScale • sampledVelocity g (r.x.getD i 0))) i
            (v.getD i 0))) lo cnt r.v := by
  induction cnt generalizing lo r with
  | zero => exact ⟨rfl, rfl⟩
  | succ n ih =>
    obtain ⟨h1, h2⟩ := ih (lo + 1) (gatherStep P g lo r)
    rw [forLoop, h1, h2]
    exact ⟨rfl, rfl⟩

end ElasticRod

namespace ElasticRod

/-- The edges stored by `refreshEdges` are the differences of consecutive
positions. -/
theorem refreshEdges_e (r : ElasticRod K) (i : Nat) (hi : i < r.e.length) :
    r.refreshEdges.e.getD i 0 = r.x.getD (i + 1) 0 - r.x.getD i 0 := by
  simp only [refreshEdges]
  exact forLoop_set_getD_inside (fun i => r.x.getD (i + 1) 0 - r.x.getD i 0) 0 r.e.length r.e i 0
    (by omega) (by omega) hi

theorem integratePrepare_e (sqrt : K → K) (r : ElasticRod K) :
    (r.integratePrepare sqrt).e = r.refreshEdges.e :=
  (parallelTransportFrameInTime_frame sqrt r.refreshEdges (r.edge 0)).2.2.2.1

end ElasticRod

theorem resize_length {α : Type} (l : List α) (n : Nat) (d : α) : (resize l n d).length = n := by
  simp only [resize, List.length_append, List.length_take, List.length_replicate]
  omega

namespace ElasticRod

theorem reset_v (sqrt : K → K) (r : ElasticRod K) :
    (r.reset sqrt).v = List.replicate r.v.length 0 := rfl

theorem reset_omega0_length (sqrt : K → K) (r : ElasticRod K) :
    (r.reset sqrt).omega0.length = r.omega0.length := by
  have hfun : ∀ r5 : ElasticRod K, (r5.omega0Step sqrt) = fun i o => o.set i
      (r5.omega (r5.kappaB sqrt i) i ((i : Int) + 0 - 1),
       r5.omega (r5.kappaB sqrt i) i ((i : Int) + 1 - 1)) := by
    intro r5; funext i o; exact omega0Step_eq sqrt r5 i o
  simp only [reset, hfun]
  rw [forLoop_set_length (fun i _ => _)]
  simp [compMatFrames, compBishopFrames, refreshEdges]

/-- The vectors of a constructed rod have the sizes `init` allocates. -/
theorem init_sizes (sqrt : K → K) (r : ElasticRod K) (verts : List (Vec3 K)) :
    (r.init sqrt verts).x.length = verts.length
    ∧ (r.init sqrt verts).xRest.length = verts.length
    ∧ (r.init sqrt verts).v.length = verts.length
    ∧ (r.init sqrt verts).omega0.length = verts.length := by
  have hx : (forLoop (fun i (x : List (Vec3 K)) => x.set i (verts.getD i 0)) 0 verts.length
      (resize r.x verts.length (0 : Vec3 K))).length = verts.length := by
    rw [forLoop_set_length (fun i _ => verts.getD i 0), resize_length]
  refine ⟨hx, hx, ?_, ?_⟩
  · simp only [init, reset_v, List.length_replicate, resize_length]
  · simp only [init, reset_omega0_length, resize_length]

end ElasticRod

namespace ElasticRod

/-- State of the inextensibility sweep after `c` iterations, corrections
included: the vectors keep their lengths, each swept vertex `j` in `1..c` sits
at its position at entry plus `dx[j]`, and the later vertices are as at
entry. -/
theorem sweep_dx_spec (sqrt : K → K) (r : ElasticRod K) (x0 dx0 : List (Vec3 K)) (c : Nat)
    (hc : c < x0.length) (hd : dx0.length = x0.length) :
    (forLoop (r.sweepStep sqrt) 1 c (x0, dx0)).1.length = x0.length
    ∧ (forLoop (r.sweepStep sqrt) 1 c (x0, dx0)).2.length = x0.length
    ∧ (∀ j, c < j → (forLoop (r.sweepStep sqrt) 1 c (x0, dx0)).1.getD j 0 = x0.getD j 0)
    ∧ (∀ j, 1 ≤ j → j ≤ c → (forLoop (r.sweepStep sqrt) 1 c (x0, dx0)).1.getD j 0
        = x0.getD j 0 + (forLoop (r.sweepStep sqrt) 1 c (x0, dx0)).2.getD j 0) := by
  induction c with
  | zero =>
    refine ⟨rfl, hd, fun j _ => rfl, fun j h1 h2 => ?_⟩
    omega
  | succ n ih =>
    obtain ⟨hl1, hl2, hout, hin⟩ := ih (by omega)
    rw [forLoop_succ_right]
    simp only [sweepStep]
    refine ⟨by rw [List.length_set]; exact hl1, by rw [List.length_set]; exact hl2, ?_, ?_⟩
    · intro j hj
      rw [getD_set_ne _ _ _ _ _ (by omega)]
      exact hout j (by omega)
    · intro j h1 h2
      rcases Nat.lt_or_ge j (n + 1) with hlt | hge
      · rw [getD_set_ne _ _ _ _ _ (by omega), getD_set_ne _ _ _ _ _ (by omega)]
        exact hin j h1 (by omega)
      · have hj : j = 1 + n := by omega
        subst hj
        rw [getD_set_self _ _ _ _ (by rw [hl1]; omega), getD_set_self _ _ _ _ (by rw [hl2]; omega),
          hout (1 + n) (by omega)]

end ElasticRod

/-- For `lo ≤ hi`, `std::clamp(v, lo, hi)` is `min(max(v, lo), hi)`. -/
theorem clampInt_eq_min_max (v lo hi : Int) (h : lo ≤ hi) :
    clampInt v lo hi = min (max v lo) hi := by
  unfold clampInt
  split
  · rw [max_eq_right (by omega), min_eq_left h]
  · split
    · rw [max_eq_left (by omega), min_eq_right (by omega)]
    · rw [max_eq_left (by omega), min_eq_left (by omega)]

theorem getD_eq_of_getElem? {α : Type} (l : List α) (i : Nat) (d : α) (h : i < l.length) :
    l[i]? = some (l.getD i d) := by
  simp [List.getElem?_eq_getElem h]

theorem vec3_neg_add_self (a : Vec3 K) : -a + a = 0 := by
  ext <;> simp

theorem vec3_add_neg_self (a : Vec3 K) : a + -a = 0 := by
  ext <;> simp

theorem vec3_neg_divS (a : Vec3 K) (s : K) : (-a).divS s = -(a.divS s) := by
  ext <;> simp [Vec3.divS, neg_div]

theorem vec2_outer_zero (w : Vec2 K) : w.outer (0 : Vec3 K) = 0 := by
  simp only [Vec2.outer, vec3_zero_x, vec3_zero_y, vec3_zero_z, mul_zero]
  rfl

theorem mat23_sub_zero (m : Mat23 K) : m - 0 = m := by
  cases m with
  | mk r0 r1 =>
    show Mat23.mk (r0 - 0) (r1 - 0) = Mat23.mk r0 r1
    congr 1 <;> ext <;> simp

theorem forLoop_split {σ : Type} (body : Nat → σ → σ) (a b lo : Nat) (s : σ) :
    forLoop body lo (a + b) s = forLoop body (lo + a) b (forLoop body lo a s) := by
  induction a generalizing lo s with
  | zero => simp [forLoop]
  | succ n ih =>
    have e1 : n + 1 + b = (n + b) + 1 := by omega
    have e2 : lo + (n + 1) = lo + 1 + n := by omega
    rw [e1, forLoop, ih, forLoop, e2]

theorem mat3_add_def (a b : Mat3 K) : a + b = ⟨a.r0 + b.r0, a.r1 + b.r1, a.r2 + b.r2⟩ := rfl

theorem mat3_neg_def (a : Mat3 K) : -a = ⟨-a.r0, -a.r1, -a.r2⟩ := rfl

theorem mat3_zero_def : (0 : Mat3 K) = ⟨0, 0, 0⟩ := rfl

/-- A matrix of the form `X/d + (-(X + Y))/d + Y/d` is zero. -/
theorem mat3_divS_cancel (x y : Mat3 K) (d : K) :
    x.divS d + (-(x + y)).divS d + y.divS d = 0 := by
  simp only [mat3_add_def, mat3_neg_def, Mat3.divS, mat3_zero_def, Mat3.mk.injEq]
  refine ⟨?_, ?_, ?_⟩ <;> ext <;> simp [Vec3.divS] <;> ring

theorem mat3_neg_divS_eq (x y : Mat3 K) (d : K) :
    (-(x + y)).divS d = -(x.divS d + y.divS d) := by
  simp only [mat3_add_def, mat3_neg_def, Mat3.divS, Mat3.mk.injEq]
  refine ⟨?_, ?_, ?_⟩ <;> ext <;> simp [Vec3.divS] <;> ring

namespace ElasticRod

/-- For `k < i-1` both parts of `omegaGrad(i,j,k)` with `j ∈ {k-1,k}` vanish. -/
theorem omegaGrad_eq_zero (sqrt : K → K) (r : ElasticRod K) (i j k : Int) (hk : k < i - 1)
    (hj : j = k - 1 ∨ j = k) : r.omegaGrad sqrt i j k = 0 := by
  have h1 : ¬ (k ≥ i - 1 ∧ k ≤ i + 1) := by omega
  have h2 : |j - i| > 1 := by
    have : j - i < -1 := by omega
    have h3 : |j - i| = -(j - i) := abs_of_neg (by omega)
    omega
  simp only [omegaGrad, if_neg h1, gradHolonomy, if_pos h2, vec2_outer_zero]
  exact mat23_sub_zero 0

theorem dEdXTerm_of_omegaGrad_zero (sqrt : K → K) (P : Params K) (r : ElasticRod K)
    (i k j : Int) (h : r.omegaGrad sqrt i j k = 0) : r.dEdXTerm sqrt P i k j = 0 := by
  simp only [dEdXTerm, h]
  ext <;> simp [Mat32.mulVec, Mat32.mulMat2, Mat23.transpose, Vec2.mulMat, Vec2.dot] <;>
    simp [show ((0 : Mat23 K).r0) = 0 from rfl, show ((0 : Mat23 K).r1) = 0 from rfl]

end ElasticRod

/-- Derivative at `0` of a quotient of two quadratic polynomials. -/
theorem hasDerivAt_quadratic_div (n0 n1 n2 d0 d1 d2 : ℝ) (h : d0 ≠ 0) :
    HasDerivAt (fun t : ℝ => (n0 + t * n1 + t * t * n2) / (d0 + t * d1 + t * t * d2))
      ((n1 * d0 - n0 * d1) / (d0 * d0)) 0 := by
  have hn : HasDerivAt (fun t : ℝ => n0 + t * n1 + t * t * n2) n1 0 := by
    have h1 : HasDerivAt (fun t : ℝ => t * n1) n1 0 := by
      simpa using (hasDerivAt_id (0 : ℝ)).mul_const n1
    have h2 : HasDerivAt (fun t : ℝ => t * t * n2) 0 0 := by
      have := ((hasDerivAt_id (0 : ℝ)).mul (hasDerivAt_id (0 : ℝ))).mul_const n2
      simpa using this
    simpa using ((hasDerivAt_const (0 : ℝ) n0).add h1).add h2
  have hd : HasDerivAt (fun t : ℝ => d0 + t * d1 + t * t * d2) d1 0 := by
    have h1 : HasDerivAt (fun t : ℝ => t * d1) d1 0 := by
      simpa using (hasDerivAt_id (0 : ℝ)).mul_const d1
    have h2 : HasDerivAt (fun t : ℝ => t * t * d2) 0 0 := by
      have := ((hasDerivAt_id (0 : ℝ)).mul (hasDerivAt_id (0 : ℝ))).mul_const d2
      simpa using this
    simpa using ((hasDerivAt_const (0 : ℝ) d0).add h1).add h2
  have hq := hn.div hd (by simpa using h)
  convert hq using 1
  simp
  ring

/-- Directional derivative of the curvature binormal
`2 a × b / (len + a · b)` along `(da, db)`, component by component. -/
theorem hasDerivAt_binormal (a b da db : Vec3 ℝ) (len : ℝ) (hD : len + a.dot b ≠ 0) :
    HasDerivAt (fun t : ℝ => (((2 : ℝ) • (a + t • da).cross (b + t • db)).divS
        (len + (a + t • da).dot (b + t • db))).x)
      ((((2 : ℝ) • (da.cross b + a.cross db)).divS (len + a.dot b)
        - ((da.dot b + a.dot db) / (len + a.dot b))
          • ((2 : ℝ) • a.cross b).divS (len + a.dot b)).x) 0
    ∧ HasDerivAt (fun t : ℝ => (((2 : ℝ) • (a + t • da).cross (b + t • db)).divS
        (len + (a + t • da).dot (b + t • db))).y)
      ((((2 : ℝ) • (da.cross b + a.cross db)).divS (len + a.dot b)
        - ((da.dot b + a.dot db) / (len + a.dot b))
          • ((2 : ℝ) • a.cross b).divS (len + a.dot b)).y) 0
    ∧ HasDerivAt (fun t : ℝ => (((2 : ℝ) • (a + t • da).cross (b + t • db)).divS
        (len + (a + t • da).dot (b + t • db))).z)
      ((((2 : ℝ) • (da.cross b + a.cross db)).divS (len + a.dot b)
        - ((da.dot b + a.dot db) / (len + a.dot b))
          • ((2 : ℝ) • a.cross b).divS (len + a.dot b)).z) 0 := by
  refine ⟨?_, ?_, ?_⟩
  · have := hasDerivAt_quadratic_div (2 * (a.y * b.z - a.z * b.y))
      (2 * (da.y * b.z + a.y * db.z - da.z * b.y - a.z * db.y)) (2 * (da.y * db.z - da.z * db.y))
      (len + a.dot b) (da.dot b + a.dot db) (da.dot db) hD
    convert this using 1
    · funext t
      simp only [Vec3.divS, Vec3.cross, Vec3.dot, vec3_smul_def, vec3_add_def]
      congr 1 <;> ring
    · simp only [Vec3.divS, Vec3.cross, Vec3.dot, vec3_smul_def, vec3_add_def, vec3_sub_def]
      simp only [Vec3.dot] at hD
      field_simp
      ring
  · have := hasDerivAt_quadratic_div (2 * (a.z * b.x - a.x * b.z))
      (2 * (da.z * b.x + a.z * db.x - da.x * b.z - a.x * db.z)) (2 * (da.z * db.x - da.x * db.z))
      (len + a.dot b) (da.dot b + a.dot db) (da.dot db) hD
    convert this using 1
    · funext t
      simp only [Vec3.divS, Vec3.cross, Vec3.dot, vec3_smul_def, vec3_add_def]
      congr 1 <;> ring
    · simp only [Vec3.divS, Vec3.cross, Vec3.dot, vec3_smul_def, vec3_add_def, vec3_sub_def]
      simp only [Vec3.dot] at hD
      field_simp
      ring
  · have := hasDerivAt_quadratic_div (2 * (a.x * b.y - a.y * b.x))
      (2 * (da.x * b.y + a.x * db.y - da.y * b.x - a.y * db.x)) (2 * (da.x * db.y - da.y * db.x))
      (len + a.dot b) (da.dot b + a.dot db) (da.dot db) hD
    convert this using 1
    · funext t
      simp only [Vec3.divS, Vec3.cross, Vec3.dot, vec3_smul_def, vec3_add_def]
      congr 1 <;> ring
    · simp only [Vec3.divS, Vec3.cross, Vec3.dot, vec3_smul_def, vec3_add_def, vec3_sub_def]
      simp only [Vec3.dot] at hD
      field_simp
      ring

theorem binormal_grad_prev (a b h : Vec3 K) (D : K) :
    ((2 : K) • ((-h).cross b + a.cross 0)).divS D
        - (((-h).dot b + a.dot 0) / D) • ((2 : K) • a.cross b).divS D
      = (((2 : K) • skew b + (((2 : K) • a.cross b).divS D).outer b).divS D).mulVec h := by
  ext <;>
    simp [Vec3.divS, Vec3.cross, Vec3.dot, Mat3.divS, Mat3.mulVec, Vec3.outer, skew,
      mat3_add_def, show ∀ (s : K) (m : Mat3 K), s • m = ⟨s • m.r0, s • m.r1, s • m.r2⟩ from
        fun _ _ => rfl] <;> ring

theorem binormal_grad_next (a b h : Vec3 K) (D : K) :
    ((2 : K) • ((0 : Vec3 K).cross b + a.cross h)).divS D
        - (((0 : Vec3 K).dot b + a.dot h) / D) • ((2 : K) • a.cross b).divS D
      = (((2 : K) • skew a - (((2 : K) • a.cross b).divS D).outer a).divS D).mulVec h := by
  ext <;>
    simp [Vec3.divS, Vec3.cross, Vec3.dot, Mat3.divS, Mat3.mulVec, Vec3.outer, skew,
      show ∀ (m n : Mat3 K), m - n = ⟨m.r0 - n.r0, m.r1 - n.r1, m.r2 - n.r2⟩ from
        fun _ _ => rfl,
      show ∀ (s : K) (m : Mat3 K), s • m = ⟨s • m.r0, s • m.r1, s • m.r2⟩ from
        fun _ _ => rfl] <;> ring

theorem binormal_grad_mid (a b h : Vec3 K) (D : K) :
    ((2 : K) • (h.cross b + a.cross (-h))).divS D
        - ((h.dot b + a.dot (-h)) / D) • ((2 : K) • a.cross b).divS D
      = ((-(((2 : K) • skew b + (((2 : K) • a.cross b).divS D).outer b)
          + ((2 : K) • skew a - (((2 : K) • a.cross b).divS D).outer a))).divS D).mulVec h := by
  ext <;>
    simp [Vec3.divS, Vec3.cross, Vec3.dot, Mat3.divS, Mat3.mulVec, Vec3.outer, skew,
      mat3_add_def, mat3_neg_def,
      show ∀ (m n : Mat3 K), m - n = ⟨m.r0 - n.r0, m.r1 - n.r1, m.r2 - n.r2⟩ from
        fun _ _ => rfl,
      show ∀ (s : K) (m : Mat3 K), s • m = ⟨s • m.r0, s • m.r1, s • m.r2⟩ from
        fun _ _ => rfl] <;> ring

namespace ElasticRod

/-- For an edge index inside the rod the clamp of `edge` is the identity. -/
theorem edge_of_lt (r : ElasticRod K) (k : Nat) (hk : k + 2 ≤ r.x.length) :
    r.edge (k : Int) = r.e.getD k 0 := by
  have hc : clampInt (k : Int) 0 ((r.x.length : Int) - 2) = (k : Int) := by
    unfold clampInt
    rw [if_neg (by omega), if_neg (by omega)]
  simp only [edge, hc, Int.toNat_ofNat]

theorem initEdge_displaced (r : ElasticRod K) (j : Nat) (d : Vec3 K) (i : Int) :
    (r.displaced j d).initEdge i = r.initEdge i := by
  simp only [initEdge, displaced, refreshEdges, List.length_set]

theorem displaced_length (r : ElasticRod K) (j : Nat) (d : Vec3 K) :
    (r.displaced j d).x.length = r.x.length := by
  simp only [displaced, refreshEdges, List.length_set]

theorem displaced_edge (r : ElasticRod K) (j : Nat) (d : Vec3 K) (k : Nat)
    (hk : k + 2 ≤ r.x.length) (he : r.e.length = r.x.length - 1) :
    (r.displaced j d).edge (k : Int)
      = (r.x.set j (r.x.getD j 0 + d)).getD (k + 1) 0
        - (r.x.set j (r.x.getD j 0 + d)).getD k 0 := by
  rw [edge_of_lt _ k (by rw [displaced_length]; exact hk)]
  exact refreshEdges_e { r with x := r.x.set j (r.x.getD j 0 + d) } k (by
    show k < r.e.length
    omega)

theorem kappaBGrad_at_prev (sqrt : K → K) (r : ElasticRod K) (i : Int) (h1 : 1 ≤ i)
    (h2 : i ≤ (r.x.length : Int)) :
    r.kappaBGrad sqrt i (i - 1)
      = ((2 : K) • skew (r.edge i) + (r.kappaB sqrt i).outer (r.edge i)).divS
        ((r.initEdge (i - 1)).norm sqrt * (r.initEdge i).norm sqrt
          + (r.edge (i - 1)).dot (r.edge i)) := by
  have g1 : ¬ (i - 1 < i - 1 ∨ i - 1 > i + 1 ∨ i - 1 < 0 ∨ i - 1 ≥ (r.x.length : Int)) := by
    omega
  simp only [kappaBGrad, if_neg g1, if_true]

theorem kappaBGrad_at_next (sqrt : K → K) (r : ElasticRod K) (i : Int) (h1 : -1 ≤ i)
    (h2 : i + 2 ≤ (r.x.length : Int)) :
    r.kappaBGrad sqrt i (i + 1)
      = ((2 : K) • skew (r.edge (i - 1)) - (r.kappaB sqrt i).outer (r.edge (i - 1))).divS
        ((r.initEdge (i - 1)).norm sqrt * (r.initEdge i).norm sqrt
          + (r.edge (i - 1)).dot (r.edge i)) := by
  have g3 : ¬ (i + 1 < i - 1 ∨ i + 1 > i + 1 ∨ i + 1 < 0 ∨ i + 1 ≥ (r.x.length : Int)) := by
    omega
  have n3 : ¬ (i + 1 = i - 1) := by omega
  simp only [kappaBGrad, if_neg g3, if_neg n3, if_true]

theorem kappaBGrad_at_self (sqrt : K → K) (r : ElasticRod K) (i : Int) (h1 : 0 ≤ i)
    (h2 : i + 1 ≤ (r.x.length : Int)) :
    r.kappaBGrad sqrt i i
      = (-(((2 : K) • skew (r.edge i) + (r.kappaB sqrt i).outer (r.edge i))
          + ((2 : K) • skew (r.edge (i - 1)) - (r.kappaB sqrt i).outer (r.edge (i - 1))))).divS
        ((r.initEdge (i - 1)).norm sqrt * (r.initEdge i).norm sqrt
          + (r.edge (i - 1)).dot (r.edge i)) := by
  have g2 : ¬ (i < i - 1 ∨ i > i + 1 ∨ i < 0 ∨ i ≥ (r.x.length : Int)) := by omega
  have n1 : ¬ (i = i - 1) := by omega
  have n2 : ¬ (i = i + 1) := by omega
  simp only [kappaBGrad, if_neg g2, if_neg n1, if_neg n2]

/-- The curvature binormal of the displaced rod at an interior vertex. -/
theorem kappaB_displaced (sqrt : K → K) (r : ElasticRod K) (i j : Nat) (d : Vec3 K)
    (hi1 : 1 ≤ i) (hi2 : i + 2 ≤ r.x.length) (he : r.e.length = r.x.length - 1) :
    (r.displaced j d).kappaB sqrt i
      = ((2 : K) • ((r.x.set j (r.x.getD j 0 + d)).getD i 0
            - (r.x.set j (r.x.getD j 0 + d)).getD (i - 1) 0).cross
          ((r.x.set j (r.x.getD j 0 + d)).getD (i + 1) 0
            - (r.x.set j (r.x.getD j 0 + d)).getD i 0)).divS
        ((r.initEdge i).norm sqrt * (r.initEdge ((i : Int) - 1)).norm sqrt
          + ((r.x.set j (r.x.getD j 0 + d)).getD i 0
              - (r.x.set j (r.x.getD j 0 + d)).getD (i - 1) 0).dot
            ((r.x.set j (r.x.getD j 0 + d)).getD (i + 1) 0
              - (r.x.set j (r.x.getD j 0 + d)).getD i 0)) := by
  have hi0 : ¬ ((i : Int) = 0) := by omega
  have hc : ((i : Int) - 1) = ((i - 1 : Nat) : Int) := by omega
  have e1 := displaced_edge r j d (i - 1) (by omega) he
  have e2 := displaced_edge r j d i hi2 he
  have e3 : i - 1 + 1 = i := by omega
  rw [e3] at e1
  simp only [kappaB, if_neg hi0, initEdge_displaced]
  rw [hc, e1, e2]

end ElasticRod

theorem mat3_sub_def (a b : Mat3 K) : a - b = ⟨a.r0 - b.r0, a.r1 - b.r1, a.r2 - b.r2⟩ := rfl

theorem mat3_smul_def (s : K) (a : Mat3 K) : s • a = ⟨s • a.r0, s • a.r1, s • a.r2⟩ := rfl

theorem mat23_sub_def (a b : Mat23 K) : a - b = ⟨a.r0 - b.r0, a.r1 - b.r1⟩ := rfl

namespace ElasticRod

/-- Each iteration of `compBishopFrames` writes the frame of its own index. -/
theorem bishopStep_eq_set (sqrt : K → K) (r : ElasticRod K) (i : Nat)
    (bf : List (BishopFrame K)) :
    r.bishopStep sqrt i bf = bf.set i
      (if 1 - (computeCosAndSin sqrt (r.kappaB sqrt i).squaredNorm).1 < 1 / 1000000 then
        ⟨(bf.getD (i - 1) default).u, (bf.getD (i - 1) default).v⟩
      else ⟨rotateByQuat sqrt (r.kappaB sqrt i) (bf.getD (i - 1) default).u,
        ((r.edge i).cross
          (rotateByQuat sqrt (r.kappaB sqrt i) (bf.getD (i - 1) default).u)).normalized sqrt⟩) := by
  simp only [bishopStep]
  split <;> rfl

/-- Frame 0 after `compBishopFrames` is `(u0, (edge(0) × u0).normalized())`. -/
theorem compBishopFrames_zero (sqrt : K → K) (r : ElasticRod K) (h : 0 < r.bishopFrames.length) :
    (r.compBishopFrames sqrt).bishopFrames.getD 0 default
      = ⟨r.u0, ((r.edge 0).cross r.u0).normalized sqrt⟩ := by
  have hfun : r.bishopStep sqrt = fun i bf => bf.set i
      ((fun (i : Nat) (bf : List (BishopFrame K)) =>
        if 1 - (computeCosAndSin sqrt (r.kappaB sqrt i).squaredNorm).1 < 1 / 1000000 then
          (⟨(bf.getD (i - 1) default).u, (bf.getD (i - 1) default).v⟩ : BishopFrame K)
        else ⟨rotateByQuat sqrt (r.kappaB sqrt i) (bf.getD (i - 1) default).u,
          ((r.edge i).cross
            (rotateByQuat sqrt (r.kappaB sqrt i) (bf.getD (i - 1) default).u)).normalized sqrt⟩)
        i bf) := by
    funext i bf
    exact bishopStep_eq_set sqrt r i bf
  simp only [compBishopFrames, hfun]
  rw [forLoop_set_getD_outside _ 1 _ _ 0 default (Or.inl (by omega))]
  exact getD_set_self _ _ _ _ h

/-- The material frame of edge `i` after `compMatFrames` is the Bishop frame. -/
theorem compMatFrames_M (r : ElasticRod K) (i : Nat) (h1 : i + 1 < r.x.length)
    (h2 : i < r.M.length) :
    (r.compMatFrames).M.getD i default
      = ⟨(r.bishopFrames.getD i default).u, (r.bishopFrames.getD i default).v⟩ := by
  simp only [compMatFrames]
  exact forLoop_set_getD_inside
    (fun i => (⟨(r.bishopFrames.getD i default).u, (r.bishopFrames.getD i default).v⟩ :
      MaterialFrame K)) 0 _ r.M i default (by omega) (by omega) h2

/-- The material frame of edge 0 after `reset`. -/
theorem reset_M_zero (sqrt : K → K) (r : ElasticRod K) (hn : 2 ≤ r.xRest.length)
    (hb : 0 < r.bishopFrames.length) (hM : 0 < r.M.length) :
    (r.reset sqrt).M.getD 0 default
      = ⟨(r.reset sqrt).u0, (((r.reset sqrt).edge 0).cross (r.reset sqrt).u0).normalized sqrt⟩ := by
  simp only [reset]
  rw [compMatFrames_M _ 0 (by simpa [compBishopFrames, refreshEdges] using hn)
    (by simpa [compBishopFrames, refreshEdges] using hM),
    compBishopFrames_zero sqrt _ (by simpa [refreshEdges] using hb)]
  rfl

end ElasticRod

/-- The vector part of the sandwich `q * (0, u) * q.conjugate()` for the
quaternion `q = (a, b)`: its squared norm and its product with a vector `e`. -/
theorem quat_sandwich (a : K) (b u e : Vec3 K) :
    (Vec3.mk
      (((Quaternion.mk a b.x b.y b.z).mul ⟨0, u.x, u.y, u.z⟩).mul
        (Quaternion.mk a b.x b.y b.z).conjugate).x
      (((Quaternion.mk a b.x b.y b.z).mul ⟨0, u.x, u.y, u.z⟩).mul
        (Quaternion.mk a b.x b.y b.z).conjugate).y
      (((Quaternion.mk a b.x b.y b.z).mul ⟨0, u.x, u.y, u.z⟩).mul
        (Quaternion.mk a b.x b.y b.z).conjugate).z).squaredNorm
      = (a * a + b.squaredNorm) * (a * a + b.squaredNorm) * u.squaredNorm
    ∧ (Vec3.mk
      (((Quaternion.mk a b.x b.y b.z).mul ⟨0, u.x, u.y, u.z⟩).mul
        (Quaternion.mk a b.x b.y b.z).conjugate).x
      (((Quaternion.mk a b.x b.y b.z).mul ⟨0, u.x, u.y, u.z⟩).mul
        (Quaternion.mk a b.x b.y b.z).conjugate).y
      (((Quaternion.mk a b.x b.y b.z).mul ⟨0, u.x, u.y, u.z⟩).mul
        (Quaternion.mk a b.x b.y b.z).conjugate).z).dot e
      = (a * a - b.squaredNorm) * u.dot e + 2 * b.dot u * b.dot e
        + 2 * a * (b.cross u).dot e := by
  constructor
  · simp only [Quaternion.mul, Quaternion.conjugate, Vec3.squaredNorm]; ring
  · simp only [Quaternion.mul, Quaternion.conjugate, Vec3.squaredNorm, Vec3.dot, Vec3.cross]; ring

theorem vec3_dot_normalized_eq_zero (sqrt : K → K) (a e : Vec3 K) (h : a.dot e = 0) :
    (a.normalized sqrt).dot e = 0 := by
  unfold Vec3.normalized
  split
  · have : (a.divS (sqrt a.squaredNorm)).dot e = a.dot e / sqrt a.squaredNorm := by
      simp only [Vec3.divS, Vec3.dot]; ring
    rw [this, h, zero_div]
  · exact h

/-- Non-negative numbers with equal squares are equal. -/
theorem eq_of_mul_self_eq {a b : K} (ha : 0 ≤ a) (hb : 0 ≤ b) (h : a * a = b * b) : a = b := by
  have h2 : (a - b) * (a + b) = 0 := by ring_nf; ring_nf at h; linarith
  rcases mul_eq_zero.mp h2 with h3 | h3
  · linarith
  · have ha0 : a = 0 := by linarith
    have hb0 : b = 0 := by linarith
    rw [ha0, hb0]

/-- The rotated vector of `rotateByQuat` is a unit vector, and it is
orthogonal to `e` when `kb` is and `(4 - |kb|²) u·e + 4 (kb × u)·e = 0`. -/
theorem rotateByQuat_spec {sqrt : K → K} (hs : ExactSqrt sqrt) (kb u e : Vec3 K)
    (hk : 0 < kb.squaredNorm) (hu : u.squaredNorm = 1) (hke : kb.dot e = 0)
    (hc : (4 - kb.squaredNorm) * u.dot e + 4 * (kb.cross u).dot e = 0) :
    (ElasticRod.rotateByQuat sqrt kb u).squaredNorm = 1
    ∧ (ElasticRod.rotateByQuat sqrt kb u).dot e = 0 := by
  obtain ⟨hσ0, hσ⟩ := hs kb.squaredNorm hk.le
  have hσp := hs.sqrt_pos hk
  have hs4 : 0 < kb.squaredNorm + 4 := by linarith
  obtain ⟨hc0, hcc⟩ := hs (4 / (kb.squaredNorm + 4)) (by positivity)
  obtain ⟨hn0, hnn⟩ := hs (kb.squaredNorm / (kb.squaredNorm + 4)) (by positivity)
  have hcn : sqrt (4 / (kb.squaredNorm + 4)) * sqrt (kb.squaredNorm / (kb.squaredNorm + 4))
      = 2 * sqrt kb.squaredNorm / (kb.squaredNorm + 4) := by
    apply eq_of_mul_self_eq (mul_nonneg hc0 hn0) (by positivity)
    have : sqrt (4 / (kb.squaredNorm + 4)) * sqrt (kb.squaredNorm / (kb.squaredNorm + 4))
        * (sqrt (4 / (kb.squaredNorm + 4)) * sqrt (kb.squaredNorm / (kb.squaredNorm + 4)))
        = (sqrt (4 / (kb.squaredNorm + 4)) * sqrt (4 / (kb.squaredNorm + 4)))
          * (sqrt (kb.squaredNorm / (kb.squaredNorm + 4))
            * sqrt (kb.squaredNorm / (kb.squaredNorm + 4))) := by ring
    rw [this, hcc, hnn]
    have : 2 * sqrt kb.squaredNorm / (kb.squaredNorm + 4)
        * (2 * sqrt kb.squaredNorm / (kb.squaredNorm + 4))
        = 4 * (sqrt kb.squaredNorm * sqrt kb.squaredNorm)
          / ((kb.squaredNorm + 4) * (kb.squaredNorm + 4)) := by
      field_simp; ring
    rw [this, hσ]
    field_simp
  set s := kb.squaredNorm with hsdef
  set σ := sqrt s with hσdef
  set c := sqrt (4 / (s + 4)) with hcdef
  set sn := sqrt (s / (s + 4)) with hsndef
  have hB : (⟨sn * (kb.normalized sqrt).x, sn * (kb.normalized sqrt).y,
      sn * (kb.normalized sqrt).z⟩ : Vec3 K) = (sn / σ) • kb := by
    rw [Vec3.normalized, if_pos hk]
    ext <;> simp [Vec3.divS] <;> ring
  have hτs : sn / σ * (sn / σ) * s = s / (s + 4) := by
    rw [← hnn, ← hσ]; field_simp
  have hcτ : c * (sn / σ) = 2 / (s + 4) := by
    rw [← mul_div_assoc, hcn]; field_simp; ring
  have hsand := quat_sandwich c ((sn / σ) • kb) u
  have hBsq : ((sn / σ) • kb).squaredNorm = s / (s + 4) := by
    rw [vec3_squaredNorm_smul, hτs]
  have hBe : ((sn / σ) • kb).dot e = 0 := by
    have : ((sn / σ) • kb).dot e = sn / σ * kb.dot e := by
      simp only [Vec3.dot, vec3_smul_def]; ring
    rw [this, hke, mul_zero]
  have hBx : (((sn / σ) • kb).cross u).dot e = sn / σ * (kb.cross u).dot e := by
    simp only [Vec3.dot, Vec3.cross, vec3_smul_def]; ring
  have hone : c * c + s / (s + 4) = 1 := by rw [hcc]; field_simp; ring
  have hW : ElasticRod.rotateByQuat sqrt kb u = (Vec3.mk
      (((Quaternion.mk c ((sn / σ) • kb).x ((sn / σ) • kb).y ((sn / σ) • kb).z).mul
        ⟨0, u.x, u.y, u.z⟩).mul
        (Quaternion.mk c ((sn / σ) • kb).x ((sn / σ) • kb).y ((sn / σ) • kb).z).conjugate).x
      (((Quaternion.mk c ((sn / σ) • kb).x ((sn / σ) • kb).y ((sn / σ) • kb).z).mul
        ⟨0, u.x, u.y, u.z⟩).mul
        (Quaternion.mk c ((sn / σ) • kb).x ((sn / σ) • kb).y ((sn / σ) • kb).z).conjugate).y
      (((Quaternion.mk c ((sn / σ) • kb).x ((sn / σ) • kb).y ((sn / σ) • kb).z).mul
        ⟨0, u.x, u.y, u.z⟩).mul
        (Quaternion.mk c ((sn / σ) • kb).x ((sn / σ) • kb).y ((sn / σ) • kb).z).conjugate).z).normalized
        sqrt := by
    rw [← hB]
    rfl
  rw [hW]
  have hsq := (hsand e).1
  have hdot := (hsand e).2
  rw [hBsq, hone, hu] at hsq
  constructor
  · apply vec3_squaredNorm_normalized hs
    intro h0
    rw [h0] at hsq
    simp [Vec3.squaredNorm] at hsq
  · apply vec3_dot_normalized_eq_zero
    rw [hdot, hBsq, hBe, hBx, hcc]
    have h1 : 2 * c * (sn / σ * (kb.cross u).dot e) = 2 * (c * (sn / σ)) * (kb.cross u).dot e := by
      ring
    rw [h1, hcτ]
    have h2 : (4 / (s + 4) - s / (s + 4)) * u.dot e + 2 * ((sn / σ) • kb).dot u * 0
        + 2 * (2 / (s + 4)) * (kb.cross u).dot e
        = ((4 - s) * u.dot e + 4 * (kb.cross u).dot e) / (s + 4) := by
      ring
    rw [h2, hc, zero_div]

/-- Lagrange's identity for the cross product. -/
theorem vec3_cross_squaredNorm (p e : Vec3 K) :
    (p.cross e).squaredNorm = p.squaredNorm * e.squaredNorm - p.dot e * p.dot e := by
  simp only [Vec3.cross, Vec3.squaredNorm, Vec3.dot]; ring

/-- For non-zero vectors that are not anti-parallel, the denominator
`|p| |e| + p·e` of the curvature binormal is positive. -/
theorem transport_denom_pos {sqrt : K → K} (hs : ExactSqrt sqrt) (p e : Vec3 K) (hp : p ≠ 0)
    (he : e ≠ 0) (hna : ¬ ∃ c : K, c < 0 ∧ e = c • p) :
    0 < p.norm sqrt * e.norm sqrt + p.dot e := by
  obtain ⟨hP0, hPP⟩ := vec3_norm_spec hs p
  obtain ⟨hE0, hEE⟩ := vec3_norm_spec hs e
  have hpp := vec3_squaredNorm_pos hp
  have hee := vec3_squaredNorm_pos he
  have hL := vec3_cross_squaredNorm p e
  have hN := vec3_squaredNorm_nonneg (p.cross e)
  have hPE : 0 ≤ p.norm sqrt * e.norm sqrt := mul_nonneg hP0 hE0
  have hPE2 : p.norm sqrt * e.norm sqrt * (p.norm sqrt * e.norm sqrt)
      = p.squaredNorm * e.squaredNorm := by rw [← hPP, ← hEE]; ring
  have hPEpos : 0 < p.norm sqrt * e.norm sqrt := by
    rcases hPE.lt_or_eq with h | h
    · exact h
    · rw [← h] at hPE2
      have := mul_pos hpp hee
      linarith
  have hge : 0 ≤ p.norm sqrt * e.norm sqrt + p.dot e := by
    by_contra h
    push_neg at h
    nlinarith
  rcases hge.lt_or_eq with h | h
  · exact h
  · exfalso
    have hd : p.dot e = -(p.norm sqrt * e.norm sqrt) := by linarith
    have hcross : (p.cross e).squaredNorm = 0 := by
      rw [hL, ← hPE2, hd]; ring
    have hz := vec3_squaredNorm_eq_zero hcross
    have hzx : p.y * e.z - p.z * e.y = 0 := congrArg Vec3.x hz
    have hzy : p.z * e.x - p.x * e.z = 0 := congrArg Vec3.y hz
    have hzz : p.x * e.y - p.y * e.x = 0 := congrArg Vec3.z hz
    apply hna
    refine ⟨p.dot e / p.squaredNorm, div_neg_of_neg_of_pos (by linarith) hpp, ?_⟩
    ext
    · show e.x = p.dot e / p.squaredNorm * p.x
      rw [div_mul_eq_mul_div, eq_div_iff hpp.ne.symm]
      simp only [Vec3.squaredNorm, Vec3.dot]
      linear_combination p.z * hzy - p.y * hzz
    · show e.y = p.dot e / p.squaredNorm * p.y
      rw [div_mul_eq_mul_div, eq_div_iff hpp.ne.symm]
      simp only [Vec3.squaredNorm, Vec3.dot]
      linear_combination p.x * hzz - p.z * hzx
    · show e.z = p.dot e / p.squaredNorm * p.z
      rw [div_mul_eq_mul_div, eq_div_iff hpp.ne.symm]
      simp only [Vec3.squaredNorm, Vec3.dot]
      linear_combination p.y * hzx - p.x * hzy

/-- The curvature binormal `kb = 2 p × e / (|p| |e| + p·e)` of the temporal
transport: its squared norm, and the two facts `rotateByQuat_spec` needs. -/
theorem transport_kb_spec {sqrt : K → K} (hs : ExactSqrt sqrt) (p e u : Vec3 K)
    (hD : 0 < p.norm sqrt * e.norm sqrt + p.dot e) (hup : u.dot p = 0) :
    (((2 : K) • p.cross e).divS (p.norm sqrt * e.norm sqrt + p.dot e)).squaredNorm
        * (p.norm sqrt * e.norm sqrt + p.dot e) = 4 * (p.norm sqrt * e.norm sqrt - p.dot e)
    ∧ (((2 : K) • p.cross e).divS (p.norm sqrt * e.norm sqrt + p.dot e)).dot e = 0
    ∧ (4 - (((2 : K) • p.cross e).divS (p.norm sqrt * e.norm sqrt + p.dot e)).squaredNorm)
          * u.dot e
        + 4 * ((((2 : K) • p.cross e).divS
          (p.norm sqrt * e.norm sqrt + p.dot e)).cross u).dot e = 0 := by
  obtain ⟨hP0, hPP⟩ := vec3_norm_spec hs p
  obtain ⟨hE0, hEE⟩ := vec3_norm_spec hs e
  have hPE2 : p.norm sqrt * e.norm sqrt * (p.norm sqrt * e.norm sqrt)
      = p.squaredNorm * e.squaredNorm := by rw [← hPP, ← hEE]; ring
  have hD0 := hD.ne.symm
  have hsq : (((2 : K) • p.cross e).divS (p.norm sqrt * e.norm sqrt + p.dot e)).squaredNorm
      = 4 * (p.norm sqrt * e.norm sqrt - p.dot e) / (p.norm sqrt * e.norm sqrt + p.dot e) := by
    rw [vec3_squaredNorm_divS, vec3_squaredNorm_smul, vec3_cross_squaredNorm, ← hPE2,
      div_eq_div_iff (mul_ne_zero hD0 hD0) hD0]
    ring
  have hke : (((2 : K) • p.cross e).divS (p.norm sqrt * e.norm sqrt + p.dot e)).dot e = 0 := by
    simp only [Vec3.divS, Vec3.dot, Vec3.cross, vec3_smul_def]; ring
  have hx : ((((2 : K) • p.cross e).divS (p.norm sqrt * e.norm sqrt + p.dot e)).cross u).dot e
      = 2 / (p.norm sqrt * e.norm sqrt + p.dot e)
        * (u.dot p * e.squaredNorm - p.dot e * u.dot e) := by
    simp only [Vec3.divS, Vec3.dot, Vec3.cross, vec3_smul_def, Vec3.squaredNorm]; ring
  refine ⟨?_, hke, ?_⟩
  · rw [hsq, div_mul_cancel₀ _ hD0]
  · rw [hx, hsq, hup]
    field_simp
    ring

/-- In the small-angle branch of `computeCosAndSin` the squared magnitude is below `4`. -/
theorem cos_small_branch {sqrt : K → K} (hs : ExactSqrt sqrt) {s : K} (hs0 : 0 ≤ s)
    (h : 1 - (ElasticRod.computeCosAndSin sqrt s).1 < 1 / 1000000) : s < 4 := by
  obtain ⟨hc0, hcc⟩ := hs (4 / (s + 4)) (by positivity)
  simp only [ElasticRod.computeCosAndSin] at h
  by_contra hge
  push_neg at hge
  have h1 : 4 / (s + 4) ≤ 1 / 2 := by
    rw [div_le_iff₀ (by linarith)]
    linarith
  nlinarith

/-- Outside the small-angle branch of `computeCosAndSin` the squared magnitude is positive. -/
theorem cos_large_branch {sqrt : K → K} (hs : ExactSqrt sqrt) {s : K} (hs0 : 0 ≤ s)
    (h : ¬ 1 - (ElasticRod.computeCosAndSin sqrt s).1 < 1 / 1000000) : 0 < s := by
  rcases hs0.lt_or_eq with h1 | h1
  · exact h1
  · exfalso
    apply h
    rw [← h1]
    simp only [ElasticRod.computeCosAndSin]
    have h4 : (4 : K) / (0 + 4) = 1 * 1 := by norm_num
    rw [h4, hs.sqrt_mul_self zero_le_one]
    norm_num

/-- The double cross product `(e × u) × e` normalised: a unit vector
orthogonal to `e`, when `u` is a unit vector orthogonal to some `p` with
`p·e ≠ 0`. -/
theorem doubleCross_spec {sqrt : K → K} (hs : ExactSqrt sqrt) (p e u : Vec3 K)
    (hu : u.squaredNorm = 1) (hup : u.dot p = 0) (hd : p.dot e ≠ 0) :
    (((e.cross u).cross e).normalized sqrt).squaredNorm = 1
    ∧ (((e.cross u).cross e).normalized sqrt).dot e = 0 := by
  have hp : p ≠ 0 := by
    intro h0
    apply hd
    rw [h0]
    simp [Vec3.dot]
  have hpp := vec3_squaredNorm_pos hp
  have hdd : 0 < p.dot e * p.dot e := mul_self_pos.mpr hd
  have ht := vec3_squaredNorm_nonneg
    (p.squaredNorm • e - (p.squaredNorm * e.dot u) • u - (p.dot e) • p)
  have hid : (p.squaredNorm • e - (p.squaredNorm * e.dot u) • u - (p.dot e) • p).squaredNorm
      = p.squaredNorm * (p.squaredNorm * (e.squaredNorm - e.dot u * e.dot u) - p.dot e * p.dot e)
        + p.squaredNorm * p.squaredNorm * (e.dot u * e.dot u) * (u.squaredNorm - 1)
        + 2 * p.squaredNorm * e.dot u * p.dot e * u.dot p := by
    simp only [Vec3.squaredNorm, Vec3.dot, vec3_smul_def, vec3_sub_def]; ring
  rw [hid, hu, hup] at ht
  have hgap : 0 < e.squaredNorm - e.dot u * e.dot u := by
    by_contra hle
    push_neg at hle
    have h1 : p.squaredNorm * (e.squaredNorm - e.dot u * e.dot u) ≤ 0 :=
      mul_nonpos_of_nonneg_of_nonpos hpp.le hle
    have h2 : p.squaredNorm * (p.squaredNorm * (e.squaredNorm - e.dot u * e.dot u)
        - p.dot e * p.dot e) < 0 := mul_neg_of_pos_of_neg hpp (by linarith)
    linarith
  have hee : 0 < e.squaredNorm := by
    have := mul_self_nonneg (e.dot u)
    linarith
  have hW : ((e.cross u).cross e).squaredNorm
      = e.squaredNorm * (e.squaredNorm * u.squaredNorm - e.dot u * e.dot u) := by
    simp only [Vec3.squaredNorm, Vec3.dot, Vec3.cross]; ring
  have hWe : ((e.cross u).cross e).dot e = 0 := by
    simp only [Vec3.dot, Vec3.cross]; ring
  constructor
  · apply vec3_squaredNorm_normalized hs
    intro h0
    rw [h0, hu, mul_one] at hW
    have hz : (0 : Vec3 K).squaredNorm = 0 := by simp [Vec3.squaredNorm]
    have := mul_pos hee hgap
    rw [hz] at hW
    linarith
  · exact vec3_dot_normalized_eq_zero sqrt _ _ hWe

theorem vec3_cross_self (a : Vec3 K) : a.cross a = 0 := by
  ext <;> simp [Vec3.cross] <;> ring

/-- An index at or beyond the upper bound clamps to the upper bound. -/
theorem clampInt_of_ge (v lo hi : Int) (h : lo ≤ hi) (hv : hi ≤ v) : clampInt v lo hi = hi := by
  unfold clampInt
  split_ifs <;> omega

namespace ElasticRod

/-- The accessors depend on the index through its clamp only. -/
theorem edge_congr (r : ElasticRod K) (i j : Int)
    (h : clampInt i 0 ((r.x.length : Int) - 2) = clampInt j 0 ((r.x.length : Int) - 2)) :
    r.edge i = r.edge j ∧ r.initEdge i = r.initEdge j := by
  simp only [edge, initEdge, h, and_self]

theorem kappaBDenom_congr (sqrt : K → K) (r : ElasticRod K) (i j : Int)
    (h1 : clampInt i 0 ((r.x.length : Int) - 2) = clampInt j 0 ((r.x.length : Int) - 2))
    (h2 : clampInt (i - 1) 0 ((r.x.length : Int) - 2)
      = clampInt (j - 1) 0 ((r.x.length : Int) - 2)) :
    r.kappaBDenom sqrt i = r.kappaBDenom sqrt j := by
  simp only [kappaBDenom, (edge_congr r i j h1).1, (edge_congr r i j h1).2,
    (edge_congr r (i - 1) (j - 1) h2).1, (edge_congr r (i - 1) (j - 1) h2).2]

/-- A rod is regular when the divisors are non-zero at the indices `0..n-1`:
the accessors clamp every other index onto one of these. -/
theorem regular_of_range (sqrt : K → K) (r : ElasticRod K) (hn : 2 ≤ r.x.length)
    (h : ∀ k : Nat, k < r.x.length → (r.initEdge k).norm sqrt ≠ 0 ∧ (r.edge k).norm sqrt ≠ 0
      ∧ r.kappaBDenom sqrt k ≠ 0) : r.Regular sqrt := by
  intro i
  have key : ∃ k : Nat, k < r.x.length
      ∧ clampInt i 0 ((r.x.length : Int) - 2) = clampInt k 0 ((r.x.length : Int) - 2)
      ∧ clampInt (i - 1) 0 ((r.x.length : Int) - 2)
        = clampInt ((k : Int) - 1) 0 ((r.x.length : Int) - 2) := by
    by_cases h0 : i < 0
    · refine ⟨0, by omega, ?_, ?_⟩ <;> (unfold clampInt; split_ifs <;> omega)
    · by_cases h1 : i < (r.x.length : Int)
      · exact ⟨i.toNat, by omega, by rw [Int.toNat_of_nonneg (by omega)],
          by rw [Int.toNat_of_nonneg (by omega)]⟩
      · refine ⟨r.x.length - 1, by omega, ?_, ?_⟩ <;> (unfold clampInt; split_ifs <;> omega)
  obtain ⟨k, hk, c1, c2⟩ := key
  obtain ⟨a, b, c⟩ := h k hk
  rw [(edge_congr r i k c1).1, (edge_congr r i k c1).2, kappaBDenom_congr sqrt r i k c1 c2]
  exact ⟨a, b, c⟩

end ElasticRod

theorem vec3_dot_self (a : Vec3 K) : a.dot a = a.squaredNorm := rfl

/-- The state the constructor leaves for the hook-shaped vertices. -/
theorem hookRod_state (sqrt : K → K) :
    (hookRod sqrt).x.length = 3 ∧ (hookRod sqrt).xRest = hookVerts
    ∧ (hookRod sqrt).e = [⟨0, 1, 0⟩, ⟨1, 0, 0⟩] := by
  refine ⟨?_, ?_, ?_⟩ <;>
    norm_num [hookRod, ElasticRod.ofVerts, ElasticRod.init, ElasticRod.reset,
      ElasticRod.compMatFrames, ElasticRod.compBishopFrames, ElasticRod.refreshEdges, hookVerts,
      resize, ElasticRod.empty, forLoop, vec3_zero_eq, List.replicate]

/-- The state `reset` leaves on the rod constructed from the hook-shaped vertices. -/
theorem hookRod_reset_state (sqrt : K → K) :
    ((hookRod sqrt).reset sqrt).x.length = 3 ∧ ((hookRod sqrt).reset sqrt).xRest = hookVerts
    ∧ ((hookRod sqrt).reset sqrt).e = [⟨0, 1, 0⟩, ⟨1, 0, 0⟩] := by
  refine ⟨?_, ?_, ?_⟩ <;>
    norm_num [hookRod, ElasticRod.ofVerts, ElasticRod.init, ElasticRod.reset,
      ElasticRod.compMatFrames, ElasticRod.compBishopFrames, ElasticRod.refreshEdges, hookVerts,
      resize, ElasticRod.empty, forLoop, vec3_zero_eq, List.replicate]

/-- The state the constructor leaves for `cornerVerts`. -/
theorem cornerRod_state (sqrt : K → K) :
    (cornerRod sqrt).x.length = 4 ∧ (cornerRod sqrt).xRest = cornerVerts
    ∧ (cornerRod sqrt).e = [⟨0, 1, 0⟩, ⟨0, 0, 1⟩, ⟨1, 0, 0⟩] := by
  refine ⟨?_, ?_, ?_⟩ <;>
    norm_num [cornerRod, ElasticRod.ofVerts, ElasticRod.init, ElasticRod.reset,
      ElasticRod.compMatFrames, ElasticRod.compBishopFrames, ElasticRod.refreshEdges, cornerVerts,
      resize, ElasticRod.empty, forLoop, vec3_zero_eq, List.replicate]

/-- A three-vertex rod over the reals with the rest positions `hookVerts` and
the edges of the hook has no zero divisor. -/
theorem regular_of_hook_shape (r : ElasticRod ℝ) (hx : r.x.length = 3)
    (hR : r.xRest = hookVerts) (he : r.e = [⟨0, 1, 0⟩, ⟨1, 0, 0⟩]) : r.Regular Real.sqrt := by
  have ht1 : Int.toNat 1 = 1 := rfl
  have ht2 : Int.toNat 2 = 2 := rfl
  apply ElasticRod.regular_of_range Real.sqrt r (by omega)
  intro k hk
  rw [hx] at hk
  interval_cases k <;>
    norm_num [ElasticRod.kappaBDenom, ElasticRod.edge, ElasticRod.initEdge, hx, hR, he, hookVerts,
      clampInt, Vec3.norm, Vec3.squaredNorm, Vec3.dot, ht1, ht2]

theorem kinkedRod_regular : (kinkedRod : ElasticRod ℝ).Regular Real.sqrt := by
  have ht1 : Int.toNat 1 = 1 := rfl
  have ht2 : Int.toNat 2 = 2 := rfl
  apply ElasticRod.regular_of_range Real.sqrt _ (by simp [kinkedRod])
  intro k hk
  have hk3 : k < 3 := hk
  interval_cases k <;>
    norm_num [ElasticRod.kappaBDenom, ElasticRod.edge, ElasticRod.initEdge, kinkedRod,
      clampInt, Vec3.norm, Vec3.squaredNorm, Vec3.dot, ht1, ht2]

theorem cornerRod_regular : (cornerRod Real.sqrt).Regular Real.sqrt := by
  have ht1 : Int.toNat 1 = 1 := rfl
  have ht2 : Int.toNat 2 = 2 := rfl
  have ht3 : Int.toNat 3 = 3 := rfl
  obtain ⟨hx, hR, he⟩ := @cornerRod_state ℝ _ Real.sqrt
  apply ElasticRod.regular_of_range Real.sqrt _ (by omega)
  intro k hk
  rw [hx] at hk
  interval_cases k <;>
    norm_num [ElasticRod.kappaBDenom, ElasticRod.edge, ElasticRod.initEdge, hx, hR, he,
      cornerVerts, clampInt, Vec3.norm, Vec3.squaredNorm, Vec3.dot, ht1, ht2, ht3]

end Lemmas

/-! ## Claims -/

section Claims

variable {K : Type} [LinearOrderedField K]

open ElasticRod

/-! ### C1: inextensibility after `enforceConstraints` -/

/-- C1 (as amended): with an exact square root, for a rod with at least two
vertices, any `dt` and any collider list, after `enforceConstraints` the root
is at its rest position, and each segment `i` in `1..n-1` has its rest length
provided that the position of vertex `i` after the collision pass differs from
the corrected position of vertex `i-1` (the direction of that segment is then
defined). -/
theorem enforceConstraints_inextensible (sqrt : K → K) (hs : ExactSqrt sqrt) (r : ElasticRod K)
    (dt : K) (cs : List (Collider K)) (hn : 2 ≤ r.x.length) :
    (r.enforceConstraints sqrt dt cs).x.getD 0 0 = (r.enforceConstraints sqrt dt cs).xRest.getD 0 0
    ∧ ∀ i, 1 ≤ i → i < r.x.length →
      (r.handleCollisions cs).x.getD i 0 ≠ (r.enforceConstraints sqrt dt cs).x.getD (i - 1) 0 →
      ((r.enforceConstraints sqrt dt cs).x.getD i 0
        - (r.enforceConstraints sqrt dt cs).x.getD (i - 1) 0).norm sqrt
      = ((r.enforceConstraints sqrt dt cs).xRest.getD i 0
        - (r.enforceConstraints sqrt dt cs).xRest.getD (i - 1) 0).norm sqrt := by
  have hR : (r.enforceConstraints sqrt dt cs).xRest = r.xRest := rfl
  have hlen : ((r.handleCollisions cs).x.set 0 (r.xRest.getD 0 0)).length = r.x.length := by
    rw [List.length_set, handleCollisions_length]
  have hx := enforceConstraints_x sqrt r dt cs
  obtain ⟨_, h0, _, hin⟩ := sweep_spec sqrt (r.handleCollisions cs)
    ((r.handleCollisions cs).x.set 0 (r.xRest.getD 0 0)) (r.x.length - 1) (by rw [hlen]; omega)
  simp only [← hx] at h0 hin
  rw [hR]
  refine ⟨?_, ?_⟩
  · rw [h0]
    exact getD_set_self _ _ _ _ (by rw [handleCollisions_length]; omega)
  · intro i h1 h2 hnd
    have hi := hin i h1 (by omega)
    have hy : ((r.handleCollisions cs).x.set 0 (r.xRest.getD 0 0)).getD i 0
        = (r.handleCollisions cs).x.getD i 0 := getD_set_ne _ _ _ _ _ (by omega)
    rw [hy] at hi
    have hIE : (r.handleCollisions cs).initEdge ((i : Int) - 1)
        = r.xRest.getD i 0 - r.xRest.getD (i - 1) 0 :=
      initEdge_pred (r.handleCollisions cs) i h1 (by rw [handleCollisions_length]; exact h2)
    rw [hi, vec3_add_sub_cancel_left, hIE]
    apply vec3_norm_smul_normalized hs
    · intro h
      apply hnd
      have : (r.handleCollisions cs).x.getD i 0
          - (r.enforceConstraints sqrt dt cs).x.getD (i - 1) 0 = 0 := h
      rw [Vec3.ext_iff] at this ⊢
      simp only [vec3_sub_def, vec3_zero_x, vec3_zero_y, vec3_zero_z] at this
      exact ⟨by linarith [this.1], by linarith [this.2.1], by linarith [this.2.2]⟩
    · exact (hs _ (vec3_squaredNorm_nonneg _)).1

/-- Witness for C1 (as amended), over the reals with no colliders: on the bent
three-vertex rod every segment gets its rest length; on the half-collapsed
rod, whose middle vertex sits on the root, the root is pinned and segment 2
gets its rest length although segment 1 has no direction. -/
theorem enforceConstraints_inextensible_witness :
    (∀ i, 1 ≤ i → i < (bentRod : ElasticRod ℝ).x.length →
      (((bentRod : ElasticRod ℝ).enforceConstraints Real.sqrt 1 []).x.getD i 0
        - ((bentRod : ElasticRod ℝ).enforceConstraints Real.sqrt 1 []).x.getD (i - 1) 0).norm
          Real.sqrt
      = (((bentRod : ElasticRod ℝ).enforceConstraints Real.sqrt 1 []).xRest.getD i 0
        - ((bentRod : ElasticRod ℝ).enforceConstraints Real.sqrt 1 []).xRest.getD (i - 1) 0).norm
          Real.sqrt)
    ∧ ((halfCollapsedRod : ElasticRod ℝ).enforceConstraints Real.sqrt 1 []).x.getD 0 0
      = ((halfCollapsedRod : ElasticRod ℝ).enforceConstraints Real.sqrt 1 []).xRest.getD 0 0
    ∧ (((halfCollapsedRod : ElasticRod ℝ).enforceConstraints Real.sqrt 1 []).x.getD 2 0
        - ((halfCollapsedRod : ElasticRod ℝ).enforceConstraints Real.sqrt 1 []).x.getD (2 - 1)
            0).norm Real.sqrt
      = (((halfCollapsedRod : ElasticRod ℝ).enforceConstraints Real.sqrt 1 []).xRest.getD 2 0
        - ((halfCollapsedRod : ElasticRod ℝ).enforceConstraints Real.sqrt 1 []).xRest.getD
            (2 - 1) 0).norm Real.sqrt := by
  have hb := enforceConstraints_inextensible Real.sqrt exactSqrt_real (bentRod : ElasticRod ℝ) 1 []
    (by simp [bentRod])
  have hc := enforceConstraints_inextensible Real.sqrt exactSqrt_real
    (halfCollapsedRod : ElasticRod ℝ) 1 [] (by simp [halfCollapsedRod])
  refine ⟨?_, hc.1, ?_⟩
  · intro i h1 h2
    apply hb.2 i h1 h2
    have h3 : i < 3 := h2
    have hi : i = 1 ∨ i = 2 := by omega
    rcases hi with rfl | rfl
    · simp [ElasticRod.enforceConstraints, ElasticRod.enforceSweep, ElasticRod.handleCollisions,
        bentRod, forLoop_two, forLoop_zero, ElasticRod.sweepStep, Vec3.normalized,
        Vec3.squaredNorm, Vec3.norm, vec3_zero_eq]
    · simp [ElasticRod.enforceConstraints, ElasticRod.enforceSweep, ElasticRod.handleCollisions,
        bentRod, forLoop_two, forLoop_zero, ElasticRod.sweepStep, Vec3.normalized,
        Vec3.squaredNorm, Vec3.norm, vec3_zero_eq, Vec3.divS, ElasticRod.initEdge, clampInt]
  · apply hc.2 2 (by norm_num) (by simp [halfCollapsedRod])
    simp [ElasticRod.enforceConstraints, ElasticRod.enforceSweep, ElasticRod.handleCollisions,
      halfCollapsedRod, forLoop_two, forLoop_zero, ElasticRod.sweepStep, Vec3.normalized,
      Vec3.squaredNorm, Vec3.norm, vec3_zero_eq, Vec3.divS, ElasticRod.initEdge, clampInt]

/-- Counterexample to C1 as stated: for the two-vertex rod whose free vertex
sits on the root (rest length 1), with no colliders, `enforceConstraints`
leaves the segment with length 0: the normalised zero vector is the zero
vector. -/
theorem enforceConstraints_collapsed_counterexample :
    2 ≤ (collapsedRod : ElasticRod ℝ).x.length ∧
    ¬ (((collapsedRod : ElasticRod ℝ).enforceConstraints Real.sqrt 1 []).x.getD 0 0
        = ((collapsedRod : ElasticRod ℝ).enforceConstraints Real.sqrt 1 []).xRest.getD 0 0
      ∧ ∀ i, 1 ≤ i → i < (collapsedRod : ElasticRod ℝ).x.length →
        (((collapsedRod : ElasticRod ℝ).enforceConstraints Real.sqrt 1 []).x.getD i 0
          - ((collapsedRod : ElasticRod ℝ).enforceConstraints Real.sqrt 1 []).x.getD (i - 1) 0).norm
            Real.sqrt
        = (((collapsedRod : ElasticRod ℝ).enforceConstraints Real.sqrt 1 []).xRest.getD i 0
          - ((collapsedRod : ElasticRod ℝ).enforceConstraints Real.sqrt 1 []).xRest.getD (i - 1)
              0).norm Real.sqrt) := by
  refine ⟨by simp [collapsedRod], ?_⟩
  rintro ⟨-, h⟩
  have h1 := h 1 le_rfl (by simp [collapsedRod])
  simp [ElasticRod.enforceConstraints, ElasticRod.enforceSweep, ElasticRod.handleCollisions,
    collapsedRod, forLoop_one, forLoop_zero, ElasticRod.sweepStep, Vec3.normalized,
    Vec3.squaredNorm, Vec3.norm, vec3_zero_eq] at h1

/-! ### C2: the root is pinned -/

/-- C2: the root pin `x[0] == xRest[0]` holds after `init` (for at least two
vertices) and after `reset` (for at least two rest positions), whatever the
state before; each of `integrateFwEuler`, `handleCollisions` and
`updateAllVelocitiesFromVoxels` leaves `x[0]` and `xRest` as they are, so it
preserves the pin; `enforceConstraints` leaves `xRest` as it is and sets
`x[0]` to `xRest[0]`.  (`setVoxelContributions` writes to the grid only: its
model has no rod output.) -/
theorem root_pinned (sqrt : K → K) (P : Params K) (r : ElasticRod K) (dt : K)
    (cs : List (Collider K)) (g : VoxelGrid K) (verts : List (Vec3 K)) :
    (2 ≤ verts.length →
      (r.init sqrt verts).x.getD 0 0 = (r.init sqrt verts).xRest.getD 0 0)
    ∧ (2 ≤ r.xRest.length →
      (r.reset sqrt).x.getD 0 0 = (r.reset sqrt).xRest.getD 0 0
      ∧ (r.reset sqrt).xRest = r.xRest)
    ∧ ((r.integrateFwEuler sqrt P dt).x.getD 0 0 = r.x.getD 0 0
      ∧ (r.integrateFwEuler sqrt P dt).xRest = r.xRest
      ∧ (r.x.getD 0 0 = r.xRest.getD 0 0 →
        (r.integrateFwEuler sqrt P dt).x.getD 0 0
          = (r.integrateFwEuler sqrt P dt).xRest.getD 0 0))
    ∧ ((r.handleCollisions cs).x.getD 0 0 = r.x.getD 0 0
      ∧ (r.handleCollisions cs).xRest = r.xRest
      ∧ (r.x.getD 0 0 = r.xRest.getD 0 0 →
        (r.handleCollisions cs).x.getD 0 0 = (r.handleCollisions cs).xRest.getD 0 0))
    ∧ ((r.enforceConstraints sqrt dt cs).xRest = r.xRest
      ∧ (0 < r.x.length →
        (r.enforceConstraints sqrt dt cs).x.getD 0 0
          = (r.enforceConstraints sqrt dt cs).xRest.getD 0 0))
    ∧ ((updateAllVelocitiesFromVoxels P r g).x = r.x
      ∧ (updateAllVelocitiesFromVoxels P r g).xRest = r.xRest
      ∧ (r.x.getD 0 0 = r.xRest.getD 0 0 →
        (updateAllVelocitiesFromVoxels P r g).x.getD 0 0
          = (updateAllVelocitiesFromVoxels P r g).xRest.getD 0 0)) := by
  obtain ⟨i1, i2, _⟩ := integrateFwEuler_frame sqrt P r dt
  obtain ⟨u1, u2, _⟩ := updateAllVelocitiesFromVoxels_frame P r g
  have hc := handleCollisions_root r cs
  have hR : (r.handleCollisions cs).xRest = r.xRest := rfl
  have hE : (r.enforceConstraints sqrt dt cs).xRest = r.xRest := rfl
  refine ⟨fun _ => by rw [init_x_eq_xRest],
    fun _ => ⟨by rw [reset_x, reset_xRest], reset_xRest sqrt r⟩,
    ⟨i2, i1, fun h => by rw [i1, i2, h]⟩, ⟨hc, hR, fun h => by rw [hR, hc, h]⟩,
    ⟨hE, fun hn => by rw [hE]; exact enforceConstraints_root sqrt r dt cs hn⟩,
    ⟨u2, u1, fun h => by rw [u1, u2, h]⟩⟩

/-- Witness for C2, over the reals: the rod the constructor builds from the
hook-shaped vertices (`init` on the empty rod) is pinned; so is that rod after
a further `reset`, an integration step and a constraint pass. -/
theorem root_pinned_witness :
    ((hookRod Real.sqrt).x.getD 0 0 = (hookRod Real.sqrt).xRest.getD 0 0)
    ∧ (((hookRod Real.sqrt).reset Real.sqrt).x.getD 0 0
      = ((hookRod Real.sqrt).reset Real.sqrt).xRest.getD 0 0)
    ∧ (((hookRod Real.sqrt).integrateFwEuler Real.sqrt Params.initial 1).x.getD 0 0
      = ((hookRod Real.sqrt).integrateFwEuler Real.sqrt Params.initial 1).xRest.getD 0 0)
    ∧ (((hookRod Real.sqrt).enforceConstraints Real.sqrt 1 []).x.getD 0 0
      = ((hookRod Real.sqrt).enforceConstraints Real.sqrt 1 []).xRest.getD 0 0) := by
  have hi := (root_pinned Real.sqrt Params.initial (ElasticRod.empty : ElasticRod ℝ) 1 []
    unitGrid hookVerts).1 (by simp [hookVerts])
  have h := root_pinned Real.sqrt Params.initial (hookRod Real.sqrt) 1 [] unitGrid []
  obtain ⟨hx, hR, _⟩ := @hookRod_state ℝ _ Real.sqrt
  exact ⟨hi, (h.2.1 (by rw [hR]; simp [hookVerts])).1, h.2.2.1.2.2 hi,
    h.2.2.2.2.1.2 (by
      have : 0 < (hookRod Real.sqrt).x.length := by rw [hx]; norm_num
      exact this)⟩

/-! ### C3: no bending force at rest -/

/-- C3: immediately after `reset()`, for a rod with `n ≥ 2` vertices (whose
`omega0` has the `n` entries `init` allocates) that `reset` leaves in a state
with no zero divisor (non-zero rest edges, non-zero `kappaB` denominators),
every curvature difference `omega(kappaB(k),k,j) - omega0[k][j-k+1]` with `k`
in `1..n-2` and `j` in `{k-1,k}` is zero, and `force(i)` is the zero vector
for every `i` in `1..n-1`. -/
theorem reset_force_zero (sqrt : K → K) (P : Params K) (r : ElasticRod K)
    (ho : r.omega0.length = r.xRest.length) :
    2 ≤ r.xRest.length → (r.reset sqrt).Regular sqrt →
    (∀ k : Nat, 1 ≤ k → k + 2 ≤ r.xRest.length → ∀ j : Int, j = (k : Int) - 1 ∨ j = k →
      (r.reset sqrt).omega ((r.reset sqrt).kappaB sqrt k) k j
        - arrayGet ((r.reset sqrt).omega0.getD k default) (j - k + 1) = 0)
    ∧ (∀ i : Nat, 1 ≤ i → i < r.xRest.length → (r.reset sqrt).force sqrt P i = 0) := by
  intro _ _
  have key : ∀ k : Nat, 1 ≤ k → k + 2 ≤ r.xRest.length → ∀ j : Int, j = (k : Int) - 1 ∨ j = k →
      (r.reset sqrt).omega ((r.reset sqrt).kappaB sqrt k) k j
        - arrayGet ((r.reset sqrt).omega0.getD k default) (j - k + 1) = 0 := by
    intro k h1 h2 j hj
    rw [reset_omega0 sqrt r k h1 h2 (by omega)]
    rcases hj with rfl | rfl
    · have e : ((k : Int) - 1 - k + 1 = 0) := by omega
      simp only [arrayGet, e, if_true]
      exact @vec2_sub_self K _ _
    · have e : ¬ ((k : Int) - k + 1 = 0) := by omega
      simp only [arrayGet, e, if_false]
      exact @vec2_sub_self K _ _
  refine ⟨key, ?_⟩
  intro i _ _
  have hz : (r.reset sqrt).dEdXSum sqrt P i = 0 := by
    apply dEdXSum_eq_zero
    intro k h1 h2
    have h2' : k + 2 ≤ r.xRest.length := h2
    exact ⟨by simpa using key k h1 h2' _ (Or.inl rfl), by simpa using key k h1 h2' _ (Or.inr rfl)⟩
  simp only [force, dEdX, hz]
  have : ¬ ((0 : Vec3 K).squaredNorm > P.maxForce * P.maxForce) := by
    simp [Vec3.squaredNorm, vec3_zero_eq, mul_self_nonneg]
  rw [if_neg this]
  ext <;> simp

/-- Witness for C3: the rod constructed from the hook-shaped vertices, over
the reals: unit rest edges at a right angle, every denominator `1` or `2`. -/
theorem reset_force_zero_witness :
    (∀ k : Nat, 1 ≤ k → k + 2 ≤ (hookRod Real.sqrt).xRest.length →
      ∀ j : Int, j = (k : Int) - 1 ∨ j = k →
      ((hookRod Real.sqrt).reset Real.sqrt).omega
          (((hookRod Real.sqrt).reset Real.sqrt).kappaB Real.sqrt k) k j
        - arrayGet (((hookRod Real.sqrt).reset Real.sqrt).omega0.getD k
            default) (j - k + 1) = 0)
    ∧ (∀ i : Nat, 1 ≤ i → i < (hookRod Real.sqrt).xRest.length →
      ((hookRod Real.sqrt).reset Real.sqrt).force Real.sqrt
        Params.initial i = 0) :=
  reset_force_zero Real.sqrt Params.initial (hookRod Real.sqrt)
    (by rw [hookRod, ofVerts, (init_sizes Real.sqrt empty hookVerts).2.1,
      (init_sizes Real.sqrt empty hookVerts).2.2.2])
    (by rw [hookRod, ofVerts, (init_sizes Real.sqrt empty hookVerts).2.1]; simp [hookVerts])
    (regular_of_hook_shape _ (hookRod_reset_state Real.sqrt).1 (hookRod_reset_state Real.sqrt).2.1
      (hookRod_reset_state Real.sqrt).2.2)

/-! ### C4: the force clamp -/

/-- C4: with an exact square root and `maxForce ≥ 0`, for every rod state with
no zero divisor and every `i` the vector returned by `dEdX(i)` has norm at
most `maxForce`; and when the accumulated vector `f` has `|f| > maxForce` the
result has norm exactly `maxForce`, equals `-(f/|f|)*maxForce`, and is a
non-negative multiple of the unclamped force `-f`. -/
theorem dEdX_clamped (sqrt : K → K) (hs : ExactSqrt sqrt) (P : Params K) (hM : 0 ≤ P.maxForce)
    (r : ElasticRod K) (i : Int) :
    r.Regular sqrt →
    (r.dEdX sqrt P i).norm sqrt ≤ P.maxForce
    ∧ (P.maxForce < (r.dEdXSum sqrt P i).norm sqrt →
      (r.dEdX sqrt P i).norm sqrt = P.maxForce
      ∧ r.dEdX sqrt P i
          = -(P.maxForce • (r.dEdXSum sqrt P i).divS ((r.dEdXSum sqrt P i).norm sqrt))
      ∧ ∃ c : K, 0 ≤ c ∧ r.dEdX sqrt P i = c • (-(r.dEdXSum sqrt P i))) :=
  fun _ => clamp_spec hs hM (r.dEdXSum sqrt P i)

/-- Witness for C4: the kinked rod over the reals with the force limit
`1/100`, at the bent vertex `i = 1`: the accumulated vector is
`f = (-3/125, 3/125, 0)`, longer than the limit, so the clamp acts and the
result has norm exactly `1/100`. -/
theorem dEdX_clamped_witness :
    (kinkedRod : ElasticRod ℝ).dEdXSum Real.sqrt lowLimitParams 1 = ⟨-3 / 125, 3 / 125, 0⟩
    ∧ (lowLimitParams : Params ℝ).maxForce
        < ((kinkedRod : ElasticRod ℝ).dEdXSum Real.sqrt lowLimitParams 1).norm Real.sqrt
    ∧ ((kinkedRod : ElasticRod ℝ).dEdX Real.sqrt lowLimitParams 1).norm Real.sqrt
        = (lowLimitParams : Params ℝ).maxForce
    ∧ (kinkedRod : ElasticRod ℝ).dEdX Real.sqrt lowLimitParams 1
        = -((lowLimitParams : Params ℝ).maxForce
          • ((kinkedRod : ElasticRod ℝ).dEdXSum Real.sqrt lowLimitParams 1).divS
            (((kinkedRod : ElasticRod ℝ).dEdXSum Real.sqrt lowLimitParams 1).norm Real.sqrt)) := by
  have ht0 : Int.toNat 0 = 0 := rfl
  have ht1 : Int.toNat 1 = 1 := rfl
  have ht2 : Int.toNat 2 = 2 := rfl
  have hdef : (default : Vec2 ℝ × Vec2 ℝ) = (⟨0, 0⟩, ⟨0, 0⟩) := rfl
  have hf : (kinkedRod : ElasticRod ℝ).dEdXSum Real.sqrt lowLimitParams 1
      = ⟨-3 / 125, 3 / 125, 0⟩ := by
    norm_num [hdef, dEdXSum, dEdXTerm, omegaGrad, omega, kappaBGrad, kappaB, gradHolonomy, initEdgeLen,
      arrayGet, edge, initEdge, kinkedRod, lowLimitParams, Params.initial, clampInt, skew, J,
      forLoop, Vec3.norm, Vec3.squaredNorm, Vec3.dot, Vec3.cross, Vec3.divS, Vec3.outer,
      Vec2.outer, Mat3.divS, Mat23.mulMat3, Mat23.transpose, Mat32.mulMat2, Mat32.mulVec,
      Mat2.scaledIdentity, Mat2.mulVec, Vec3.mulMat, Vec2.mulMat, Vec2.dot, mat3_add_def,
      mat3_neg_def, mat3_sub_def, mat3_smul_def, mat23_sub_def, vec3_zero_eq, ht0, ht1, ht2]
  have hlt : (lowLimitParams : Params ℝ).maxForce
      < ((kinkedRod : ElasticRod ℝ).dEdXSum Real.sqrt lowLimitParams 1).norm Real.sqrt := by
    rw [hf, Vec3.norm, Real.lt_sqrt (by norm_num [lowLimitParams])]
    norm_num [lowLimitParams, Vec3.squaredNorm]
  have h := dEdX_clamped Real.sqrt exactSqrt_real lowLimitParams (by norm_num [lowLimitParams])
    (kinkedRod : ElasticRod ℝ) 1 kinkedRod_regular
  exact ⟨hf, hlt, (h.2 hlt).1, (h.2 hlt).2.1⟩

/-! ### C5: frame orthonormality -/

/-- C5 (the code at the failing input): for the rod constructed from three
vertices on the x axis, `reset()` seeds `u0` with
`edge(0).cross(UnitX).cross(edge(0)).normalized()`, which is the zero vector,
so the Bishop frames of both edges are `(0, 0)` and `|u_i| = 0`, not `1`. -/
theorem reset_frames_on_x_axis :
    (ofVerts Real.sqrt (xAxisVerts : List (Vec3 ℝ))).u0 = 0
    ∧ (ofVerts Real.sqrt (xAxisVerts : List (Vec3 ℝ))).bishopFrames.getD 0 default = ⟨0, 0⟩
    ∧ (ofVerts Real.sqrt (xAxisVerts : List (Vec3 ℝ))).bishopFrames.getD 1 default = ⟨0, 0⟩
    ∧ (((ofVerts Real.sqrt (xAxisVerts : List (Vec3 ℝ))).bishopFrames.getD 0 default).u.norm
        Real.sqrt = 0)
    ∧ (((ofVerts Real.sqrt (xAxisVerts : List (Vec3 ℝ))).bishopFrames.getD 0 default).u.norm
        Real.sqrt ≠ 1) := by
  have hu : (ofVerts Real.sqrt (xAxisVerts : List (Vec3 ℝ))).u0 = 0 := by
    simp [ofVerts, init, reset, compMatFrames, compBishopFrames, refreshEdges, xAxisVerts, resize,
      ElasticRod.empty, forLoop, edge, clampInt, Vec3.cross, Vec3.normalized, Vec3.squaredNorm,
      vec3_zero_eq]
  have h0 : (ofVerts Real.sqrt (xAxisVerts : List (Vec3 ℝ))).bishopFrames.getD 0 default
      = ⟨0, 0⟩ := by
    simp [ofVerts, init, reset, compMatFrames, compBishopFrames, refreshEdges, xAxisVerts, resize,
      ElasticRod.empty, forLoop, edge, clampInt, Vec3.cross, Vec3.normalized, Vec3.squaredNorm,
      vec3_zero_eq, bishopStep, computeCosAndSin, kappaB, initEdge, Vec3.divS, Vec3.norm,
      Vec3.dot]
  have h1 : (ofVerts Real.sqrt (xAxisVerts : List (Vec3 ℝ))).bishopFrames.getD 1 default
      = ⟨0, 0⟩ := by
    simp [ofVerts, init, reset, compMatFrames, compBishopFrames, refreshEdges, xAxisVerts, resize,
      ElasticRod.empty, forLoop, edge, clampInt, Vec3.cross, Vec3.normalized, Vec3.squaredNorm,
      vec3_zero_eq, bishopStep, computeCosAndSin, kappaB, initEdge, Vec3.divS, Vec3.norm,
      Vec3.dot]
  refine ⟨hu, h0, h1, ?_, ?_⟩
  · rw [h0]; simp [Vec3.norm, Vec3.squaredNorm, vec3_zero_eq]
  · rw [h0]; simp [Vec3.norm, Vec3.squaredNorm, vec3_zero_eq]

/-! ### C6: a straight rod has no curvature and one frame -/

/-- C6: if every current edge of the rod is a multiple of one direction `d`
(the rod is straight; the rest edges enter through the denominators only),
then `kappaB(i) = 0` for every `i` at which it is defined (`i = 0`, or a
non-zero denominator): its numerator, the cross product of two adjacent edges,
is zero.  And, given `sqrt 1 = 1`, a frame vector with an entry for every edge
and non-zero denominators at the interior vertices, `compBishopFrames` keeps
the length of the frame vector and takes the small-angle branch at every `i`
in `1..n-2`, so that `bishopFrames[i] = bishopFrames[i-1]` and every frame
equals frame 0. -/
theorem straight_rod_frames (sqrt : K → K) (h1 : sqrt 1 = 1) (r : ElasticRod K) (d : Vec3 K)
    (hcur : ∀ i : Int, ∃ a : K, r.edge i = a • d)
    (hbf : r.x.length - 1 ≤ r.bishopFrames.length) :
    (∀ i : Int, (i = 0 ∨ r.kappaBDenom sqrt i ≠ 0) → r.kappaB sqrt i = 0)
    ∧ ((∀ j : Nat, 1 ≤ j → j + 2 ≤ r.x.length → r.kappaBDenom sqrt j ≠ 0) →
      (r.compBishopFrames sqrt).bishopFrames.length = r.bishopFrames.length
      ∧ ∀ i : Nat, 1 ≤ i → i + 2 ≤ r.x.length →
        i < (r.compBishopFrames sqrt).bishopFrames.length
        ∧ 1 - (computeCosAndSin sqrt (r.kappaB sqrt i).squaredNorm).1 < 1 / 1000000
        ∧ (r.compBishopFrames sqrt).bishopFrames.getD i default
            = (r.compBishopFrames sqrt).bishopFrames.getD (i - 1) default
        ∧ (r.compBishopFrames sqrt).bishopFrames.getD i default
            = (r.compBishopFrames sqrt).bishopFrames.getD 0 default) := by
  have hk := kappaB_of_colinear sqrt r d hcur
  refine ⟨fun i _ => hk i, fun _ => ?_⟩
  have hstep : r.bishopStep sqrt = fun i (m : List (BishopFrame K)) =>
      m.set i (m.getD (i - 1) default) := by
    funext j m
    simp only [bishopStep, hk]
    rw [if_pos (small_angle_of_zero sqrt h1)]
  have hframes : (r.compBishopFrames sqrt).bishopFrames
      = forLoop (fun i (m : List (BishopFrame K)) => m.set i (m.getD (i - 1) default)) 1
        (r.x.length - 1 - 1)
        (r.bishopFrames.set 0 ⟨r.u0, ((r.edge 0).cross r.u0).normalized sqrt⟩) := by
    simp only [compBishopFrames, hstep]
  have hlen : (r.compBishopFrames sqrt).bishopFrames.length = r.bishopFrames.length := by
    rw [hframes, forLoop_set_length (fun i (m : List (BishopFrame K)) => m.getD (i - 1) default),
      List.length_set]
  refine ⟨hlen, ?_⟩
  intro i hi1 hi2
  have hloop := copy_loop_spec (default : BishopFrame K)
    (r.bishopFrames.set 0 ⟨r.u0, ((r.edge 0).cross r.u0).normalized sqrt⟩) (r.x.length - 1 - 1)
    (by rw [List.length_set]; omega)
  refine ⟨by rw [hlen]; omega, ?_, ?_, ?_⟩
  · rw [hk]; exact small_angle_of_zero sqrt h1
  · rw [hframes, hloop.2 i (by omega), hloop.2 (i - 1) (by omega)]
  · rw [hframes, hloop.2 i (by omega), hloop.2 0 (by omega)]

/-- Witness for C6: the straight three-vertex rod along `(1, 2, 2)` over the
reals (rest and current edges of length `3`, every denominator `18`), at the
interior vertex `1` and at the tip. -/
theorem straight_rod_frames_witness :
    (straightRod : ElasticRod ℝ).kappaB Real.sqrt 1 = 0
    ∧ (straightRod : ElasticRod ℝ).kappaB Real.sqrt 2 = 0
    ∧ ((straightRod : ElasticRod ℝ).compBishopFrames Real.sqrt).bishopFrames.length = 3
    ∧ ((straightRod : ElasticRod ℝ).compBishopFrames Real.sqrt).bishopFrames.getD 1 default
        = ((straightRod : ElasticRod ℝ).compBishopFrames Real.sqrt).bishopFrames.getD 0
            default := by
  have ht1 : Int.toNat 1 = 1 := rfl
  have ht2 : Int.toNat 2 = 2 := rfl
  have h9 : Real.sqrt 9 = 3 := by
    rw [show (9 : ℝ) = 3 * 3 by norm_num]
    exact Real.sqrt_mul_self (by norm_num)
  have hd1 : (straightRod : ElasticRod ℝ).kappaBDenom Real.sqrt 1 ≠ 0 := by
    norm_num [kappaBDenom, edge, initEdge, straightRod, clampInt, Vec3.norm, Vec3.squaredNorm,
      Vec3.dot, ht1, ht2, h9]
  have hd2 : (straightRod : ElasticRod ℝ).kappaBDenom Real.sqrt 2 ≠ 0 := by
    norm_num [kappaBDenom, edge, initEdge, straightRod, clampInt, Vec3.norm, Vec3.squaredNorm,
      Vec3.dot, ht1, ht2, h9]
  have h := straight_rod_frames Real.sqrt Real.sqrt_one (straightRod : ElasticRod ℝ) ⟨1, 2, 2⟩
    (by
      intro i
      simp only [edge, straightRod]
      generalize (clampInt _ _ _).toNat = k
      rcases k with _ | _ | k
      · exact ⟨1, by simp⟩
      · exact ⟨1, by simp⟩
      · exact ⟨0, by simp [vec3_zero_eq]⟩)
    (by simp [straightRod])
  have hfr := h.2 (by
    intro j hj1 hj2
    have hj3 : j + 2 ≤ 3 := hj2
    have hj : j = 1 := by omega
    subst hj
    exact hd1)
  exact ⟨h.1 1 (Or.inr hd1), h.1 2 (Or.inr hd2), hfr.1,
    (hfr.2 1 le_rfl (by simp [straightRod])).2.2.2⟩

/-! ### C7: scattered momentum -/

/-- C7 (the code at the failing input): the free vertex of the rod sits on the
grid node `(0,0,0)` with velocity `(1,0,0)`, the root has velocity zero.
`setVoxelContributions` adds the weight `1` to the mass of node 0 but leaves
its momentum at `(0,0,0)`: line 310 reads `v[i]` with `i` the corner's x
offset (here 0, the root), not the vertex index `ind`.  The claim requires the
momentum `1 * v[1] = (1,0,0)`. -/
theorem scatter_momentum_at_node :
    (setVoxelContributions (nodeRod : ElasticRod ℚ) unitGrid).voxelMasses 0 = 1
    ∧ (setVoxelContributions (nodeRod : ElasticRod ℚ) unitGrid).voxelVelocities 0 = ⟨0, 0, 0⟩
    ∧ (unitGrid : VoxelGrid ℚ).voxelVelocities 0 + (1 : ℚ) • (nodeRod : ElasticRod ℚ).v.getD 1 0
        = ⟨1, 0, 0⟩ := by
  refine ⟨?_, ?_, ?_⟩
  · norm_num [setVoxelContributions, scatterVertex, forLoop_one, forLoop_two, forLoop_zero,
      scatterCorner, unitGrid, nodeRod, truncToInt, cornerOffset, scatterWeight, Vec3.coeff,
      Vec3.abs, Vec3.prod, vec3_zero_eq, Function.update_apply]
  · norm_num [setVoxelContributions, scatterVertex, forLoop_one, forLoop_two, forLoop_zero,
      scatterCorner, unitGrid, nodeRod, truncToInt, cornerOffset, scatterWeight, Vec3.coeff,
      Vec3.abs, Vec3.prod, vec3_zero_eq, Function.update_apply]
  · norm_num [unitGrid, nodeRod, vec3_zero_eq]

/-! ### C8: scatter weights -/

/-- C8 (the code at the failing input): for the cell `(2,0,0)` and the local
offset `(1/2,1/2,1/2)` the weight the code computes for the corner offset
`(0,0,0)` is `-1/8` (line 305 subtracts the local offset from the absolute
corner coordinate `cell + c`), where the trilinear weight is `1/8`; the eight
weights sum to `-2`, not `1`; and for the rod whose free vertex is at
`(5/2,1/2,1/2)` the scatter leaves the mass `-1/8` in node `(2,0,0)`. -/
theorem scatter_weight_off_origin :
    scatterWeight (⟨2, 0, 0⟩ : Vec3 ℚ) ⟨1 / 2, 1 / 2, 1 / 2⟩ 0 0 0 = -(1 / 8)
    ∧ trilinearWeight (⟨1 / 2, 1 / 2, 1 / 2⟩ : Vec3 ℚ) 0 0 0 = 1 / 8
    ∧ scatterWeight (⟨2, 0, 0⟩ : Vec3 ℚ) ⟨1 / 2, 1 / 2, 1 / 2⟩ 0 0 0
        + scatterWeight (⟨2, 0, 0⟩ : Vec3 ℚ) ⟨1 / 2, 1 / 2, 1 / 2⟩ 0 0 1
        + scatterWeight (⟨2, 0, 0⟩ : Vec3 ℚ) ⟨1 / 2, 1 / 2, 1 / 2⟩ 0 1 0
        + scatterWeight (⟨2, 0, 0⟩ : Vec3 ℚ) ⟨1 / 2, 1 / 2, 1 / 2⟩ 0 1 1
        + scatterWeight (⟨2, 0, 0⟩ : Vec3 ℚ) ⟨1 / 2, 1 / 2, 1 / 2⟩ 1 0 0
        + scatterWeight (⟨2, 0, 0⟩ : Vec3 ℚ) ⟨1 / 2, 1 / 2, 1 / 2⟩ 1 0 1
        + scatterWeight (⟨2, 0, 0⟩ : Vec3 ℚ) ⟨1 / 2, 1 / 2, 1 / 2⟩ 1 1 0
        + scatterWeight (⟨2, 0, 0⟩ : Vec3 ℚ) ⟨1 / 2, 1 / 2, 1 / 2⟩ 1 1 1 = -2
    ∧ (unitGrid : VoxelGrid ℚ).getVoxelCoordinates ((midRod : ElasticRod ℚ).x.getD 1 0)
        = (⟨2, 0, 0⟩, ⟨1 / 2, 1 / 2, 1 / 2⟩)
    ∧ (unitGrid : VoxelGrid ℚ).getSpatialHash ⟨2, 0, 0⟩ = 2
    ∧ (setVoxelContributions (midRod : ElasticRod ℚ) unitGrid).voxelMasses 2 = -(1 / 8) := by
  have habs1 : |(2 : ℚ) - 1 / 2| = 3 / 2 := by rw [abs_of_nonneg] <;> norm_num
  have habs2 : |(0 : ℚ) - 1 / 2| = 1 / 2 := by rw [abs_of_nonpos] <;> norm_num
  have habs3 : |(2 : ℚ) + 1 - 1 / 2| = 5 / 2 := by rw [abs_of_nonneg] <;> norm_num
  have habs4 : |(0 : ℚ) + 1 - 1 / 2| = 1 / 2 := by rw [abs_of_nonneg] <;> norm_num
  have habs5 : |(1 / 2 : ℚ) - 0| = 1 / 2 := by rw [abs_of_nonneg] <;> norm_num
  have hf1 : ⌊(5 / 2 : ℚ)⌋ = 2 := by norm_num
  have hf2 : ⌊(1 / 2 : ℚ)⌋ = 0 := by norm_num
  have hfr1 : Int.fract (5 / 2 : ℚ) = 1 / 2 := by rw [Int.fract, hf1]; norm_num
  have hfr2 : Int.fract (1 / 2 : ℚ) = 1 / 2 := by rw [Int.fract, hf2]; norm_num
  have habs6 : |(1 / 2 : ℚ)| = 1 / 2 := abs_of_nonneg (by norm_num)
  have habs7 : |(3 / 2 : ℚ)| = 3 / 2 := abs_of_nonneg (by norm_num)
  have ht2 : Int.toNat 2 = 2 := rfl
  have ht3 : Int.toNat 3 = 3 := rfl
  refine ⟨?_, ?_, ?_, ?_, ?_, ?_⟩
  · simp only [scatterWeight, cornerOffset, Vec3.abs, Vec3.prod, vec3_add_def, vec3_sub_def,
      Nat.cast_zero, add_zero, habs1, habs2]
    norm_num
  · simp only [trilinearWeight, Nat.cast_zero, habs5]
    norm_num
  · simp only [scatterWeight, cornerOffset, Vec3.abs, Vec3.prod, vec3_add_def, vec3_sub_def,
      Nat.cast_zero, Nat.cast_one, add_zero, habs1, habs2, habs3, habs4]
    norm_num
  · norm_num [unitGrid, midRod, hf1, hf2, hfr1, hfr2]
  · norm_num [unitGrid]
    rfl
  · norm_num [setVoxelContributions, scatterVertex, forLoop_one, forLoop_two, forLoop_zero,
      scatterCorner, unitGrid, midRod, truncToInt, cornerOffset, scatterWeight, Vec3.coeff,
      Vec3.abs, Vec3.prod, vec3_zero_eq, Function.update_apply, hf1, hf2, hfr1, hfr2, ht2, ht3,
      habs6, habs7]

/-! ### C9: gather -/

/-- C9: for a rod with one velocity per vertex, `updateAllVelocitiesFromVoxels`
sets, for every `i` in `1..n-1`,
`v[i] = (1-friction)*v[i] + friction*sampledVelocityScale*T_i`, where `T_i` is
the nested interpolation of the code; whenever the local offset
`getVoxelCoordinates` returns for the vertex lies in `[0,1]³` (it is a
fractional offset), `T_i` equals the trilinear sum over the corner offsets `c`
of `∏(1-|frac_d-c_d|) * vel(cell + c)`; `v[0]` and all positions are
unchanged, and with `friction = 0` every velocity is unchanged. -/
theorem gather_blend (P : Params K) (r : ElasticRod K) (g : VoxelGrid K)
    (hv : r.v.length = r.x.length) :
    (∀ i, 1 ≤ i → i < r.x.length →
      (updateAllVelocitiesFromVoxels P r g).v.getD i 0
          = (1 - P.friction) • r.v.getD i 0
            + P.friction • (P.sampledVelocityScale • sampledVelocity g (r.x.getD i 0))
      ∧ ((0 ≤ (g.getVoxelCoordinates (r.x.getD i 0)).2.x
            ∧ (g.getVoxelCoordinates (r.x.getD i 0)).2.x ≤ 1)
          ∧ (0 ≤ (g.getVoxelCoordinates (r.x.getD i 0)).2.y
            ∧ (g.getVoxelCoordinates (r.x.getD i 0)).2.y ≤ 1)
          ∧ (0 ≤ (g.getVoxelCoordinates (r.x.getD i 0)).2.z
            ∧ (g.getVoxelCoordinates (r.x.getD i 0)).2.z ≤ 1) →
        sampledVelocity g (r.x.getD i 0)
          = trilinearSum (g.getVoxelCoordinates (r.x.getD i 0)).2
              (fun a b c => g.sampleVoxelVelocity g.voxelMasses g.voxelVelocities
                ((g.getVoxelCoordinates (r.x.getD i 0)).1 + cornerOffset a b c))))
    ∧ (updateAllVelocitiesFromVoxels P r g).v.getD 0 0 = r.v.getD 0 0
    ∧ (updateAllVelocitiesFromVoxels P r g).x = r.x
    ∧ (P.friction = 0 → (updateAllVelocitiesFromVoxels P r g).v = r.v) := by
  obtain ⟨_, hx, hv0⟩ := updateAllVelocitiesFromVoxels_frame P r g
  obtain ⟨_, hloop⟩ := gather_loop P g 1 (r.x.length - 1) r
  refine ⟨?_, hv0, hx, ?_⟩
  · intro i h1 h2
    refine ⟨?_, ?_⟩
    · unfold updateAllVelocitiesFromVoxels
      rw [hloop]
      exact forLoop_set_getD_own (fun i w => (1 - P.friction) • w
        + P.friction • (P.sampledVelocityScale • sampledVelocity g (r.x.getD i 0)))
        1 (r.x.length - 1) r.v i 0 h1 (by omega) (by omega)
    · rintro ⟨fx, fy, fz⟩
      rw [← gatherInterp_eq_trilinearSum _ _ fx fy fz]
      have hz : ∀ c : Vec3 K, c + cornerOffset 0 0 0 = c := by
        intro c; ext <;> simp [cornerOffset]
      simp only [sampledVelocity, hz]
      simp [cornerOffset]
  · intro hf
    unfold updateAllVelocitiesFromVoxels
    rw [hloop]
    apply forLoop_invariant _ (fun v => v = r.v) _ _ _ _ rfl
    intro i w hw
    have hb : (1 - P.friction) • w.getD i 0
        + P.friction • (P.sampledVelocityScale • sampledVelocity g (r.x.getD i 0))
        = w.getD i 0 := by
      rw [hf]; ext <;> simp
    simp only [hb]
    rw [list_set_getD_self]
    exact hw

/-- Witness for C9: the rod whose free vertex is at `(5/2, 1/2, 1/2)` on the
grid of unit cells; its local offset is `(1/2, 1/2, 1/2)`, so the sampled
velocity is the trilinear sum. -/
theorem gather_blend_witness :
    (updateAllVelocitiesFromVoxels Params.initial (midRod : ElasticRod ℚ) unitGrid).v.getD 1 0
        = (1 - (Params.initial : Params ℚ).friction) • (midRod : ElasticRod ℚ).v.getD 1 0
          + (Params.initial : Params ℚ).friction
            • ((Params.initial : Params ℚ).sampledVelocityScale
              • sampledVelocity unitGrid ((midRod : ElasticRod ℚ).x.getD 1 0))
    ∧ sampledVelocity unitGrid ((midRod : ElasticRod ℚ).x.getD 1 0)
        = trilinearSum ((unitGrid : VoxelGrid ℚ).getVoxelCoordinates
              ((midRod : ElasticRod ℚ).x.getD 1 0)).2
            (fun a b c => (unitGrid : VoxelGrid ℚ).sampleVoxelVelocity
              (unitGrid : VoxelGrid ℚ).voxelMasses (unitGrid : VoxelGrid ℚ).voxelVelocities
              (((unitGrid : VoxelGrid ℚ).getVoxelCoordinates
                ((midRod : ElasticRod ℚ).x.getD 1 0)).1 + cornerOffset a b c))
    ∧ (updateAllVelocitiesFromVoxels Params.initial (midRod : ElasticRod ℚ) unitGrid).x
        = (midRod : ElasticRod ℚ).x :=
  have h := gather_blend Params.initial (midRod : ElasticRod ℚ) unitGrid (by simp [midRod])
  have h1 := h.1 1 le_rfl (by simp [midRod])
  ⟨h1.1, h1.2 (by
      have hf1 : ⌊(5 / 2 : ℚ)⌋ = 2 := by norm_num
      have hf2 : ⌊(1 / 2 : ℚ)⌋ = 0 := by norm_num
      have hfr1 : Int.fract (5 / 2 : ℚ) = 1 / 2 := by rw [Int.fract, hf1]; norm_num
      have hfr2 : Int.fract (1 / 2 : ℚ) = 1 / 2 := by rw [Int.fract, hf2]; norm_num
      norm_num [unitGrid, midRod, hf1, hf2, hfr1, hfr2]), h.2.2.1⟩

/-! ### C10: the explicit integration step -/

/-- C11: for a rod with one velocity per vertex, after
`enforceConstraints(dt, colliders)` every interior vertex `i` in `1..n-2` has
`v[i] = (x[i] - px[i])/dt - 0.25*(dx[i+1]/dt)`, where `x` is the projected
position and `dx` the correction vector of the sweep (`enforceSweep`): the
sweep moved each vertex `j` in `1..n-1` from its position after the collision
pass by `dx[j]`; the velocities `v[0]` and `v[n-1]` are unchanged. -/
theorem enforceConstraints_velocity (sqrt : K → K) (r : ElasticRod K) (dt : K)
    (cs : List (Collider K)) (hn : 2 ≤ r.x.length) (hv : r.v.length = r.x.length) :
    (∀ i, 1 ≤ i → i + 2 ≤ r.x.length →
      (r.enforceConstraints sqrt dt cs).v.getD i 0
        = ((r.enforceConstraints sqrt dt cs).x.getD i 0 - r.px.getD i 0).divS dt
          - (1 / 4 : K) • ((r.enforceSweep sqrt cs).2.getD (i + 1) 0).divS dt)
    ∧ (∀ j, 1 ≤ j → j < r.x.length →
      (r.enforceConstraints sqrt dt cs).x.getD j 0
        = (r.handleCollisions cs).x.getD j 0 + (r.enforceSweep sqrt cs).2.getD j 0)
    ∧ (r.enforceConstraints sqrt dt cs).v.getD 0 0 = r.v.getD 0 0
    ∧ (r.enforceConstraints sqrt dt cs).v.getD (r.x.length - 1) 0
        = r.v.getD (r.x.length - 1) 0 := by
  have hlen : ((r.handleCollisions cs).x.set 0 (r.xRest.getD 0 0)).length = r.x.length := by
    rw [List.length_set, handleCollisions_length]
  have hS : r.enforceSweep sqrt cs = forLoop ((r.handleCollisions cs).sweepStep sqrt) 1
      (r.x.length - 1) ((r.handleCollisions cs).x.set 0 (r.xRest.getD 0 0),
        (List.replicate r.x.length (0 : Vec3 K)).set 0 0) := by
    simp only [enforceSweep, List.length_set, handleCollisions_length]
    rfl
  obtain ⟨hl1, _, _, hin⟩ := sweep_dx_spec sqrt (r.handleCollisions cs)
    ((r.handleCollisions cs).x.set 0 (r.xRest.getD 0 0))
    ((List.replicate r.x.length (0 : Vec3 K)).set 0 0) (r.x.length - 1)
    (by rw [hlen]; omega) (by rw [hlen]; simp)
  rw [← hS] at hl1 hin
  have hx : (r.enforceConstraints sqrt dt cs).x = (r.enforceSweep sqrt cs).1 := rfl
  have hvv : (r.enforceConstraints sqrt dt cs).v
      = forLoop (fun i (v : List (Vec3 K)) => v.set i
          ((fun i => ((r.enforceSweep sqrt cs).1.getD i 0 - r.px.getD i 0).divS dt
            - (1 / 4 : K) • ((r.enforceSweep sqrt cs).2.getD (i + 1) 0).divS dt) i))
        1 ((r.enforceSweep sqrt cs).1.length - 1 - 1) r.v := rfl
  refine ⟨?_, ?_, ?_, ?_⟩
  · intro i h1 h2
    rw [hvv, hx]
    exact forLoop_set_getD_inside (fun i => ((r.enforceSweep sqrt cs).1.getD i 0
        - r.px.getD i 0).divS dt - (1 / 4 : K) • ((r.enforceSweep sqrt cs).2.getD (i + 1) 0).divS dt)
      1 _ r.v i 0 h1 (by rw [hl1, hlen]; omega) (by omega)
  · intro j h1 h2
    rw [hx, hin j h1 (by omega), getD_set_ne _ _ _ _ _ (by omega)]
  · rw [hvv]
    exact forLoop_set_getD_outside _ 1 _ r.v 0 0 (Or.inl (by omega))
  · rw [hvv]
    exact forLoop_set_getD_outside _ 1 _ r.v (r.x.length - 1) 0
      (Or.inr (by rw [hl1, hlen]; omega))

/-- Witness for C11: the bent three-vertex rod over the reals, `dt = 1/100`,
no colliders. -/
theorem enforceConstraints_velocity_witness :
    (∀ i, 1 ≤ i → i + 2 ≤ (bentRod : ElasticRod ℝ).x.length →
      ((bentRod : ElasticRod ℝ).enforceConstraints Real.sqrt (1 / 100) []).v.getD i 0
        = (((bentRod : ElasticRod ℝ).enforceConstraints Real.sqrt (1 / 100) []).x.getD i 0
            - (bentRod : ElasticRod ℝ).px.getD i 0).divS (1 / 100)
          - (1 / 4 : ℝ) • (((bentRod : ElasticRod ℝ).enforceSweep Real.sqrt []).2.getD (i + 1)
              0).divS (1 / 100))
    ∧ ((bentRod : ElasticRod ℝ).enforceConstraints Real.sqrt (1 / 100) []).v.getD 0 0
        = (bentRod : ElasticRod ℝ).v.getD 0 0 :=
  have h := enforceConstraints_velocity Real.sqrt (bentRod : ElasticRod ℝ) (1 / 100) []
    (by simp [bentRod]) (by simp [bentRod])
  ⟨h.1, h.2.2.1⟩

/-! ### C12: clamped accessors -/

/-- C12: for a rod with `n ≥ 2` vertices, `n-1` edges and `n` rest positions,
and every integer `i`, the index `c = min(max(i,0),n-2)` is non-negative,
`edge(i)` is the element `e[c]`, which is inside the edge vector, and
`initEdge(i)` is `xRest[c+1] - xRest[c]`, both inside the rest positions. -/
theorem clamped_accessors (r : ElasticRod K) (i : Int) (hn : 2 ≤ r.x.length)
    (he : r.e.length = r.x.length - 1) (hR : r.xRest.length = r.x.length) :
    0 ≤ min (max i 0) ((r.x.length : Int) - 2)
    ∧ (min (max i 0) ((r.x.length : Int) - 2)).toNat < r.e.length
    ∧ (min (max i 0) ((r.x.length : Int) - 2)).toNat + 1 < r.xRest.length
    ∧ r.e[(min (max i 0) ((r.x.length : Int) - 2)).toNat]? = some (r.edge i)
    ∧ ∃ a b : Vec3 K, r.xRest[(min (max i 0) ((r.x.length : Int) - 2)).toNat + 1]? = some a
        ∧ r.xRest[(min (max i 0) ((r.x.length : Int) - 2)).toNat]? = some b
        ∧ r.initEdge i = a - b := by
  have hc := clampInt_eq_min_max i 0 ((r.x.length : Int) - 2) (by omega)
  have h0 : 0 ≤ min (max i 0) ((r.x.length : Int) - 2) := le_min (le_max_right _ _) (by omega)
  have h1 : min (max i 0) ((r.x.length : Int) - 2) ≤ (r.x.length : Int) - 2 := min_le_right _ _
  have hlt : (min (max i 0) ((r.x.length : Int) - 2)).toNat < r.e.length := by omega
  have hlt2 : (min (max i 0) ((r.x.length : Int) - 2)).toNat + 1 < r.xRest.length := by omega
  refine ⟨h0, hlt, hlt2, ?_, ?_⟩
  · simp only [edge, hc]
    exact getD_eq_of_getElem? _ _ _ hlt
  · refine ⟨_, _, getD_eq_of_getElem? _ _ 0 hlt2, getD_eq_of_getElem? _ _ 0 (by omega), ?_⟩
    simp only [initEdge, hc]
    have e1 : (min (max i 0) ((r.x.length : Int) - 2) + 1).toNat
        = (min (max i 0) ((r.x.length : Int) - 2)).toNat + 1 := by omega
    rw [e1]

/-- Witness for C12: the bent three-vertex rod, index `-5`. -/
theorem clamped_accessors_witness :
    (bentRod : ElasticRod ℚ).e[(min (max (-5 : Int) 0)
        (((bentRod : ElasticRod ℚ).x.length : Int) - 2)).toNat]?
      = some ((bentRod : ElasticRod ℚ).edge (-5)) :=
  (clamped_accessors (bentRod : ElasticRod ℚ) (-5) (by simp [bentRod]) (by simp [bentRod])
    (by simp [bentRod])).2.2.2.1

/-! ### C13: the divisor of the bending sum -/

/-- C13 (the code at the failing input): for the bent three-vertex rod (rest
positions one unit apart on the x axis, tip moved to `(1,2,0)`), in the state
in which `integrateFwEuler` evaluates the forces (edges refreshed from the
positions), `initEdgeLen(1) = edge(0).norm() + edge(1).norm() = 1 + 2 = 3`,
the lengths of the current edges, whereas the rest lengths give
`|xRest[1]-xRest[0]| + |xRest[2]-xRest[1]| = 2`. -/
theorem initEdgeLen_uses_current_edges :
    ((bentRod : ElasticRod ℝ).integratePrepare Real.sqrt).initEdgeLen Real.sqrt 1 = 3
    ∧ ((bentRod : ElasticRod ℝ).integratePrepare Real.sqrt).xRest = (bentRod : ElasticRod ℝ).xRest
    ∧ ((bentRod : ElasticRod ℝ).xRest.getD 1 0 - (bentRod : ElasticRod ℝ).xRest.getD 0 0).norm
          Real.sqrt
        + ((bentRod : ElasticRod ℝ).xRest.getD 2 0
          - (bentRod : ElasticRod ℝ).xRest.getD 1 0).norm Real.sqrt = 2 := by
  have h4 : Real.sqrt 4 = 2 := by
    rw [show (4 : ℝ) = 2 * 2 by norm_num]
    exact Real.sqrt_mul_self (by norm_num)
  refine ⟨?_, (integratePrepare_frame Real.sqrt bentRod).1, ?_⟩
  · have hx : ((bentRod : ElasticRod ℝ).integratePrepare Real.sqrt).x.length = 3 := by
      rw [(integratePrepare_frame Real.sqrt bentRod).2.1]; rfl
    simp only [initEdgeLen, edge, integratePrepare_e, hx]
    norm_num [clampInt, refreshEdges, bentRod, forLoop_two, forLoop_zero, Vec3.norm,
      Vec3.squaredNorm, vec3_zero_eq, h4]
  · norm_num [bentRod, Vec3.norm, Vec3.squaredNorm, vec3_zero_eq]

/-! ### C14: the cases of `gradHolonomy` -/

/-- C14: `gradHolonomy(i,j)` is the zero vector when `|i-j| > 1`; for
`j = i+1` it is `kappaB(j)/(2*|initEdge(i)|)`; for `j = i-1` it is
`-kappaB(j)/(2*|initEdge(j)|)`; and for `i = j` it equals the sum of the
successor-form term and the predecessor-form term taken at `j = i`. -/
theorem gradHolonomy_cases (sqrt : K → K) (r : ElasticRod K) (i j : Int) :
    (1 < |i - j| → r.gradHolonomy sqrt i j = 0)
    ∧ (j = i + 1 →
        r.gradHolonomy sqrt i j = (r.kappaB sqrt j).divS (2 * (r.initEdge i).norm sqrt))
    ∧ (j = i - 1 →
        r.gradHolonomy sqrt i j = (-(r.kappaB sqrt j)).divS (2 * (r.initEdge j).norm sqrt))
    ∧ (i = j →
        r.gradHolonomy sqrt i j = (r.kappaB sqrt j).divS (2 * (r.initEdge i).norm sqrt)
          + (-(r.kappaB sqrt j)).divS (2 * (r.initEdge j).norm sqrt)) := by
  refine ⟨?_, ?_, ?_, ?_⟩
  · intro h
    have h' : |j - i| > 1 := by rw [abs_sub_comm]; exact h
    simp only [gradHolonomy, if_pos h']
  · intro h
    subst h
    have h' : ¬ (|i + 1 - i| > 1) := by simp
    simp only [gradHolonomy, if_neg h', if_true]
  · intro h
    subst h
    have h' : ¬ (|i - 1 - i| > 1) := by simp
    have h2 : ¬ (i - 1 = i + 1) := by omega
    simp only [gradHolonomy, if_neg h', if_neg h2, if_true]
  · intro h
    subst h
    have h' : ¬ (|i - i| > 1) := by simp
    have h2 : ¬ (i = i + 1) := by omega
    have h3 : ¬ (i = i - 1) := by omega
    simp only [gradHolonomy, if_neg h', if_neg h2, if_neg h3]
    rw [vec3_neg_divS, vec3_neg_add_self, vec3_add_neg_self]

/-! ### C20: the diagonal of `gradHolonomy` -/

/-- C20: for every rod state and every index `i` at which the rest edge has
non-zero length and `kappaB(i)` is defined (`i = 0`, or its denominator is
non-zero), `gradHolonomy(i,i)` is the zero vector (the two terms of the
`i == j` branch cancel); so, whenever `kappaB(k)` is defined too, the holonomy
correction term `J*omega(kappaB(k),k,i)*gradHolonomy(i,i)ᵀ` of
`omegaGrad(i,i,k)` is the zero matrix and `omegaGrad(i,i,k)` is its chain-rule
term alone. -/
theorem gradHolonomy_diag (sqrt : K → K) (r : ElasticRod K) (i k : Int) :
    (r.initEdge i).norm sqrt ≠ 0 → (i = 0 ∨ r.kappaBDenom sqrt i ≠ 0) →
    r.gradHolonomy sqrt i i = 0
    ∧ ((k = 0 ∨ r.kappaBDenom sqrt k ≠ 0) →
      ((J : Mat2 K).mulVec (r.omega (r.kappaB sqrt k) k i)).outer (r.gradHolonomy sqrt i i) = 0
      ∧ r.omegaGrad sqrt i i k
          = (if k ≥ i - 1 ∧ k ≤ i + 1 then
              (Mat23.mk (r.M.getD i.toNat default).m2 (-(r.M.getD i.toNat default).m1)).mulMat3
                (r.kappaBGrad sqrt i k)
            else 0)) := by
  intro _ _
  have h0 : r.gradHolonomy sqrt i i = 0 := by
    have h' : ¬ (|i - i| > 1) := by simp
    have h2 : ¬ (i = i + 1) := by omega
    have h3 : ¬ (i = i - 1) := by omega
    simp only [gradHolonomy, if_neg h', if_neg h2, if_neg h3]
    exact vec3_neg_add_self _
  refine ⟨h0, fun _ => ⟨by rw [h0, vec2_outer_zero], ?_⟩⟩
  simp only [omegaGrad, h0, vec2_outer_zero, mat23_sub_zero]

/-- Witness for C20: the rod constructed from the hook-shaped vertices, over
the reals, at the interior vertex `i = k = 1` (rest edge of length `1`,
denominator `1`). -/
theorem gradHolonomy_diag_witness :
    (hookRod Real.sqrt).gradHolonomy Real.sqrt 1 1 = 0
    ∧ ((J : Mat2 ℝ).mulVec ((hookRod Real.sqrt).omega ((hookRod Real.sqrt).kappaB Real.sqrt 1)
        1 1)).outer ((hookRod Real.sqrt).gradHolonomy Real.sqrt 1 1) = 0 := by
  obtain ⟨hx, hR, he⟩ := @hookRod_state ℝ _ Real.sqrt
  have hreg := regular_of_hook_shape (hookRod Real.sqrt) hx hR he 1
  have h := gradHolonomy_diag Real.sqrt (hookRod Real.sqrt) 1 1 hreg.1 (Or.inr hreg.2.2)
  exact ⟨h.1, (h.2 (Or.inr hreg.2.2)).1⟩

/-! ### C15: support and translation invariance of `kappaBGrad` -/

/-- C15: `kappaBGrad(i,j)` is the zero matrix when `j` is outside
`{i-1,i,i+1}` or outside `0..n-1`; and for an interior vertex `1 ≤ i ≤ n-2`
at which the denominator `|initEdge(i-1)|*|initEdge(i)| + edge(i-1)·edge(i)`
is non-zero, the value at `j = i` is the negated sum of the two neighbour
values, so that `kappaBGrad(i,i-1) + kappaBGrad(i,i) + kappaBGrad(i,i+1) = 0`. -/
theorem kappaBGrad_support_sum (sqrt : K → K) (r : ElasticRod K) (i j : Int) :
    (j < i - 1 ∨ j > i + 1 ∨ j < 0 ∨ j ≥ (r.x.length : Int) → r.kappaBGrad sqrt i j = 0)
    ∧ (1 ≤ i → i ≤ (r.x.length : Int) - 2 →
        (r.initEdge (i - 1)).norm sqrt * (r.initEdge i).norm sqrt
          + (r.edge (i - 1)).dot (r.edge i) ≠ 0 →
        r.kappaBGrad sqrt i i = -(r.kappaBGrad sqrt i (i - 1) + r.kappaBGrad sqrt i (i + 1))
        ∧ r.kappaBGrad sqrt i (i - 1) + r.kappaBGrad sqrt i i + r.kappaBGrad sqrt i (i + 1)
            = 0) := by
  refine ⟨?_, ?_⟩
  · intro h
    simp only [kappaBGrad, if_pos h]
  · intro h1 h2 _
    have g1 : ¬ (i - 1 < i - 1 ∨ i - 1 > i + 1 ∨ i - 1 < 0 ∨ i - 1 ≥ (r.x.length : Int)) := by
      omega
    have g2 : ¬ (i < i - 1 ∨ i > i + 1 ∨ i < 0 ∨ i ≥ (r.x.length : Int)) := by omega
    have g3 : ¬ (i + 1 < i - 1 ∨ i + 1 > i + 1 ∨ i + 1 < 0 ∨ i + 1 ≥ (r.x.length : Int)) := by
      omega
    have n1 : ¬ (i = i - 1) := by omega
    have n2 : ¬ (i = i + 1) := by omega
    have n3 : ¬ (i + 1 = i - 1) := by omega
    have e1 : r.kappaBGrad sqrt i (i - 1)
        = ((2 : K) • skew (r.edge i) + (r.kappaB sqrt i).outer (r.edge i)).divS
          ((r.initEdge (i - 1)).norm sqrt * (r.initEdge i).norm sqrt
            + (r.edge (i - 1)).dot (r.edge i)) := by
      simp only [kappaBGrad, if_neg g1, if_true]
    have e2 : r.kappaBGrad sqrt i (i + 1)
        = ((2 : K) • skew (r.edge (i - 1)) - (r.kappaB sqrt i).outer (r.edge (i - 1))).divS
          ((r.initEdge (i - 1)).norm sqrt * (r.initEdge i).norm sqrt
            + (r.edge (i - 1)).dot (r.edge i)) := by
      simp only [kappaBGrad, if_neg g3, if_neg n3, if_true]
    have e3 : r.kappaBGrad sqrt i i
        = (-(((2 : K) • skew (r.edge i) + (r.kappaB sqrt i).outer (r.edge i))
            + ((2 : K) • skew (r.edge (i - 1)) - (r.kappaB sqrt i).outer (r.edge (i - 1))))).divS
          ((r.initEdge (i - 1)).norm sqrt * (r.initEdge i).norm sqrt
            + (r.edge (i - 1)).dot (r.edge i)) := by
      simp only [kappaBGrad, if_neg g2, if_neg n1, if_neg n2]
    rw [e1, e2, e3]
    exact ⟨mat3_neg_divS_eq _ _ _, mat3_divS_cancel _ _ _⟩

/-- Witness for C15: the rod constructed from the hook-shaped vertices, over
the reals, at its interior vertex `i = 1` (denominator `1`); `j = 5` is
outside the support. -/
theorem kappaBGrad_support_sum_witness :
    (hookRod Real.sqrt).kappaBGrad Real.sqrt 1 5 = 0
    ∧ (hookRod Real.sqrt).kappaBGrad Real.sqrt 1 (1 - 1)
        + (hookRod Real.sqrt).kappaBGrad Real.sqrt 1 1
        + (hookRod Real.sqrt).kappaBGrad Real.sqrt 1 (1 + 1) = 0 := by
  obtain ⟨hx, hR, he⟩ := @hookRod_state ℝ _ Real.sqrt
  have hreg := (regular_of_hook_shape (hookRod Real.sqrt) hx hR he 1).2.2
  have hden : ((hookRod Real.sqrt).initEdge (1 - 1)).norm Real.sqrt
      * ((hookRod Real.sqrt).initEdge 1).norm Real.sqrt
      + ((hookRod Real.sqrt).edge (1 - 1)).dot ((hookRod Real.sqrt).edge 1) ≠ 0 := by
    rw [mul_comm]
    exact hreg
  have h := kappaBGrad_support_sum Real.sqrt (hookRod Real.sqrt) 1 5
  have h' := kappaBGrad_support_sum Real.sqrt (hookRod Real.sqrt) 1 1
  exact ⟨h.1 (Or.inr (Or.inl (by norm_num))),
    (h'.2 le_rfl (by rw [hx]; norm_num) hden).2⟩

/-! ### C18: truncating the bending sum -/

/-- C18: for every `i`, every `k` with `1 ≤ k < i-1` at which `kappaB(k)` is
defined (non-zero denominator) and every `j` in `{k-1,k}`, `omegaGrad(i,j,k)`
is the zero matrix; hence, in a state with no zero divisor, `dEdX(i)`, whose
sum starts at `k = max(i-1,1)`, equals the force computed with the sum started
at `k = 1` (`dEdXFull`). -/
theorem dEdX_truncation_lossless (sqrt : K → K) (P : Params K) (r : ElasticRod K) (i : Int) :
    (∀ k j : Int, 1 ≤ k → k < i - 1 → j = k - 1 ∨ j = k → r.kappaBDenom sqrt k ≠ 0 →
      r.omegaGrad sqrt i j k = 0)
    ∧ (r.Regular sqrt →
      r.dEdXSum sqrt P i = r.dEdXSumFull sqrt P i
      ∧ r.dEdX sqrt P i = r.dEdXFull sqrt P i) := by
  have hz : ∀ k j : Int, 1 ≤ k → k < i - 1 → j = k - 1 ∨ j = k → r.omegaGrad sqrt i j k = 0 :=
    fun k j _ hk hj => omegaGrad_eq_zero sqrt r i j k hk hj
  have hzero : ∀ cnt : Nat, 1 + cnt ≤ (max (i - 1) 1).toNat →
      forLoop (fun (k : Nat) (f : Vec3 K) =>
        let pf : Vec3 K := (0 + r.dEdXTerm sqrt P i k ((k : Int) - 1)) + r.dEdXTerm sqrt P i k k
        f + pf.divS (r.initEdgeLen sqrt k)) 1 cnt 0 = 0 := by
    intro cnt hcnt
    apply forLoop_invariant_range _ (fun f => f = 0)
    · intro k f hk1 hk2 hf
      have hki : (k : Int) < i - 1 := by omega
      have t1 := dEdXTerm_of_omegaGrad_zero sqrt P r i k ((k : Int) - 1)
        (hz k _ (by omega) hki (Or.inl rfl))
      have t2 := dEdXTerm_of_omegaGrad_zero sqrt P r i k k (hz k _ (by omega) hki (Or.inr rfl))
      simp only [t1, t2, hf]
      ext <;> simp [Vec3.divS]
    · rfl
  have hsum : r.dEdXSum sqrt P i = r.dEdXSumFull sqrt P i := by
    unfold dEdXSum dEdXSumFull
    rcases Nat.lt_or_ge (r.x.length - 1) ((max (i - 1) 1).toNat) with hlt | hge
    · have e0 : r.x.length - 1 - (max (i - 1) 1).toNat = 0 := by omega
      simp only [e0, forLoop_zero]
      exact (hzero (r.x.length - 1 - 1) (by omega)).symm
    · have hlo : 1 ≤ (max (i - 1) 1).toNat := by
        have : (1 : Int) ≤ max (i - 1) 1 := le_max_right _ _
        omega
      have e1 : r.x.length - 1 - 1
          = ((max (i - 1) 1).toNat - 1) + (r.x.length - 1 - (max (i - 1) 1).toNat) := by omega
      have e2 : 1 + ((max (i - 1) 1).toNat - 1) = (max (i - 1) 1).toNat := by omega
      rw [e1, forLoop_split, hzero _ (by omega), e2]
  refine ⟨fun k j h1 h2 hj _ => hz k j h1 h2 hj, fun _ => ⟨hsum, ?_⟩⟩
  simp only [dEdX, dEdXFull, hsum]

/-- Witness for C18: the four-vertex rod constructed from `cornerVerts`, over
the reals, at the tip `i = 3`, where the summand `k = 1` is skipped. -/
theorem dEdX_truncation_lossless_witness :
    (cornerRod Real.sqrt).omegaGrad Real.sqrt 3 0 1 = 0
    ∧ (cornerRod Real.sqrt).omegaGrad Real.sqrt 3 1 1 = 0
    ∧ (cornerRod Real.sqrt).dEdX Real.sqrt Params.initial 3
        = (cornerRod Real.sqrt).dEdXFull Real.sqrt Params.initial 3 := by
  have h := dEdX_truncation_lossless Real.sqrt Params.initial (cornerRod Real.sqrt) 3
  have hd := (cornerRod_regular 1).2.2
  exact ⟨h.1 1 0 le_rfl (by norm_num) (Or.inl (by norm_num)) hd,
    h.1 1 1 le_rfl (by norm_num) (Or.inr rfl) hd, (h.2 cornerRod_regular).2⟩

/-! ### C16: `kappaBGrad` is the derivative of `kappaB` -/

/-- C16: over the reals, for a rod whose edges are the differences of its
positions, an interior vertex `1 ≤ i ≤ n-2`, `j` in `{i-1,i,i+1}` and a
non-zero denominator `|initEdge(i-1)|*|initEdge(i)| + edge(i-1)·edge(i)`,
the matrix `kappaBGrad(i,j)` is the Jacobian of `x[j] ↦ kappaB(i)` (edges
recomputed, rest configuration fixed): in every direction `h`, each component
of `t ↦ kappaB(i)` on the rod with `x[j]` moved by `t*h` has at `t = 0` the
derivative given by the same component of `kappaBGrad(i,j) * h`. -/
theorem kappaBGrad_is_jacobian (sqrt : ℝ → ℝ) (r : ElasticRod ℝ) (i j : Nat) (h : Vec3 ℝ)
    (hi1 : 1 ≤ i) (hi2 : i + 2 ≤ r.x.length) (hj : j + 1 = i ∨ j = i ∨ j = i + 1)
    (he : r.e.length = r.x.length - 1)
    (hcons : ∀ k, k < r.e.length → r.e.getD k 0 = r.x.getD (k + 1) 0 - r.x.getD k 0)
    (hden : (r.initEdge ((i : Int) - 1)).norm sqrt * (r.initEdge i).norm sqrt
      + (r.edge ((i : Int) - 1)).dot (r.edge i) ≠ 0) :
    HasDerivAt (fun t : ℝ => ((r.displaced j (t • h)).kappaB sqrt i).x)
      (((r.kappaBGrad sqrt i j).mulVec h).x) 0
    ∧ HasDerivAt (fun t : ℝ => ((r.displaced j (t • h)).kappaB sqrt i).y)
      (((r.kappaBGrad sqrt i j).mulVec h).y) 0
    ∧ HasDerivAt (fun t : ℝ => ((r.displaced j (t • h)).kappaB sqrt i).z)
      (((r.kappaBGrad sqrt i j).mulVec h).z) 0 := by
  have hc : ((i : Int) - 1) = ((i - 1 : Nat) : Int) := by omega
  have ea : r.edge ((i : Int) - 1) = r.x.getD i 0 - r.x.getD (i - 1) 0 := by
    rw [hc, edge_of_lt r (i - 1) (by omega), hcons (i - 1) (by omega)]
    have : i - 1 + 1 = i := by omega
    rw [this]
  have eb : r.edge (i : Int) = r.x.getD (i + 1) 0 - r.x.getD i 0 := by
    rw [edge_of_lt r i hi2, hcons i (by omega)]
  have hi0 : ¬ ((i : Int) = 0) := by omega
  have hkb : r.kappaB sqrt i
      = ((2 : ℝ) • (r.x.getD i 0 - r.x.getD (i - 1) 0).cross
          (r.x.getD (i + 1) 0 - r.x.getD i 0)).divS
        ((r.initEdge i).norm sqrt * (r.initEdge ((i : Int) - 1)).norm sqrt
          + (r.x.getD i 0 - r.x.getD (i - 1) 0).dot (r.x.getD (i + 1) 0 - r.x.getD i 0)) := by
    simp only [kappaB, if_neg hi0, ea, eb]
  have hcomm : (r.initEdge ((i : Int) - 1)).norm sqrt * (r.initEdge i).norm sqrt
      = (r.initEdge i).norm sqrt * (r.initEdge ((i : Int) - 1)).norm sqrt := mul_comm _ _
  have hD : (r.initEdge i).norm sqrt * (r.initEdge ((i : Int) - 1)).norm sqrt
      + (r.x.getD i 0 - r.x.getD (i - 1) 0).dot (r.x.getD (i + 1) 0 - r.x.getD i 0) ≠ 0 := by
    rw [← hcomm, ← ea, ← eb]; exact hden
  rcases hj with hj | hj | hj
  · -- `j = i - 1`
    have hji : j = i - 1 := by omega
    subst hji
    have hG : r.kappaBGrad sqrt i ((i - 1 : Nat) : Int)
        = ((2 : ℝ) • skew (r.x.getD (i + 1) 0 - r.x.getD i 0)
            + (r.kappaB sqrt i).outer (r.x.getD (i + 1) 0 - r.x.getD i 0)).divS
          ((r.initEdge i).norm sqrt * (r.initEdge ((i : Int) - 1)).norm sqrt
            + (r.x.getD i 0 - r.x.getD (i - 1) 0).dot (r.x.getD (i + 1) 0 - r.x.getD i 0)) := by
      rw [← hc, kappaBGrad_at_prev sqrt r i (by omega) (by omega), ea, eb, hcomm]
    have hfun : ∀ t : ℝ, (r.displaced (i - 1) (t • h)).kappaB sqrt i
        = ((2 : ℝ) • ((r.x.getD i 0 - r.x.getD (i - 1) 0) + t • (-h)).cross
            ((r.x.getD (i + 1) 0 - r.x.getD i 0) + t • (0 : Vec3 ℝ))).divS
          ((r.initEdge i).norm sqrt * (r.initEdge ((i : Int) - 1)).norm sqrt
            + ((r.x.getD i 0 - r.x.getD (i - 1) 0) + t • (-h)).dot
              ((r.x.getD (i + 1) 0 - r.x.getD i 0) + t • (0 : Vec3 ℝ))) := by
      intro t
      rw [kappaB_displaced sqrt r i (i - 1) (t • h) hi1 hi2 he,
        getD_set_self _ _ _ _ (by omega), getD_set_ne _ _ _ _ _ (by omega),
        getD_set_ne _ _ _ _ _ (by omega)]
      have e1 : r.x.getD i 0 - (r.x.getD (i - 1) 0 + t • h)
          = (r.x.getD i 0 - r.x.getD (i - 1) 0) + t • (-h) := by ext <;> simp <;> ring
      have e2 : r.x.getD (i + 1) 0 - r.x.getD i 0
          = (r.x.getD (i + 1) 0 - r.x.getD i 0) + t • (0 : Vec3 ℝ) := by ext <;> simp
      rw [e1]
      nth_rewrite 1 [e2]
      nth_rewrite 2 [e2]
      rfl
    simp only [hfun, hG, hkb]
    rw [← binormal_grad_prev]
    exact hasDerivAt_binormal _ _ _ _ _ hD
  · -- `j = i`
    subst hj
    have hG : r.kappaBGrad sqrt j (j : Int)
        = (-(((2 : ℝ) • skew (r.x.getD (j + 1) 0 - r.x.getD j 0)
              + (r.kappaB sqrt j).outer (r.x.getD (j + 1) 0 - r.x.getD j 0))
            + ((2 : ℝ) • skew (r.x.getD j 0 - r.x.getD (j - 1) 0)
              - (r.kappaB sqrt j).outer (r.x.getD j 0 - r.x.getD (j - 1) 0)))).divS
          ((r.initEdge j).norm sqrt * (r.initEdge ((j : Int) - 1)).norm sqrt
            + (r.x.getD j 0 - r.x.getD (j - 1) 0).dot (r.x.getD (j + 1) 0 - r.x.getD j 0)) := by
      rw [kappaBGrad_at_self sqrt r j (by omega) (by omega), ea, eb, hcomm]
    have hfun : ∀ t : ℝ, (r.displaced j (t • h)).kappaB sqrt j
        = ((2 : ℝ) • ((r.x.getD j 0 - r.x.getD (j - 1) 0) + t • h).cross
            ((r.x.getD (j + 1) 0 - r.x.getD j 0) + t • (-h))).divS
          ((r.initEdge j).norm sqrt * (r.initEdge ((j : Int) - 1)).norm sqrt
            + ((r.x.getD j 0 - r.x.getD (j - 1) 0) + t • h).dot
              ((r.x.getD (j + 1) 0 - r.x.getD j 0) + t • (-h))) := by
      intro t
      rw [kappaB_displaced sqrt r j j (t • h) hi1 hi2 he,
        getD_set_self _ _ _ _ (by omega), getD_set_ne _ _ _ _ _ (by omega),
        getD_set_ne _ _ _ _ _ (by omega)]
      have e1 : r.x.getD j 0 + t • h - r.x.getD (j - 1) 0
          = (r.x.getD j 0 - r.x.getD (j - 1) 0) + t • h := by ext <;> simp <;> ring
      have e2 : r.x.getD (j + 1) 0 - (r.x.getD j 0 + t • h)
          = (r.x.getD (j + 1) 0 - r.x.getD j 0) + t • (-h) := by ext <;> simp <;> ring
      rw [e1, e2]
    simp only [hfun, hG, hkb]
    rw [← binormal_grad_mid]
    exact hasDerivAt_binormal _ _ _ _ _ hD
  · -- `j = i + 1`
    subst hj
    have hcast : ((i + 1 : Nat) : Int) = (i : Int) + 1 := by omega
    have hG : r.kappaBGrad sqrt i ((i + 1 : Nat) : Int)
        = ((2 : ℝ) • skew (r.x.getD i 0 - r.x.getD (i - 1) 0)
            - (r.kappaB sqrt i).outer (r.x.getD i 0 - r.x.getD (i - 1) 0)).divS
          ((r.initEdge i).norm sqrt * (r.initEdge ((i : Int) - 1)).norm sqrt
            + (r.x.getD i 0 - r.x.getD (i - 1) 0).dot (r.x.getD (i + 1) 0 - r.x.getD i 0)) := by
      rw [hcast, kappaBGrad_at_next sqrt r i (by omega) (by omega), ea, eb, hcomm]
    have hfun : ∀ t : ℝ, (r.displaced (i + 1) (t • h)).kappaB sqrt i
        = ((2 : ℝ) • ((r.x.getD i 0 - r.x.getD (i - 1) 0) + t • (0 : Vec3 ℝ)).cross
            ((r.x.getD (i + 1) 0 - r.x.getD i 0) + t • h)).divS
          ((r.initEdge i).norm sqrt * (r.initEdge ((i : Int) - 1)).norm sqrt
            + ((r.x.getD i 0 - r.x.getD (i - 1) 0) + t • (0 : Vec3 ℝ)).dot
              ((r.x.getD (i + 1) 0 - r.x.getD i 0) + t • h)) := by
      intro t
      rw [kappaB_displaced sqrt r i (i + 1) (t • h) hi1 hi2 he,
        getD_set_self _ _ _ _ (by omega), getD_set_ne _ _ _ _ _ (by omega),
        getD_set_ne _ _ _ _ _ (by omega)]
      have e1 : r.x.getD (i + 1) 0 + t • h - r.x.getD i 0
          = (r.x.getD (i + 1) 0 - r.x.getD i 0) + t • h := by ext <;> simp <;> ring
      have e2 : (r.x.getD i 0 - r.x.getD (i - 1) 0) + t • (0 : Vec3 ℝ)
          = r.x.getD i 0 - r.x.getD (i - 1) 0 := by ext <;> simp
      rw [e1, e2]
    simp only [hfun, hG, hkb]
    rw [← binormal_grad_next]
    exact hasDerivAt_binormal _ _ _ _ _ hD

/-- Witness for C16: the rod constructed from the hook-shaped vertices, over
the reals, vertex `i = 1` and `j = 0`, direction `(1, 2, 3)`. -/
theorem kappaBGrad_is_jacobian_witness :
    HasDerivAt (fun t : ℝ => (((hookRod Real.sqrt).displaced 0 (t • (⟨1, 2, 3⟩ : Vec3 ℝ))).kappaB
        Real.sqrt (1 : Nat)).x)
      ((((hookRod Real.sqrt).kappaBGrad Real.sqrt (1 : Nat) (0 : Nat)).mulVec ⟨1, 2, 3⟩).x) 0 :=
  (kappaBGrad_is_jacobian Real.sqrt (hookRod Real.sqrt) 1 0 ⟨1, 2, 3⟩ le_rfl
    (by rw [hookRod, ofVerts, (init_sizes Real.sqrt empty hookVerts).1]; simp [hookVerts])
    (Or.inl rfl)
    (by
      rw [hookRod, ofVerts, (init_sizes Real.sqrt empty hookVerts).1]
      simp [init, reset, compMatFrames, compBishopFrames, refreshEdges, hookVerts, resize,
        ElasticRod.empty, forLoop_set_length])
    (by
      have hl : (hookRod Real.sqrt).e.length = 2 := by
        simp [hookRod, ofVerts, init, reset, compMatFrames, compBishopFrames, refreshEdges,
          hookVerts, resize, ElasticRod.empty, forLoop_set_length]
      intro k hk
      rw [hl] at hk
      have hk' : k = 0 ∨ k = 1 := by omega
      rcases hk' with rfl | rfl <;>
        simp [hookRod, ofVerts, init, reset, compMatFrames, compBishopFrames, refreshEdges,
          hookVerts, resize, ElasticRod.empty, forLoop, vec3_zero_eq])
    (by
      have ht1 : Int.toNat 1 = 1 := rfl
      have ht2 : Int.toNat 2 = 2 := rfl
      norm_num [hookRod, ofVerts, init, reset, compMatFrames, compBishopFrames, refreshEdges,
        hookVerts, resize, ElasticRod.empty, forLoop, edge, initEdge, clampInt, Vec3.norm,
        Vec3.squaredNorm, Vec3.dot, vec3_zero_eq, ht1, ht2, List.replicate])).1

/-! ### C17: the binormal gradient used by `omegaGrad` -/

/-- C17 (fails on the code): on the rod built from `cornerVerts`, for `i = 2`,
`j = 0`, `k = 1`, the gradient of the material curvature in the words of the
claim, whose chain-rule term multiplies the rows `m2[0]`, `-m1[0]` by
`kappaBGrad(k, i) = kappaBGrad(1, 2)`, is `[[2,0,0],[0,2,-2]]`, while
`omegaGrad(2, 0, 1)` multiplies them by `kappaBGrad(i, k) = kappaBGrad(2, 1)`
(line 77) and returns `[[0,-2,0],[0,0,0]]`. -/
theorem omegaGrad_binormal_index :
    (cornerRod Real.sqrt).omegaGradSpec Real.sqrt 2 0 1 = ⟨⟨2, 0, 0⟩, ⟨0, 2, -2⟩⟩
    ∧ (cornerRod Real.sqrt).omegaGrad Real.sqrt 2 0 1 = ⟨⟨0, -2, 0⟩, ⟨0, 0, 0⟩⟩
    ∧ (cornerRod Real.sqrt).kappaBGrad Real.sqrt 1 2 = ⟨⟨0, -2, 2⟩, ⟨0, 0, 0⟩, ⟨-2, 0, 0⟩⟩
    ∧ (cornerRod Real.sqrt).kappaBGrad Real.sqrt 2 1 = ⟨⟨0, 0, 0⟩, ⟨2, 0, -2⟩, ⟨0, 2, 0⟩⟩ := by
  have ht0 : Int.toNat 0 = 0 := rfl
  have ht1 : Int.toNat 1 = 1 := rfl
  have ht2 : Int.toNat 2 = 2 := rfl
  have ht3 : Int.toNat 3 = 3 := rfl
  have hM : (cornerRod Real.sqrt).M.getD 0 default = ⟨⟨1, 0, 0⟩, ⟨0, 0, -1⟩⟩ := by
    simp only [cornerRod, ofVerts, init]
    rw [reset_M_zero Real.sqrt _ (by simp [cornerVerts, forLoop_set_length, resize, ElasticRod.empty])
      (by simp [cornerVerts, resize, ElasticRod.empty]) (by simp [cornerVerts, resize, ElasticRod.empty])]
    norm_num [reset, compMatFrames, compBishopFrames, refreshEdges, cornerVerts, resize,
      ElasticRod.empty, forLoop, edge, clampInt, Vec3.normalized, Vec3.norm, Vec3.squaredNorm,
      Vec3.cross, Vec3.divS, vec3_zero_eq, ht0, ht1, ht2, List.replicate]
  have hx : (cornerRod Real.sqrt).x = cornerVerts := by
    norm_num [cornerRod, ofVerts, init, reset, compMatFrames, compBishopFrames, refreshEdges,
      cornerVerts, resize, ElasticRod.empty, forLoop, vec3_zero_eq, List.replicate]
  have hxr : (cornerRod Real.sqrt).xRest = cornerVerts := by
    norm_num [cornerRod, ofVerts, init, reset, compMatFrames, compBishopFrames, refreshEdges,
      cornerVerts, resize, ElasticRod.empty, forLoop, vec3_zero_eq, List.replicate]
  have he : (cornerRod Real.sqrt).e = [⟨0, 1, 0⟩, ⟨0, 0, 1⟩, ⟨1, 0, 0⟩] := by
    norm_num [cornerRod, ofVerts, init, reset, compMatFrames, compBishopFrames, refreshEdges,
      cornerVerts, resize, ElasticRod.empty, forLoop, vec3_zero_eq, List.replicate]
  have hA : (cornerRod Real.sqrt).kappaBGrad Real.sqrt 1 2
      = ⟨⟨0, -2, 2⟩, ⟨0, 0, 0⟩, ⟨-2, 0, 0⟩⟩ := by
    norm_num [kappaBGrad, kappaB, edge, initEdge, hx, hxr, he, cornerVerts, clampInt, skew,
      Vec3.norm, Vec3.squaredNorm, Vec3.dot, Vec3.cross, Vec3.divS, Vec3.outer, Mat3.divS,
      mat3_add_def, mat3_neg_def, mat3_sub_def, mat3_smul_def, ht0, ht1, ht2, ht3]
  have hB : (cornerRod Real.sqrt).kappaBGrad Real.sqrt 2 1
      = ⟨⟨0, 0, 0⟩, ⟨2, 0, -2⟩, ⟨0, 2, 0⟩⟩ := by
    norm_num [kappaBGrad, kappaB, edge, initEdge, hx, hxr, he, cornerVerts, clampInt, skew,
      Vec3.norm, Vec3.squaredNorm, Vec3.dot, Vec3.cross, Vec3.divS, Vec3.outer, Mat3.divS,
      mat3_add_def, mat3_neg_def, mat3_sub_def, mat3_smul_def, ht0, ht1, ht2, ht3]
  have hg : (cornerRod Real.sqrt).gradHolonomy Real.sqrt 2 0 = 0 := by
    norm_num [gradHolonomy]
  refine ⟨?_, ?_, hA, hB⟩
  · simp only [omegaGradSpec, ht0, hM, hA, hg]
    norm_num [Mat23.mulMat3, Vec3.mulMat, Vec2.outer, vec3_zero_eq, mat23_sub_def]
  · simp only [omegaGrad, ht0, hM, hB, hg]
    norm_num [Mat23.mulMat3, Vec3.mulMat, Vec2.outer, vec3_zero_eq, mat23_sub_def]

/-! ### C19: temporal transport of the twisting vector -/

/-- C19: if `u0` is a unit vector orthogonal to `prevEdge`, and `prevEdge`
and the new `edge(0)` are non-zero and not anti-parallel, then after
`parallelTransportFrameInTime(prevEdge)` the vector `u0` is a unit vector
orthogonal to the new `edge(0)`, whichever of the two branches (small-angle
double cross product, quaternion rotation) the call takes. -/
theorem parallelTransport_keeps_u0 {sqrt : K → K} (hs : ExactSqrt sqrt) (r : ElasticRod K)
    (prevEdge : Vec3 K) (hu : r.u0.squaredNorm = 1) (huo : r.u0.dot prevEdge = 0)
    (hp : prevEdge ≠ 0) (he : r.edge 0 ≠ 0)
    (hna : ¬ ∃ c : K, c < 0 ∧ r.edge 0 = c • prevEdge) :
    (r.parallelTransportFrameInTime sqrt prevEdge).u0.squaredNorm = 1
    ∧ (r.parallelTransportFrameInTime sqrt prevEdge).u0.dot
        ((r.parallelTransportFrameInTime sqrt prevEdge).edge 0) = 0 := by
  have hD := transport_denom_pos hs prevEdge (r.edge 0) hp he hna
  obtain ⟨hsD, hke, hc⟩ := transport_kb_spec hs prevEdge (r.edge 0) r.u0 hD huo
  have hs0 := vec3_squaredNorm_nonneg (((2 : K) • prevEdge.cross (r.edge 0)).divS
    (prevEdge.norm sqrt * (r.edge 0).norm sqrt + prevEdge.dot (r.edge 0)))
  unfold parallelTransportFrameInTime
  simp only
  split
  · rename_i hbr
    have hlt := cos_small_branch hs hs0 hbr
    have hd : prevEdge.dot (r.edge 0) ≠ 0 := by
      have : 0 < prevEdge.dot (r.edge 0) := by nlinarith
      exact this.ne.symm
    exact doubleCross_spec hs prevEdge (r.edge 0) r.u0 hu huo hd
  · rename_i hbr
    have hk := cos_large_branch hs hs0 hbr
    exact rotateByQuat_spec hs _ r.u0 (r.edge 0) hk hu hke hc

theorem parallelTransport_keeps_u0_witness :
    ((hookRod Real.sqrt).parallelTransportFrameInTime Real.sqrt ⟨0, 1, 1⟩).u0.squaredNorm = 1
    ∧ ((hookRod Real.sqrt).parallelTransportFrameInTime Real.sqrt ⟨0, 1, 1⟩).u0.dot
        (((hookRod Real.sqrt).parallelTransportFrameInTime Real.sqrt ⟨0, 1, 1⟩).edge 0) = 0 := by
  have ht1 : Int.toNat 1 = 1 := rfl
  have ht2 : Int.toNat 2 = 2 := rfl
  have hu0 : (hookRod Real.sqrt).u0 = ⟨1, 0, 0⟩ := by
    norm_num [hookRod, ofVerts, init, reset, compMatFrames, compBishopFrames, refreshEdges,
      hookVerts, resize, ElasticRod.empty, forLoop, edge, clampInt, Vec3.normalized, Vec3.norm,
      Vec3.squaredNorm, Vec3.cross, Vec3.divS, vec3_zero_eq, ht1, ht2, List.replicate]
  have he0 : (hookRod Real.sqrt).edge 0 = ⟨0, 1, 0⟩ := by
    norm_num [hookRod, ofVerts, init, reset, compMatFrames, compBishopFrames, refreshEdges,
      hookVerts, resize, ElasticRod.empty, forLoop, edge, clampInt, vec3_zero_eq, ht1, ht2,
      List.replicate]
  refine parallelTransport_keeps_u0 exactSqrt_real (hookRod Real.sqrt) ⟨0, 1, 1⟩ ?_ ?_ ?_ ?_ ?_
  · rw [hu0]; norm_num [Vec3.squaredNorm]
  · rw [hu0]; norm_num [Vec3.dot]
  · intro h
    have := congrArg Vec3.y h
    norm_num at this
  · rw [he0]
    intro h
    have := congrArg Vec3.y h
    norm_num at this
  · rw [he0]
    rintro ⟨c, hc, h⟩
    have h1 := congrArg Vec3.y h
    have h2 := congrArg Vec3.z h
    norm_num at h1 h2
    rw [← h1] at h2
    norm_num at h2

/-! ### C21: no curvature at the tip and at the root -/

/-- C21: with an exact square root, for a rod with `n ≥ 2` vertices whose last
edge `e[n-2]` or last rest edge `xRest[n-1] - xRest[n-2]` is non-zero, and
every index `i ≥ n-1`: both `edge(i-1)` and `edge(i)` are the last edge, their
cross product is zero, the denominator of `kappaB(i)` is positive (so the
quotient is defined), and `kappaB(i)` is the zero vector; and `kappaB(0)` is
the zero vector. -/
theorem kappaB_tip_root_zero {sqrt : K → K} (hs : ExactSqrt sqrt) (r : ElasticRod K)
    (hn : 2 ≤ r.x.length) :
    (∀ i : Int, (r.x.length : Int) - 1 ≤ i →
      (r.e.getD (r.x.length - 2) 0 ≠ 0
        ∨ r.xRest.getD (r.x.length - 1) 0 - r.xRest.getD (r.x.length - 2) 0 ≠ 0) →
      r.edge (i - 1) = r.e.getD (r.x.length - 2) 0
      ∧ r.edge i = r.e.getD (r.x.length - 2) 0
      ∧ (r.edge (i - 1)).cross (r.edge i) = 0
      ∧ 0 < r.kappaBDenom sqrt i
      ∧ r.kappaB sqrt i = 0)
    ∧ r.kappaB sqrt 0 = 0 := by
  refine ⟨?_, by simp only [kappaB, if_true]⟩
  intro i hi hlast
  have h1 : clampInt (i - 1) 0 ((r.x.length : Int) - 2) = (r.x.length : Int) - 2 :=
    clampInt_of_ge _ _ _ (by omega) (by omega)
  have h2 : clampInt i 0 ((r.x.length : Int) - 2) = (r.x.length : Int) - 2 :=
    clampInt_of_ge _ _ _ (by omega) (by omega)
  have h3 : ((r.x.length : Int) - 2).toNat = r.x.length - 2 := by omega
  have h4 : ((r.x.length : Int) - 2 + 1).toNat = r.x.length - 1 := by omega
  have e1 : r.edge (i - 1) = r.e.getD (r.x.length - 2) 0 := by
    simp only [edge, h1, h3]
  have e2 : r.edge i = r.e.getD (r.x.length - 2) 0 := by
    simp only [edge, h2, h3]
  have r1 : r.initEdge (i - 1)
      = r.xRest.getD (r.x.length - 1) 0 - r.xRest.getD (r.x.length - 2) 0 := by
    simp only [initEdge, h1, h3, h4]
  have r2 : r.initEdge i
      = r.xRest.getD (r.x.length - 1) 0 - r.xRest.getD (r.x.length - 2) 0 := by
    simp only [initEdge, h2, h3, h4]
  have hx : (r.edge (i - 1)).cross (r.edge i) = 0 := by
    rw [e1, e2, vec3_cross_self]
  have hden : 0 < r.kappaBDenom sqrt i := by
    simp only [kappaBDenom, r1, r2, e1, e2, vec3_dot_self]
    rw [(vec3_norm_spec hs _).2]
    rcases hlast with h | h
    · have := vec3_squaredNorm_pos h
      have := vec3_squaredNorm_nonneg
        (r.xRest.getD (r.x.length - 1) 0 - r.xRest.getD (r.x.length - 2) 0)
      linarith
    · have := vec3_squaredNorm_pos h
      have := vec3_squaredNorm_nonneg (r.e.getD (r.x.length - 2) 0)
      linarith
  have hi0 : i ≠ 0 := by omega
  refine ⟨e1, e2, hx, hden, ?_⟩
  simp only [kappaB, if_neg hi0, hx, vec3_smul_zero, vec3_divS_zero]

/-- Witness for C21: the bent three-vertex rod over the reals (last edge
`(1,0,0)`), at the index `i = 5` beyond the tip. -/
theorem kappaB_tip_root_zero_witness :
    0 < (bentRod : ElasticRod ℝ).kappaBDenom Real.sqrt 5
    ∧ (bentRod : ElasticRod ℝ).kappaB Real.sqrt 5 = 0
    ∧ (bentRod : ElasticRod ℝ).kappaB Real.sqrt 0 = 0 := by
  have h := kappaB_tip_root_zero exactSqrt_real (bentRod : ElasticRod ℝ) (by simp [bentRod])
  have h5 := h.1 5 (by simp [bentRod]) (Or.inl (by
    intro h0
    have := congrArg Vec3.x h0
    simp [bentRod] at this))
  exact ⟨h5.2.2.2.1, h5.2.2.2.2, h.2⟩

end Claims

end StrandStorm
